import Mathlib

/-!
# Framer: a verification development for `src/framer.go`

The Go program frames JPEG photographs (solid border or fixed-size "Instagram"
canvas) and draws a caption under the picture.  This file embeds the geometric
part of the program, the resolution of its options and its fallback caption
renderer in Lean and proves properties of them.

Conventions of the embedding

* Go `int` is the 64-bit type of the amd64 and arm64 ports: a value is an `Int`,
  and the sums, differences and products computed by the compositors of framer.go
  are reduced into the 64-bit range by `wrap64`.  Integer division `/` of Go
  truncates toward zero and is `Int.tdiv`.  The functions of package `image` are
  embedded on `Int` as they stand; the theorems that go through them bound the
  sizes they are applied to.
* Go `float64` is modelled exactly: a finite value is a fraction, and each
  operation rounds the exact result to the nearest value with a 53-bit
  significand, ties to even.  The exponent range is not bounded; for operands
  that come from 64-bit integers no intermediate result leaves the normal range
  of binary64, so the two agree there.  A conversion `int(x)` of a value outside
  the 64-bit range gives the minimum integer, as the amd64 port does.
* Go strings are byte sequences, `List Nat`.
* Where the program discards the error of a `strconv` function, the embedding is
  the value Go returns next to the error.
* An image is its bounding rectangle together with a total pixel function.
-/

namespace Framer

/-! ## Go `int` -/

/-- The 64-bit two's complement value of an integer: what Go keeps of the result of `+`,
`-` and `*` on `int`. -/
def wrap64 (z : Int) : Int := (z + 2 ^ 63) % 2 ^ 64 - 2 ^ 63

/-- Go `a + b` on `int`. -/
def add64 (a b : Int) : Int := wrap64 (a + b)

/-- Go `a - b` on `int`. -/
def sub64 (a b : Int) : Int := wrap64 (a - b)

/-- Go `a * b` on `int`. -/
def mul64 (a b : Int) : Int := wrap64 (a * b)

/-! ## Package `image`: points and rectangles -/

/-- Go `image.Point`. -/
structure Point where
  X : Int
  Y : Int
deriving DecidableEq, Repr

/-- Go `image.Rectangle`: the points with `Min.X ≤ x < Max.X`, `Min.Y ≤ y < Max.Y`. -/
structure Rectangle where
  Min : Point
  Max : Point
deriving DecidableEq, Repr

/-- Go `image.Rect`: the rectangle with the given corners, put in canonical order. -/
def Rect (x0 y0 x1 y1 : Int) : Rectangle :=
  let xa := if x0 > x1 then x1 else x0
  let xb := if x0 > x1 then x0 else x1
  let ya := if y0 > y1 then y1 else y0
  let yb := if y0 > y1 then y0 else y1
  ⟨⟨xa, ya⟩, ⟨xb, yb⟩⟩

/-- Go `Rectangle.Dx`. -/
def Rectangle.Dx (r : Rectangle) : Int := r.Max.X - r.Min.X

/-- Go `Rectangle.Dy`. -/
def Rectangle.Dy (r : Rectangle) : Int := r.Max.Y - r.Min.Y

/-- Go `Rectangle.Empty`. -/
def Rectangle.Empty (r : Rectangle) : Bool :=
  decide (r.Min.X ≥ r.Max.X) || decide (r.Min.Y ≥ r.Max.Y)

/-- Go `Rectangle.Add`: translation by a point. -/
def Rectangle.Add (r : Rectangle) (p : Point) : Rectangle :=
  ⟨⟨r.Min.X + p.X, r.Min.Y + p.Y⟩, ⟨r.Max.X + p.X, r.Max.Y + p.Y⟩⟩

/-- Go `Rectangle.Intersect`; an empty intersection is the zero rectangle. -/
def Rectangle.Intersect (r s : Rectangle) : Rectangle :=
  let r1 : Rectangle :=
    ⟨⟨if r.Min.X < s.Min.X then s.Min.X else r.Min.X,
      if r.Min.Y < s.Min.Y then s.Min.Y else r.Min.Y⟩,
     ⟨if r.Max.X > s.Max.X then s.Max.X else r.Max.X,
      if r.Max.Y > s.Max.Y then s.Max.Y else r.Max.Y⟩⟩
  if r1.Empty then ⟨⟨0, 0⟩, ⟨0, 0⟩⟩ else r1

/-- Go `Point.In`. -/
def Point.In (p : Point) (r : Rectangle) : Bool :=
  decide (r.Min.X ≤ p.X) && decide (p.X < r.Max.X) &&
    decide (r.Min.Y ≤ p.Y) && decide (p.Y < r.Max.Y)

/-! ## `float64` -/

/-- A finite `float64` value, kept as the exact fraction `num / den`. -/
structure F64 where
  num : Int
  den : Nat
deriving Repr

/-- Number of binary digits of `n`, by halving; `fuel` bounds the number of steps. -/
def bitLenAux : Nat → Nat → Nat
  | 0, _ => 0
  | fuel + 1, n => if n = 0 then 0 else bitLenAux fuel (n / 2) + 1

/-- Number of binary digits of `n`: `2 ^ (bitLen n - 1) ≤ n < 2 ^ bitLen n` for `n > 0`. -/
def bitLen (n : Nat) : Nat := bitLenAux n n

/-- The integer nearest to `n / d`, ties to the even one. -/
def roundHalfEven (n d : Nat) : Nat :=
  let q := n / d
  let r := n % d
  if 2 * r < d then q else if d < 2 * r then q + 1 else if q % 2 = 0 then q else q + 1

/-- The value with a 53-bit significand nearest to `n / d` (ties to even), as a
fraction.  The fraction is first scaled by a power of two so that its integer
part has exactly 53 binary digits, then rounded to an integer, then scaled back. -/
def roundFrac (n d : Nat) : Nat × Nat :=
  if n = 0 then (0, 1)
  else
    let k := bitLen n
    let l := bitLen d
    let up := (53 + l) - k
    let down := k - (53 + l)
    let N := n * 2 ^ up
    let D := d * 2 ^ down
    let c := if 2 ^ 53 * D ≤ N then 2 else 1
    (roundHalfEven N (D * c) * (2 ^ down * c), 2 ^ up)

namespace F64

/-- Rounding of the exact fraction `z / d` to `float64`; the sign is kept. -/
def round (z : Int) (d : Nat) : F64 :=
  let r := roundFrac z.natAbs d
  ⟨z.sign * r.1, r.2⟩

/-- Go conversion `float64(z)` of an `int`. -/
def ofInt (z : Int) : F64 := round z 1

/-- Go `a * b` on `float64`. -/
def mul (a b : F64) : F64 := round (a.num * b.num) (a.den * b.den)

/-- Go `a / b` on `float64`, for `b ≠ 0`. -/
def div (a b : F64) : F64 := round (a.num * b.den * b.num.sign) (a.den * b.num.natAbs)

/-- Go `a + b` on `float64`. -/
def add (a b : F64) : F64 := round (a.num * b.den + b.num * a.den) (a.den * b.den)

/-- Go `a < b` on `float64`. -/
def lt (a b : F64) : Bool := decide (a.num * b.den < b.num * a.den)

/-- Go conversion `int(a)`: truncation toward zero.  For a value whose truncation is not
a 64-bit integer Go leaves the result to the implementation; the amd64 port gives the
minimum integer `-2 ^ 63`, which is the value taken here. -/
def toInt (a : F64) : Int :=
  let z := Int.tdiv a.num a.den
  if -2 ^ 63 ≤ z ∧ z < 2 ^ 63 then z else -2 ^ 63

/-- Go `math.Floor`. -/
def floor (a : F64) : F64 := ⟨a.num / a.den, 1⟩

/-- Go `math.Max` on finite values. -/
def max (a b : F64) : F64 := if lt a b then b else a

/-- The rational number a `float64` value stands for. -/
def toRat (a : F64) : ℚ := (a.num : ℚ) / (a.den : ℚ)

end F64

/-! ## Package `imaging` (third-party): size of a resized image -/

/-- Bounds `(Dx, Dy)` of the image returned by `imaging.Resize(img, width, height, filter)`
for a source of size `srcW × srcH`, after the library's documented contract: a negative
request, a `0 × 0` request or an empty source give the empty image, and when exactly one
of `width`, `height` is `0` that side is computed from the aspect ratio of the source,
at least one pixel. -/
def imagingResizeSize (srcW srcH width height : Int) : Int × Int :=
  if width < 0 ∨ height < 0 then (0, 0)
  else if width = 0 ∧ height = 0 then (0, 0)
  else if srcW ≤ 0 ∨ srcH ≤ 0 then (0, 0)
  else
    let dstW :=
      if width = 0 then
        let tmpW := F64.div (F64.mul (F64.ofInt height) (F64.ofInt srcW)) (F64.ofInt srcH)
        F64.toInt (F64.max ⟨1, 1⟩ (F64.floor (F64.add tmpW ⟨1, 2⟩)))
      else width
    let dstH :=
      if height = 0 then
        let tmpH := F64.div (F64.mul (F64.ofInt dstW) (F64.ofInt srcH)) (F64.ofInt srcW)
        F64.toInt (F64.max ⟨1, 1⟩ (F64.floor (F64.add tmpH ⟨1, 2⟩)))
      else height
    (dstW, dstH)

/-! ## Pixels and drawing (packages `image/color`, `image/draw`) -/

/-- Go `color.RGBA`; the channels are 8-bit values. -/
structure RGBA where
  R : Nat
  G : Nat
  B : Nat
  A : Nat
deriving DecidableEq, Repr

/-- Opaque white, `color.RGBA{255, 255, 255, 255}`. -/
def white : RGBA := ⟨255, 255, 255, 255⟩

/-- An image: its bounds and the colour `At(x, y)` (already converted to `color.RGBA`). -/
structure Image where
  bounds : Rectangle
  At : Int → Int → RGBA

/-- Go `image.NewRGBA`: every pixel is the zero colour. -/
def NewRGBA (r : Rectangle) : Image := ⟨r, fun _ _ => ⟨0, 0, 0, 0⟩⟩

/-- Go `&image.Uniform{c}`: one colour on the bounds `(-1e9, -1e9)-(1e9, 1e9)`. -/
def Uniform (c : RGBA) : Image :=
  ⟨⟨⟨-1000000000, -1000000000⟩, ⟨1000000000, 1000000000⟩⟩, fun _ _ => c⟩

/-- Go `draw.Draw(dst, r, src, sp, draw.Src)`: `r` is clipped to the bounds of `dst` and to
the bounds of `src` moved so that `sp` lies on `r.Min`; inside the clipped rectangle the
pixel `(x, y)` becomes the source pixel `sp + ((x, y) - r.Min)`. -/
def Draw (dst : Image) (r : Rectangle) (src : Image) (sp : Point) : Image :=
  let orig := r.Min
  let r1 := r.Intersect dst.bounds
  let r2 := r1.Intersect (src.bounds.Add ⟨orig.X - sp.X, orig.Y - sp.Y⟩)
  ⟨dst.bounds, fun x y =>
    if Point.In ⟨x, y⟩ r2 then src.At (sp.X + (x - orig.X)) (sp.Y + (y - orig.Y))
    else dst.At x y⟩

/-! ## The compositors -/

/-- Go `createSolidBorder` (framer.go, lines 164-187). -/
def createSolidBorder (img : Image) (borderThickness : Int) (borderColor : RGBA)
    (padding : Int) : Image :=
  let imgW := img.bounds.Dx
  let imgH := img.bounds.Dy
  let borderedW := add64 imgW (mul64 2 borderThickness)
  let borderedH := add64 imgH (mul64 2 borderThickness)
  let borderedImg0 := NewRGBA (Rect 0 0 borderedW borderedH)
  let borderedImg1 := Draw borderedImg0 borderedImg0.bounds (Uniform borderColor) ⟨0, 0⟩
  let borderedImg := Draw borderedImg1
    (Rect borderThickness borderThickness (add64 borderThickness imgW)
      (add64 borderThickness imgH))
    img ⟨0, 0⟩
  if padding > 0 then
    let finalW := add64 borderedW (mul64 2 padding)
    let finalH := add64 borderedH (mul64 2 padding)
    let finalImg0 := NewRGBA (Rect 0 0 finalW finalH)
    let finalImg1 := Draw finalImg0 finalImg0.bounds (Uniform white) ⟨0, 0⟩
    Draw finalImg1 (Rect padding padding (add64 padding borderedW) (add64 padding borderedH))
      borderedImg ⟨0, 0⟩
  else borderedImg

/-- The geometry computed inside `createInstagramFrame`. -/
structure InstagramLayout where
  /-- The size the source is scaled to, `int(float64(orig) * scale)`. -/
  scaledW : Int
  scaledH : Int
  /-- Bounds of the image `imaging.Resize` returns for that request. -/
  contentW : Int
  contentH : Int
  /-- The variables `newW`, `newH` at the end: the padded size when `padding > 0`. -/
  newW : Int
  newH : Int
  /-- Bounds of `resizedImg` when the border is added. -/
  resizedDx : Int
  resizedDy : Int
  /-- Bounds of `borderedImg`. -/
  borderedDx : Int
  borderedDy : Int
  /-- Where the bordered block is pasted on the canvas. -/
  x : Int
  y : Int
deriving DecidableEq, Repr

/-- Lines 112-117 of `createInstagramFrame`: the scaling factor, for `origW, origH ≠ 0`. -/
def instagramScale (origW origH maxSize : Int) : F64 :=
  let scaleW := F64.div (F64.ofInt maxSize) (F64.ofInt origW)
  let scaleH := F64.div (F64.ofInt maxSize) (F64.ofInt origH)
  if F64.lt scaleH scaleW then scaleH else scaleW

/-- Lines 108-153 of `createInstagramFrame` for a source of size `origW × origH`.  An empty
source (a side of length `0`) makes the scale infinite or NaN and is outside the model. -/
def instagramLayout (origW origH maxSize borderThickness padding : Int) :
    Option InstagramLayout :=
  if origW = 0 ∨ origH = 0 then none
  else
    let frameW : Int := 1080
    let frameH : Int := 1350
    let scale := instagramScale origW origH maxSize
    let scaledW := F64.toInt (F64.mul (F64.ofInt origW) scale)
    let scaledH := F64.toInt (F64.mul (F64.ofInt origH) scale)
    let content := imagingResizeSize origW origH scaledW scaledH
    let paddedW := add64 scaledW (mul64 2 padding)
    let paddedH := add64 scaledH (mul64 2 padding)
    let newW := if padding > 0 then paddedW else scaledW
    let newH := if padding > 0 then paddedH else scaledH
    let resizedDx := if padding > 0 then (Rect 0 0 paddedW paddedH).Dx else content.1
    let resizedDy := if padding > 0 then (Rect 0 0 paddedW paddedH).Dy else content.2
    let borderedW := add64 resizedDx (mul64 2 borderThickness)
    let borderedH := add64 resizedDy (mul64 2 borderThickness)
    let borderedDx := (Rect 0 0 borderedW borderedH).Dx
    let borderedDy := (Rect 0 0 borderedW borderedH).Dy
    let x := Int.tdiv (sub64 frameW borderedDx) 2
    let y := Int.tdiv (sub64 frameH borderedDy) 2
    some ⟨scaledW, scaledH, content.1, content.2, newW, newH, resizedDx, resizedDy,
      borderedDx, borderedDy, x, y⟩

/-- What `createInstagramFrame` returns: the bounds of the canvas, the reported size of
the resized image and the reported position of the picture.  The pixels of the canvas
depend on the resampling filter and are not modelled. -/
structure InstagramFrame where
  canvas : Rectangle
  resizedSize : Point
  imagePos : Point
deriving DecidableEq, Repr

/-- Go `createInstagramFrame` (framer.go, lines 106-162). -/
def createInstagramFrame (img : Image) (maxSize borderThickness : Int) (_borderColor : RGBA)
    (padding : Int) : Option InstagramFrame :=
  match instagramLayout img.bounds.Dx img.bounds.Dy maxSize borderThickness padding with
  | none => none
  | some g =>
    some ⟨(NewRGBA (Rect 0 0 1080 1350)).bounds, ⟨g.newW, g.newH⟩,
      ⟨add64 (add64 g.x borderThickness) padding, add64 (add64 g.y borderThickness) padding⟩⟩

/-! ## Caption placement -/

/-- The anchor computed by `addCaption` (framer.go, lines 286-295) from the measured text
width and font height. -/
def addCaptionAnchor (approxTextWidth fontHeight : Int) (imageSize : Point)
    (borderThickness padding : Int) (imagePos : Option Point) : Point :=
  let imgW := imageSize.X
  let imgH := imageSize.Y
  match imagePos with
  | some pos =>
    ⟨pos.X + Int.tdiv (imgW - approxTextWidth) 2, pos.Y + imgH + borderThickness + fontHeight⟩
  | none =>
    let totalBorder := borderThickness + padding
    ⟨totalBorder + Int.tdiv (imgW - approxTextWidth) 2,
     totalBorder + imgH + Int.tdiv (borderThickness + padding - fontHeight) 2 + fontHeight⟩

/-- Go strings are byte sequences. -/
abbrev GoString := List Nat

/-- The bytes of an ASCII string literal. -/
def str (s : String) : GoString := s.toList.map Char.toNat

/-- The anchor computed by `fallbackAddCaption` (framer.go, lines 311-325). -/
def fallbackAddCaptionAnchor (captionText : GoString) (fontSize : Int) (imageSize : Point)
    (borderThickness padding : Int) (imagePos : Option Point) : Point :=
  let charWidth := Int.tdiv fontSize 2
  let textW := (captionText.length : Int) * charWidth
  let textH := fontSize
  let imgW := imageSize.X
  let imgH := imageSize.Y
  match imagePos with
  | some pos =>
    ⟨pos.X + Int.tdiv (imgW - textW) 2, pos.Y + imgH + borderThickness + textH⟩
  | none =>
    let totalBorder := borderThickness + padding
    ⟨totalBorder + Int.tdiv (imgW - textW) 2,
     totalBorder + imgH + Int.tdiv (borderThickness + padding - textH) 2 + textH⟩

/-! ## Colour parsing -/

/-- Go `strings.TrimPrefix`. -/
def TrimPrefix (s pre : GoString) : GoString :=
  if pre.isPrefixOf s then s.drop pre.length else s

/-- The helper `lower` of Go `strconv`: `c | ('x' - 'X')`. -/
def lower (c : Nat) : Nat := c ||| 0x20

/-- The `switch` in the digit loop of Go `strconv.ParseUint`, for an explicit base: the
value of the byte `c` read as a digit or a letter, `none` for any other byte. -/
def digitValue (c : Nat) : Option Nat :=
  if 48 ≤ c ∧ c ≤ 57 then some (c - 48)
  else if 97 ≤ lower c ∧ lower c ≤ 122 then some (lower c - 97 + 10)
  else none

/-- The digit loop of Go `strconv.ParseUint` for an explicit base (no underscores, no
base prefix): `cutoff` is `maxUint64 / base + 1`, `maxVal` is `2 ^ bitSize - 1`. -/
def parseUintLoop (base cutoff maxVal : Nat) : GoString → Nat → Except String Nat
  | [], n => .ok n
  | c :: cs, n =>
    match digitValue c with
    | none => .error "invalid syntax"
    | some d =>
      if d ≥ base then .error "invalid syntax"
      else if n ≥ cutoff then .error "value out of range"
      else
        let n1 := n * base + d
        if n1 ≥ 2 ^ 64 ∨ n1 > maxVal then .error "value out of range"
        else parseUintLoop base cutoff maxVal cs n1

/-- Go `strconv.ParseUint(s, base, bitSize)` for `2 ≤ base ≤ 36` and `bitSize > 0`. -/
def ParseUint (s : GoString) (base bitSize : Nat) : Except String Nat :=
  if s = [] then .error "invalid syntax"
  else parseUintLoop base ((2 ^ 64 - 1) / base + 1) (2 ^ bitSize - 1) s 0

/-- Go `hexToRGB` (framer.go, lines 35-55). -/
def hexToRGB (hexColor : GoString) : Except String RGBA :=
  let hexColor := TrimPrefix hexColor (str "#")
  if hexColor.length ≠ 6 then .error "hex color must be 6 digits"
  else
    match ParseUint (hexColor.take 2) 16 8 with
    | .error e => .error e
    | .ok r =>
      match ParseUint ((hexColor.drop 2).take 2) 16 8 with
      | .error e => .error e
      | .ok g =>
        match ParseUint ((hexColor.drop 4).take 2) 16 8 with
        | .error e => .error e
        | .ok b => .ok ⟨r % 256, g % 256, b % 256, 255⟩

/-! ## Caption text -/

/-- Go `time.Month`. -/
inductive Month where
  | January | February | March | April | May | June
  | July | August | September | October | November | December
deriving DecidableEq, Repr

/-- Go `Month.String`: the English name of the month. -/
def Month.String : Month → GoString
  | .January => str "January"
  | .February => str "February"
  | .March => str "March"
  | .April => str "April"
  | .May => str "May"
  | .June => str "June"
  | .July => str "July"
  | .August => str "August"
  | .September => str "September"
  | .October => str "October"
  | .November => str "November"
  | .December => str "December"

/-- The conversion `Month(n)` of a month number, `1` for January; `absDate` gives no
number outside `1`-`12`. -/
def Month.ofInt (n : Int) : Month :=
  if n = 1 then .January else if n = 2 then .February else if n = 3 then .March
  else if n = 4 then .April else if n = 5 then .May else if n = 6 then .June
  else if n = 7 then .July else if n = 8 then .August else if n = 9 then .September
  else if n = 10 then .October else if n = 11 then .November else .December

/-- Go `time.Time`: an instant, kept as the seconds elapsed since January 1 of the year 1,
00:00:00 UTC (the result of the method `sec`) and the nanoseconds within the second,
together with the offset, in seconds east of UTC, that the location of the time has at
that instant. -/
structure Time where
  sec : Int
  nsec : Nat
  offset : Int
deriving DecidableEq, Repr

/-- Go `Time.IsZero`: `t.sec() == 0 && t.nsec() == 0`, the instant January 1, year 1,
00:00:00 UTC in whatever location. -/
def Time.IsZero (t : Time) : Bool := decide (t.sec = 0) && decide (t.nsec = 0)

/-- Go `isLeap` of package `time`. -/
def isLeap (year : Int) : Bool :=
  year % 4 == 0 && (year % 100 != 0 || year % 400 == 0)

/-- The table `daysBefore` of package `time`: the days of a non-leap year before the month
with index `m`, counted from `0` for January. -/
def daysBefore (m : Int) : Int :=
  if m = 0 then 0 else if m = 1 then 31 else if m = 2 then 59 else if m = 3 then 90
  else if m = 4 then 120 else if m = 5 then 151 else if m = 6 then 181
  else if m = 7 then 212 else if m = 8 then 243 else if m = 9 then 273
  else if m = 10 then 304 else if m = 11 then 334 else 365

/-- The first half of `absDate` of package `time`: the year and the day within the year
of the day number `d0`.  Days are counted here from January 1 of the year 1; Go counts
them from a year that lies a whole number of 400-year cycles earlier. -/
def absYearDay (d0 : Int) : Int × Int :=
  let n400 := d0 / 146097
  let d1 := d0 - 146097 * n400
  let n100a := d1 / 36524
  let n100 := n100a - n100a / 4
  let d2 := d1 - 36524 * n100
  let n4 := d2 / 1461
  let d3 := d2 - 1461 * n4
  let n1a := d3 / 365
  let n1 := n1a - n1a / 4
  (400 * n400 + 100 * n100 + 4 * n4 + n1 + 1, d3 - 365 * n1)

/-- The second half of `absDate` of package `time`: the month, `1` for January, of the
day `yday` of the year `year`. -/
def absMonth (year yday : Int) : Int :=
  if isLeap year = true ∧ yday = 59 then 2
  else
    let day := if isLeap year = true ∧ yday > 59 then yday - 1 else yday
    let m := day / 31
    if day ≥ daysBefore (m + 1) then m + 2 else m + 1

/-- The day number of the wall clock of a time in its location: Go `t.abs()` divided by
the seconds of a day. -/
def Time.absDay (t : Time) : Int := (t.sec + t.offset) / 86400

/-- Go `t.Year()`: the year of the wall clock in the location of the time. -/
def Time.year (t : Time) : Int := (absYearDay t.absDay).1

/-- Go `t.Month()`: the month of the wall clock in the location of the time. -/
def Time.month (t : Time) : Month :=
  Month.ofInt (absMonth (absYearDay t.absDay).1 (absYearDay t.absDay).2)

/-- The helper `appendInt` of Go `time`: `x` in decimal, zero-padded to `width` digits,
after a minus sign when `x` is negative. -/
def appendInt (x : Int) (width : Nat) : GoString :=
  let digits := (Nat.toDigits 10 x.natAbs).map Char.toNat
  (if x < 0 then str "-" else []) ++ List.replicate (width - digits.length) 48 ++ digits

/-- Go `dt.Format("Jan")`: the first three letters of the month name. -/
def Time.FormatJan (t : Time) : GoString := t.month.String.take 3

/-- Go `dt.Format("06")`: the absolute value of the year modulo 100, on two digits. -/
def Time.Format06 (t : Time) : GoString :=
  let y := if t.year < 0 then -t.year else t.year
  appendInt (Int.tmod y 100) 2

/-- Go `strings.ToUpper` on ASCII text: the letters `a`-`z` become `A`-`Z`. -/
def ToUpper (s : GoString) : GoString :=
  s.map fun c => if 97 ≤ c ∧ c ≤ 122 then c - 32 else c

/-- Go `generateCaptionFromDate` (framer.go, lines 79-86). -/
def generateCaptionFromDate (dt : Time) : GoString :=
  if dt.IsZero then str " - --- -"
  else
    let month := dt.FormatJan
    let year := dt.Format06
    str " - " ++ ToUpper month ++ str " '" ++ year ++ str " -"

/-- The caption text chosen by `processImage` (framer.go, lines 400-412); `exifDate` is
the result of `getExifDate`. -/
def processImage_captionText (caption : GoString) (exifDate : Except String Time) :
    GoString :=
  if caption ≠ [] then caption
  else
    match exifDate with
    | .error _ => str " - --- -"
    | .ok dt => generateCaptionFromDate dt

/-! ## Definitions used to state the properties -/

/-- A hexadecimal digit, either case: `0`-`9`, `A`-`F`, `a`-`f`. -/
def isHexDigit (c : Nat) : Bool :=
  (decide (48 ≤ c) && decide (c ≤ 57)) || (decide (65 ≤ c) && decide (c ≤ 70)) ||
    (decide (97 ≤ c) && decide (c ≤ 102))

/-- The value of a hexadecimal digit. -/
def hexDigitValue (c : Nat) : Nat :=
  if c ≤ 57 then c - 48 else if c ≤ 70 then c - 55 else c - 87

/-- The value of a pair of hexadecimal digits. -/
def hexPairValue (a b : Nat) : Nat := 16 * hexDigitValue a + hexDigitValue b

/-- The colour a string stands for, in the words of the specification: after one optional
leading `#` is removed, exactly six hexadecimal digits, read as three pairs, with full
opacity; no colour for any other string. -/
def hexColourSpec (s : GoString) : Option RGBA :=
  let digits := match s with
    | 35 :: rest => rest
    | _ => s
  match digits with
  | [a, b, c, d, e, f] =>
    if isHexDigit a ∧ isHexDigit b ∧ isHexDigit c ∧ isHexDigit d ∧ isHexDigit e ∧ isHexDigit f
    then some ⟨hexPairValue a b, hexPairValue c d, hexPairValue e f, 255⟩
    else none
  | _ => none

/-- The upper-cased three-letter English abbreviation of a month. -/
def monthAbbrevUpper : Month → GoString
  | .January => str "JAN"
  | .February => str "FEB"
  | .March => str "MAR"
  | .April => str "APR"
  | .May => str "MAY"
  | .June => str "JUN"
  | .July => str "JUL"
  | .August => str "AUG"
  | .September => str "SEP"
  | .October => str "OCT"
  | .November => str "NOV"
  | .December => str "DEC"

/-- The last two decimal digits of a year. -/
def lastTwoDigits (year : Int) : GoString :=
  [48 + (year.natAbs / 10) % 10, 48 + year.natAbs % 10]

/-- The leap years of the Gregorian calendar. -/
def leapYear (y : Int) : Bool :=
  decide (y % 4 = 0 ∧ (y % 100 ≠ 0 ∨ y % 400 = 0))

/-- The number of days from January 1 of the year 1 to January 1 of the year `y`. -/
def daysBeforeYear (y : Int) : Int :=
  365 * (y - 1) + (y - 1) / 4 - (y - 1) / 100 + (y - 1) / 400

/-- The number of days of a month of the Gregorian calendar. -/
def monthLength (y : Int) : Month → Int
  | .January => 31
  | .February => if leapYear y = true then 29 else 28
  | .March => 31
  | .April => 30
  | .May => 31
  | .June => 30
  | .July => 31
  | .August => 31
  | .September => 30
  | .October => 31
  | .November => 30
  | .December => 31

/-- The number of days of the year `y` that precede the month `m`: the lengths of the
months before it. -/
def dayOfYearStart (y : Int) : Month → Int
  | .January => 0
  | .February => 31
  | .March => 31 + monthLength y .February
  | .April => 31 + monthLength y .February + 31
  | .May => 31 + monthLength y .February + 31 + 30
  | .June => 31 + monthLength y .February + 31 + 30 + 31
  | .July => 31 + monthLength y .February + 31 + 30 + 31 + 30
  | .August => 31 + monthLength y .February + 31 + 30 + 31 + 30 + 31
  | .September => 31 + monthLength y .February + 31 + 30 + 31 + 30 + 31 + 31
  | .October => 31 + monthLength y .February + 31 + 30 + 31 + 30 + 31 + 31 + 30
  | .November => 31 + monthLength y .February + 31 + 30 + 31 + 30 + 31 + 31 + 30 + 31
  | .December => 31 + monthLength y .February + 31 + 30 + 31 + 30 + 31 + 31 + 30 + 31 + 30

/-- The wall clock of the time `t`, in seconds since January 1 of the year 1, 00:00:00 in
the location of the time, lies in the month `m` of the year `y`. -/
def Time.inMonth (t : Time) (y : Int) (m : Month) : Prop :=
  (daysBeforeYear y + dayOfYearStart y m) * 86400 ≤ t.sec + t.offset ∧
  t.sec + t.offset < (daysBeforeYear y + dayOfYearStart y m + monthLength y m) * 86400

/-- The index of a month in the year, `0` for January. -/
def Month.index : Month → Int
  | .January => 0 | .February => 1 | .March => 2 | .April => 3 | .May => 4 | .June => 5
  | .July => 6 | .August => 7 | .September => 8 | .October => 9 | .November => 10
  | .December => 11

/-- The scaling factor in exact arithmetic, `min(M / W, M / H)`. -/
def exactScale (W H M : Int) : ℚ := min ((M : ℚ) / W) ((M : ℚ) / H)

/-- The size and position the specification states for the Instagram frame: the scaled
sides are `floor(W * s) + 2p` and `floor(H * s) + 2p` with the exact `s = min(M/W, M/H)`,
and the picture is at `((1080 - (rw + 2t))/2 + t + p, (1350 - (rh + 2t))/2 + t + p)`. -/
def specInstagramFrame (W H M t p : Int) : InstagramFrame :=
  let rw : Int := ⌊(W : ℚ) * exactScale W H M⌋ + 2 * p
  let rh : Int := ⌊(H : ℚ) * exactScale W H M⌋ + 2 * p
  ⟨⟨⟨0, 0⟩, ⟨1080, 1350⟩⟩, ⟨rw, rh⟩,
    ⟨Int.tdiv (1080 - (rw + 2 * t)) 2 + t + p, Int.tdiv (1350 - (rh + 2 * t)) 2 + t + p⟩⟩

/-- A source picture of the given size, all white. -/
def blankImage (W H : Int) : Image := ⟨Rect 0 0 W H, fun _ _ => white⟩

/-- Twice the horizontal midpoint, on the canvas, of the content area of an Instagram frame:
the scaled picture lies `padding` inside the padded picture, which lies `borderThickness`
inside the bordered block, which is pasted at `g.x`. -/
def contentMidX2 (g : InstagramLayout) (borderThickness padding : Int) : Int :=
  2 * (g.x + borderThickness + padding) + g.contentW

/-- Twice the horizontal midpoint of a text span `[x, x + textWidth)`. -/
def textMidX2 (anchor : Point) (textWidth : Int) : Int := 2 * anchor.X + textWidth

/-- The bottom edge of the bordered block on the canvas: its top plus its height. -/
def blockBottom (g : InstagramLayout) : Int := g.y + g.borderedDy

/-- The layout of a `2000 × 1500` source with `maxSize = 1000`, thickness `5`, padding `20`. -/
def paddedLayout : InstagramLayout :=
  ⟨1000, 750, 1000, 750, 1040, 790, 1040, 790, 1050, 800, 15, 275⟩

/-- The frame reported for a `2000 × 1500` source with `maxSize = 1000`, thickness `5`,
padding `20`. -/
def paddedFrame : InstagramFrame := ⟨⟨⟨0, 0⟩, ⟨1080, 1350⟩⟩, ⟨1040, 790⟩, ⟨40, 300⟩⟩

/-- One minus the unit roundoff of `float64`. -/
def theta : ℚ := 1 - 1 / 2 ^ 53

/-- The positive numbers `x` and `y` agree up to `k` roundings: each is at least the other
times `theta ^ k`. -/
def RelErr (k : Nat) (x y : ℚ) : Prop :=
  0 < x ∧ 0 < y ∧ y * theta ^ k ≤ x ∧ x * theta ^ k ≤ y

/-- A positive `float64` value. -/
def F64.Pos (a : F64) : Prop := 0 < a.num ∧ 0 < a.den

/-- A `4 × 3` test picture whose pixel `(x, y)` has the colour `(x, y, 7, 255)`. -/
def testImage : Image := ⟨⟨⟨0, 0⟩, ⟨4, 3⟩⟩, fun x y => ⟨x.toNat, y.toNat, 7, 255⟩⟩

/-! ## More of `strings`, `strconv`, `unicode/utf8` and `path/filepath` -/

/-- Go `strings.HasSuffix`. -/
def HasSuffix (s suffix : GoString) : Bool := suffix.isSuffixOf s

/-- Go `strings.TrimSuffix`. -/
def TrimSuffix (s suffix : GoString) : GoString :=
  if HasSuffix s suffix then s.take (s.length - suffix.length) else s

/-- Go `strings.ToLower`: in ASCII-only text the letters `A`-`Z` become `a`-`z`; text with a
byte outside ASCII is mapped rune by rune through `unicode.ToLower`, which is the parameter
`lowerUnicode` here. -/
def ToLower (lowerUnicode : GoString → GoString) (s : GoString) : GoString :=
  if s.all (fun c => decide (c < 128)) then
    s.map fun c => if 65 ≤ c ∧ c ≤ 90 then c + 32 else c
  else lowerUnicode s

/-- The digit loop on the fast path of Go `strconv.Atoi`; `none` is the syntax error. -/
def atoiLoop : GoString → Int → Option Int
  | [], n => some n
  | ch :: rest, n =>
    if 48 ≤ ch ∧ ch ≤ 57 then atoiLoop rest (n * 10 + ((ch - 48 : Nat) : Int)) else none

/-- The value Go `strconv.ParseInt(s, 10, 0)` returns next to its error on a 64-bit
platform: `0` on a syntax error, the nearest bound of `int64` on a range error. -/
def ParseIntValue (s : GoString) : Int :=
  match s with
  | [] => 0
  | c :: rest =>
    let body := if c = 43 ∨ c = 45 then rest else s
    match ParseUint body 10 64 with
    | .error e =>
      if e = "value out of range" then (if c = 45 then -(2 ^ 63) else 2 ^ 63 - 1) else 0
    | .ok un =>
      if c ≠ 45 ∧ un ≥ 2 ^ 63 then 2 ^ 63 - 1
      else if c = 45 ∧ un > 2 ^ 63 then -(2 ^ 63)
      else if c = 45 then -(un : Int) else (un : Int)

/-- The value Go `strconv.Atoi(s)` returns next to its error on a 64-bit platform. -/
def Atoi (s : GoString) : Int :=
  if 0 < s.length ∧ s.length < 19 then
    match s with
    | [] => 0
    | c :: rest =>
      let body := if c = 45 ∨ c = 43 then rest else s
      if body = [] then 0
      else
        match atoiLoop body 0 with
        | none => 0
        | some n => if c = 45 then -n else n
  else ParseIntValue s

/-- A decimal digit `0`-`9`. -/
def isDigit (c : Nat) : Bool := decide (48 ≤ c) && decide (c ≤ 57)

/-- The number a string of decimal digits stands for. -/
def decimalValue (ds : GoString) : Nat := ds.foldl (fun n c => n * 10 + (c - 48)) 0

/-- The value Go `strconv.ParseFloat(s, 64)` returns next to its error; `none` stands for a
value that is not finite (an infinity or NaN).  Modelled are: the empty string and a lone
sign (syntax errors, value `0`); text that, after an optional sign, begins with a byte no
number can begin with, that is, none of a digit, `.`, `_`, `i`, `I`, `n`, `N` (a syntax
error, value `0`); and an optional sign followed by decimal digits with at most one `.`
among them, whose value is `0` or in the normal range of `float64`, which gives the nearest
`float64`.  For all other text (exponents, hexadecimal, `Inf`, `NaN`, underscores, values
out of range) the value is that of the parameter `parseOther`. -/
def ParseFloat (parseOther : GoString → Option F64) (s : GoString) : Option F64 :=
  match s with
  | [] => some ⟨0, 1⟩
  | c :: rest =>
    let body := if c = 43 ∨ c = 45 then rest else s
    match body with
    | [] => some ⟨0, 1⟩
    | b :: _ =>
      if ¬ (isDigit b = true ∨ b = 46 ∨ b = 95 ∨ b = 105 ∨ b = 73 ∨ b = 110 ∨ b = 78) then
        some ⟨0, 1⟩
      else
        let intPart := body.takeWhile (fun x => x != 46)
        let fracPart := (body.dropWhile (fun x => x != 46)).tail
        let n := decimalValue (intPart ++ fracPart)
        let d := 10 ^ fracPart.length
        if intPart.all isDigit = true ∧ fracPart.all isDigit = true ∧
            intPart ++ fracPart ≠ [] ∧ n < (2 ^ 1024 - 2 ^ 970) * d ∧
            (n = 0 ∨ d ≤ n * 2 ^ 1022) then
          some (F64.round (if c = 45 then -(n : Int) else (n : Int)) d)
        else parseOther s

/-- Go `utf8.DecodeRuneInString` on a non-empty string `s0 :: rest`: the rune and the number
of bytes it takes; an invalid or short encoding is the rune `U+FFFD` of width `1`. -/
def decodeRune (s0 : Nat) (rest : GoString) : Nat × Nat :=
  let cont (b lo hi : Nat) : Bool := decide (lo ≤ b) && decide (b ≤ hi)
  if s0 < 128 then (s0, 1)
  else if s0 < 194 ∨ 244 < s0 then (65533, 1)
  else
    let size := if s0 < 224 then 2 else if s0 < 240 then 3 else 4
    let lo := if s0 = 224 then 160 else if s0 = 240 then 144 else 128
    let hi := if s0 = 237 then 159 else if s0 = 244 then 143 else 191
    if rest.length + 1 < size then (65533, 1)
    else
      match rest with
      | [] => (65533, 1)
      | s1 :: r1 =>
        if !cont s1 lo hi then (65533, 1)
        else if size = 2 then ((s0 % 32) * 64 + s1 % 64, 2)
        else
          match r1 with
          | [] => (65533, 1)
          | s2 :: r2 =>
            if !cont s2 128 191 then (65533, 1)
            else if size = 3 then ((s0 % 16) * 4096 + (s1 % 64) * 64 + s2 % 64, 3)
            else
              match r2 with
              | [] => (65533, 1)
              | s3 :: _ =>
                if !cont s3 128 191 then (65533, 1)
                else ((s0 % 8) * 262144 + (s1 % 64) * 4096 + (s2 % 64) * 64 + s3 % 64, 4)

/-- The pairs `(i, char)` of Go `for i, char := range s`, for the part of the string that
starts `skip` bytes ahead at byte offset `i`. -/
def rangeFrom : Nat → Nat → GoString → List (Nat × Nat)
  | _, _, [] => []
  | skip + 1, i, _ :: rest => rangeFrom skip (i + 1) rest
  | 0, i, c :: rest => (i, (decodeRune c rest).1) :: rangeFrom ((decodeRune c rest).2 - 1) (i + 1) rest

/-- The pairs `(i, char)` of Go `for i, char := range s`: byte offset and rune. -/
def rangeString (s : GoString) : List (Nat × Nat) := rangeFrom 0 0 s

/-- Go `filepath.Base` on a Unix path: the last element, after trailing slashes are
removed; `"."` for the empty path and `"/"` for a path of slashes only. -/
def Base (path : GoString) : GoString :=
  if path = [] then str "."
  else
    let last := ((path.reverse.dropWhile (fun c => c == 47)).takeWhile (fun c => c != 47)).reverse
    if last = [] then str "/" else last

/-- The backward scan of Go `filepath.Ext` over the reversed path: `acc` is the part of the
path already passed. -/
def extScan : GoString → GoString → GoString
  | [], _ => []
  | c :: rest, acc =>
    if c = 47 then [] else if c = 46 then 46 :: acc else extScan rest (c :: acc)

/-- Go `filepath.Ext`: the suffix that starts at the last dot of the last element of the
path, empty when there is no dot. -/
def Ext (path : GoString) : GoString := extScan path.reverse []

/-! ## Fallback caption renderer -/

/-- A run of `img.Set(x, y, c)` over all `x0 ≤ x < x1`, `y0 ≤ y < y1`: `Set` on an
`*image.RGBA` changes a pixel only inside the bounds. -/
def paintRect (img : Image) (x0 x1 y0 y1 : Int) (c : RGBA) : Image :=
  ⟨img.bounds, fun x y =>
    if x0 ≤ x ∧ x < x1 ∧ y0 ≤ y ∧ y < y1 ∧ Point.In ⟨x, y⟩ img.bounds = true then c
    else img.At x y⟩

/-- The body of the loop of `fallbackAddCaption` (framer.go, lines 328-369) for the rune
`char` at byte offset `i`, with the anchor `(x, y)`. -/
def fallbackDrawChar (fontSize : Int) (fontColor : RGBA) (x y : Int) (img : Image)
    (ic : Nat × Nat) : Image :=
  let i : Int := (ic.1 : Int)
  let char := ic.2
  if char = 32 then img
  else
    let charWidth := Int.tdiv fontSize 2
    let charX := x + i * charWidth
    let charHeight := fontSize
    let charW := F64.toInt (F64.mul (F64.ofInt charWidth) (F64.round 8 10))
    if char = 45 then
      paintRect img charX (charX + charW)
        (y + (-2) + Int.tdiv charHeight 2 - Int.tdiv fontSize 2)
        (y + 3 + Int.tdiv charHeight 2 - Int.tdiv fontSize 2) fontColor
    else if char = 39 then
      paintRect img (charX + Int.tdiv charW 3) (charX + Int.tdiv (2 * charW) 3)
        (y - Int.tdiv charHeight 2) (y - Int.tdiv charHeight 2 + Int.tdiv charHeight 3) fontColor
    else
      paintRect img charX (charX + charW)
        (y - Int.tdiv charHeight 2) (y - Int.tdiv charHeight 2 + charHeight) fontColor

/-- Go `fallbackAddCaption` (framer.go, lines 309-372). -/
def fallbackAddCaption (newImage : Image) (captionText : GoString) (fontSize : Int)
    (fontColor : RGBA) (imageSize : Point) (borderThickness padding : Int)
    (imagePos : Option Point) : Image :=
  let anchor := fallbackAddCaptionAnchor captionText fontSize imageSize borderThickness
    padding imagePos
  (rangeString captionText).foldl (fallbackDrawChar fontSize fontColor anchor.X anchor.Y)
    newImage

/-! ## `processImage` and `main` -/

/-- The option values of the program, the anonymous struct `args` of framer.go. -/
structure Args where
  caption : GoString
  borderThickness : GoString
  padding : GoString
  borderStyle : GoString
  borderColor : GoString
  fontName : GoString
  fontSize : GoString
  fontColor : GoString
  instagramMaxSize : Int
deriving DecidableEq, Repr

/-- The border thickness resolved by `processImage` (framer.go, lines 414-426) for a
picture of size `origSize`.  A percentage that is not finite makes the product an infinity
or NaN, and its conversion to `int` is the minimum integer (see `F64.toInt`). -/
def processImage_thickness (parseOther : GoString → Option F64) (borderThickness : GoString)
    (origSize : Point) : Int :=
  if HasSuffix borderThickness (str "%") then
    match ParseFloat parseOther (TrimSuffix borderThickness (str "%")) with
    | none => -2 ^ 63
    | some percentage =>
      let minDim := if origSize.Y < origSize.X then origSize.Y else origSize.X
      F64.toInt (F64.mul (F64.ofInt minDim) (F64.div percentage (F64.round 100 1)))
  else Atoi borderThickness

/-- The padding resolved by `processImage` (framer.go, line 429). -/
def processImage_padding (padding : GoString) : Int := Atoi padding

/-- A colour as `processImage` reads it (framer.go, lines 432 and 471): the error of
`hexToRGB` is discarded, and with it comes the zero colour. -/
def processImage_color (hexColor : GoString) : RGBA :=
  match hexToRGB hexColor with
  | .ok c => c
  | .error _ => ⟨0, 0, 0, 0⟩

/-- The three branches of the `switch` on the border style in `processImage`. -/
inductive Compositor where
  | instagram
  | solid
  | unknownSolid
deriving DecidableEq, Repr

/-- The branch of the `switch` of `processImage` (framer.go, lines 437-449) that a border
style selects. -/
def processImage_style (lowerUnicode : GoString → GoString) (borderStyle : GoString) :
    Compositor :=
  if ToLower lowerUnicode borderStyle = str "instagram" then .instagram
  else if ToLower lowerUnicode borderStyle = str "solid" then .solid
  else .unknownSolid

/-- The font size computed by `processImage` (framer.go, lines 457-469). -/
def processImage_fontSize (fontSize : GoString) (t : Int) : Int :=
  if fontSize ≠ [] then Atoi fontSize
  else if t < 40 then F64.toInt (F64.mul (F64.ofInt t) (F64.round 5 10))
  else if t < 80 then F64.toInt (F64.mul (F64.ofInt t) (F64.round 7 10))
  else F64.toInt (F64.mul (F64.ofInt t) (F64.round 9 10))

/-- The name of the output file chosen by `processImage` (framer.go, lines 477-484),
without the output directory it is joined to. -/
def processImage_outFile (lowerUnicode : GoString → GoString) (imagePath borderStyle : GoString) :
    GoString :=
  let baseName := Base imagePath
  let ext := Ext baseName
  let name := TrimSuffix baseName ext
  let suffix :=
    if ToLower lowerUnicode borderStyle ≠ str "instagram" then str "_framed"
    else str "_instagram"
  name ++ suffix ++ str ".jpg"

/-- The call of `addCaption` made by `processImage`. -/
structure CaptionCall where
  captionText : GoString
  fontSize : Int
  fontColor : RGBA
  imageSize : Point
  borderThickness : Int
  padding : Int
  imagePos : Option Point
  fontName : GoString
deriving DecidableEq, Repr

/-- What `processImage` does with a picture once it is decoded. -/
structure Processed where
  t : Int
  p : Int
  borderColor : RGBA
  compositor : Compositor
  canvas : Rectangle
  resizedSize : Point
  imagePos : Option Point
  caption : Option CaptionCall
  outFile : GoString
deriving DecidableEq, Repr

/-- Go `processImage` (framer.go, lines 374-502) from the decoded picture `img` on;
`exifDate` is the result of `getExifDate`.  The result is `none` only for an empty
picture in the Instagram style, which no decoded JPEG is (see `instagramLayout`). -/
def processImage (lowerUnicode : GoString → GoString) (parseOther : GoString → Option F64)
    (imagePath : GoString) (args : Args) (img : Image) (exifDate : Except String Time) :
    Option Processed :=
  let captionText := processImage_captionText args.caption exifDate
  let t := processImage_thickness parseOther args.borderThickness
    ⟨img.bounds.Dx, img.bounds.Dy⟩
  let p := processImage_padding args.padding
  let borderColor := processImage_color args.borderColor
  let style := processImage_style lowerUnicode args.borderStyle
  let composed : Option (Rectangle × Point × Option Point) :=
    match style with
    | .instagram =>
      match createInstagramFrame img args.instagramMaxSize t borderColor p with
      | none => none
      | some frame => some (frame.canvas, frame.resizedSize, some frame.imagePos)
    | _ =>
      some ((createSolidBorder img t borderColor p).bounds,
        ⟨img.bounds.Dx, img.bounds.Dy⟩, none)
  match composed with
  | none => none
  | some (canvas, resizedSize, imagePos) =>
    let caption : Option CaptionCall :=
      if captionText ≠ [] then
        some ⟨captionText, processImage_fontSize args.fontSize t,
          processImage_color args.fontColor, resizedSize, t, p, imagePos, args.fontName⟩
      else none
    some ⟨t, p, borderColor, style, canvas, resizedSize, imagePos, caption,
      processImage_outFile lowerUnicode imagePath args.borderStyle⟩

/-- The style-dependent defaults set by `main` (framer.go, lines 568-598); an option is
unset when it is the empty string, or `0` for the maximum size. -/
def mainDefaults (args : Args) : Args :=
  if args.borderStyle = str "instagram" then
    ⟨args.caption,
      if args.borderThickness = [] then str "5" else args.borderThickness,
      if args.padding = [] then str "0" else args.padding,
      args.borderStyle, args.borderColor, args.fontName,
      if args.fontSize = [] then str "20" else args.fontSize,
      args.fontColor,
      if args.instagramMaxSize = 0 then 1000 else args.instagramMaxSize⟩
  else
    ⟨args.caption,
      if args.borderThickness = [] then str "20" else args.borderThickness,
      if args.padding = [] then
        (if args.borderStyle = str "solid" then str "150" else str "0")
      else args.padding,
      args.borderStyle, args.borderColor, args.fontName,
      if args.fontSize = [] then str "50" else args.fontSize,
      args.fontColor,
      if args.instagramMaxSize = 0 then 900 else args.instagramMaxSize⟩

/-! ## More definitions used to state the properties -/

/-- The stem of a file name: the part before its last dot, the whole name if it has no
dot. -/
def stemOf (b : GoString) : GoString :=
  if 46 ∈ b then ((b.reverse.dropWhile (fun c => c != 46)).tail).reverse else b

/-! # Theorems -/

/-! ## Go `int` -/

theorem wrap64_eq (z : Int) (h1 : -2 ^ 63 ≤ z) (h2 : z < 2 ^ 63) : wrap64 z = z := by
  unfold wrap64
  omega

theorem wrap64_range (z : Int) : -2 ^ 63 ≤ wrap64 z ∧ wrap64 z < 2 ^ 63 := by
  unfold wrap64
  omega

theorem add64_eq (a b : Int) (h1 : -2 ^ 63 ≤ a + b) (h2 : a + b < 2 ^ 63) :
    add64 a b = a + b := wrap64_eq _ h1 h2

theorem sub64_eq (a b : Int) (h1 : -2 ^ 63 ≤ a - b) (h2 : a - b < 2 ^ 63) :
    sub64 a b = a - b := wrap64_eq _ h1 h2

theorem mul64_two (a : Int) (h1 : -2 ^ 62 ≤ a) (h2 : a < 2 ^ 62) : mul64 2 a = 2 * a :=
  wrap64_eq _ (by omega) (by omega)

theorem wrap64_le (z : Int) (h : 0 ≤ z) : wrap64 z ≤ z := by
  unfold wrap64
  omega

theorem wrap64_wrap64_add (a b : Int) : wrap64 (a + wrap64 b) = wrap64 (a + b) := by
  unfold wrap64
  omega

/-- Adding a padding twice in 64-bit arithmetic never gives more than the exact sum. -/
theorem add64_padding_le (a p : Int) (ha : 0 ≤ a) (hp : 0 ≤ p) :
    add64 a (mul64 2 p) ≤ a + 2 * p := by
  unfold add64 mul64
  rw [wrap64_wrap64_add]
  exact wrap64_le _ (by omega)

theorem tdiv_two_bounds (a : Int) : a - 1 ≤ 2 * Int.tdiv a 2 ∧ 2 * Int.tdiv a 2 ≤ a + 1 := by
  rcases le_or_lt 0 a with h | h
  · rw [Int.tdiv_eq_ediv h (by decide)]
    omega
  · have e : Int.tdiv a 2 = -(Int.tdiv (-a) 2) := by
      rw [Int.neg_tdiv, neg_neg]
    rw [e, Int.tdiv_eq_ediv (by omega) (by decide)]
    omega

/-! ## Rectangles and drawing -/

theorem Point.In_iff (x y : Int) (r : Rectangle) :
    Point.In ⟨x, y⟩ r = true ↔ (r.Min.X ≤ x ∧ x < r.Max.X) ∧ (r.Min.Y ≤ y ∧ y < r.Max.Y) := by
  simp [Point.In, and_assoc]

theorem Point.In_Intersect (x y : Int) (r s : Rectangle) :
    Point.In ⟨x, y⟩ (r.Intersect s) = true ↔
      Point.In ⟨x, y⟩ r = true ∧ Point.In ⟨x, y⟩ s = true := by
  unfold Rectangle.Intersect
  simp only [Rectangle.Empty, Bool.or_eq_true, decide_eq_true_eq]
  split_ifs with h1 h2 h3 h4 h5 <;> simp only [Point.In_iff] <;> omega

theorem Draw_At (dst : Image) (r : Rectangle) (src : Image) (sp : Point) (x y : Int) :
    (Draw dst r src sp).At x y =
      if Point.In ⟨x, y⟩ r = true ∧ Point.In ⟨x, y⟩ dst.bounds = true ∧
          Point.In ⟨x, y⟩ (src.bounds.Add ⟨r.Min.X - sp.X, r.Min.Y - sp.Y⟩) = true
      then src.At (sp.X + (x - r.Min.X)) (sp.Y + (y - r.Min.Y))
      else dst.At x y := by
  simp only [Draw, Point.In_Intersect, and_assoc]

theorem Draw_bounds (dst : Image) (r : Rectangle) (src : Image) (sp : Point) :
    (Draw dst r src sp).bounds = dst.bounds := rfl

theorem Rect_of_le {x0 y0 x1 y1 : Int} (hx : x0 ≤ x1) (hy : y0 ≤ y1) :
    Rect x0 y0 x1 y1 = ⟨⟨x0, y0⟩, ⟨x1, y1⟩⟩ := by
  have h1 : ¬ x0 > x1 := by omega
  have h2 : ¬ y0 > y1 := by omega
  simp [Rect, h1, h2]

/-! ## The solid border -/

/-- C2 as stated fails where the 64-bit arithmetic wraps: the thickness option
`99999999999999999999` is read by `strconv.Atoi` as the largest integer `2 ^ 63 - 1`, for
which `2 * t` wraps to `-2`, and the canvas of the `4 × 3` test picture is `2 × 1`
instead of `W + 2t` by `H + 2t`. -/
theorem createSolidBorder_wrap_counterexample :
    Atoi (str "99999999999999999999") = 2 ^ 63 - 1 ∧
    (createSolidBorder testImage (2 ^ 63 - 1) white 0).bounds = ⟨⟨0, 0⟩, ⟨2, 1⟩⟩ ∧
    (createSolidBorder testImage (2 ^ 63 - 1) white 0).bounds.Dx ≠
      testImage.bounds.Dx + 2 * (2 ^ 63 - 1) + 2 * 0 := by
  refine ⟨by decide!, by decide!, by decide!⟩

/-- C2, amended: for a source of size `W × H`, thickness `t ≥ 0` and padding `p ≥ 0` with
`W + 2t + 2p ≤ 10^9` and `H + 2t + 2p ≤ 10^9`, the canvas returned by `createSolidBorder`
starts at the origin and is `W + 2t + 2p` wide and `H + 2t + 2p` high, also when
`p = 0`. -/
theorem createSolidBorder_canvas_size (img : Image) (t p : Int) (c : RGBA)
    (hW : 0 ≤ img.bounds.Dx) (hH : 0 ≤ img.bounds.Dy) (ht : 0 ≤ t) (hp : 0 ≤ p)
    (hWmax : img.bounds.Dx + 2 * t + 2 * p ≤ 1000000000)
    (hHmax : img.bounds.Dy + 2 * t + 2 * p ≤ 1000000000) :
    (createSolidBorder img t c p).bounds.Min = ⟨0, 0⟩ ∧
    (createSolidBorder img t c p).bounds.Dx = img.bounds.Dx + 2 * t + 2 * p ∧
    (createSolidBorder img t c p).bounds.Dy = img.bounds.Dy + 2 * t + 2 * p := by
  have w1 : mul64 2 t = 2 * t := mul64_two t (by omega) (by omega)
  have w2 : mul64 2 p = 2 * p := mul64_two p (by omega) (by omega)
  have w3 : add64 img.bounds.Dx (2 * t) = img.bounds.Dx + 2 * t :=
    add64_eq _ _ (by omega) (by omega)
  have w4 : add64 img.bounds.Dy (2 * t) = img.bounds.Dy + 2 * t :=
    add64_eq _ _ (by omega) (by omega)
  have w5 : add64 (img.bounds.Dx + 2 * t) (2 * p) = img.bounds.Dx + 2 * t + 2 * p :=
    add64_eq _ _ (by omega) (by omega)
  have w6 : add64 (img.bounds.Dy + 2 * t) (2 * p) = img.bounds.Dy + 2 * t + 2 * p :=
    add64_eq _ _ (by omega) (by omega)
  unfold createSolidBorder
  simp only [w1, w2, w3, w4, w5, w6]
  by_cases h : p > 0
  · simp only [h, if_true, Draw, NewRGBA, Rect, Rectangle.Dx, Rectangle.Dy]
    have h1 : ¬ (0 > img.bounds.Dx + 2 * t + 2 * p) := by omega
    have h2 : ¬ (0 > img.bounds.Dy + 2 * t + 2 * p) := by omega
    simp only [Rectangle.Dx, Rectangle.Dy] at h1 h2
    simp [h1, h2]
  · have hp0 : p = 0 := by omega
    subst hp0
    simp only [h, if_false, Draw, NewRGBA, Rect, Rectangle.Dx, Rectangle.Dy]
    have h1 : ¬ (0 > img.bounds.Dx + 2 * t) := by omega
    have h2 : ¬ (0 > img.bounds.Dy + 2 * t) := by omega
    simp only [Rectangle.Dx, Rectangle.Dy] at h1 h2
    simp [h1, h2]

/-- C2, amended, at a `1000 × 1000` source with thickness `100`, once with padding `50` and
once with padding `0`. -/
theorem createSolidBorder_canvas_size_witness :
    (createSolidBorder ⟨Rect 0 0 1000 1000, fun _ _ => white⟩ 100 white 50).bounds.Dx = 1300 ∧
    (createSolidBorder ⟨Rect 0 0 1000 1000, fun _ _ => white⟩ 100 white 0).bounds.Dy = 1200 :=
  ⟨(createSolidBorder_canvas_size ⟨Rect 0 0 1000 1000, fun _ _ => white⟩ 100 50 white
      (by decide) (by decide) (by decide) (by decide) (by decide) (by decide)).2.1,
   (createSolidBorder_canvas_size ⟨Rect 0 0 1000 1000, fun _ _ => white⟩ 100 0 white
      (by decide) (by decide) (by decide) (by decide) (by decide) (by decide)).2.2⟩

/-- C7: for a source with bounds `(0,0)-(W,H)`, thickness `t ≥ 0`, padding `p ≥ 0` and
border colour `c`, on a canvas whose sides do not exceed `10^9` (the extent of
`image.Uniform`), every pixel `(x, y)` of the canvas of `createSolidBorder` is the source
pixel `(x - t - p, y - t - p)` inside the content rectangle, else `c` inside the bordered
rectangle, else opaque white. -/
theorem createSolidBorder_pixels (img : Image) (W H t p : Int) (c : RGBA)
    (hb : img.bounds = ⟨⟨0, 0⟩, ⟨W, H⟩⟩) (hW : 0 ≤ W) (hH : 0 ≤ H) (ht : 0 ≤ t) (hp : 0 ≤ p)
    (hWmax : W + 2 * t + 2 * p ≤ 1000000000) (hHmax : H + 2 * t + 2 * p ≤ 1000000000)
    (x y : Int) (hx : 0 ≤ x ∧ x < W + 2 * t + 2 * p) (hy : 0 ≤ y ∧ y < H + 2 * t + 2 * p) :
    (createSolidBorder img t c p).At x y =
      if (t + p ≤ x ∧ x < t + p + W) ∧ (t + p ≤ y ∧ y < t + p + H) then
        img.At (x - t - p) (y - t - p)
      else if (p ≤ x ∧ x < p + W + 2 * t) ∧ (p ≤ y ∧ y < p + H + 2 * t) then c
      else white := by
  have e1 : Rect 0 0 (W + 2 * t) (H + 2 * t) = ⟨⟨0, 0⟩, ⟨W + 2 * t, H + 2 * t⟩⟩ :=
    Rect_of_le (by omega) (by omega)
  have e2 : Rect t t (t + W) (t + H) = ⟨⟨t, t⟩, ⟨t + W, t + H⟩⟩ :=
    Rect_of_le (by omega) (by omega)
  have e3 : Rect 0 0 (W + 2 * t + 2 * p) (H + 2 * t + 2 * p) =
      ⟨⟨0, 0⟩, ⟨W + 2 * t + 2 * p, H + 2 * t + 2 * p⟩⟩ := Rect_of_le (by omega) (by omega)
  have e4 : Rect p p (p + (W + 2 * t)) (p + (H + 2 * t)) =
      ⟨⟨p, p⟩, ⟨p + (W + 2 * t), p + (H + 2 * t)⟩⟩ := Rect_of_le (by omega) (by omega)
  have w1 : mul64 2 t = 2 * t := mul64_two t (by omega) (by omega)
  have w2 : mul64 2 p = 2 * p := mul64_two p (by omega) (by omega)
  have w3 : add64 W (2 * t) = W + 2 * t := add64_eq _ _ (by omega) (by omega)
  have w4 : add64 H (2 * t) = H + 2 * t := add64_eq _ _ (by omega) (by omega)
  have w5 : add64 (W + 2 * t) (2 * p) = W + 2 * t + 2 * p := add64_eq _ _ (by omega) (by omega)
  have w6 : add64 (H + 2 * t) (2 * p) = H + 2 * t + 2 * p := add64_eq _ _ (by omega) (by omega)
  have w7 : add64 t W = t + W := add64_eq _ _ (by omega) (by omega)
  have w8 : add64 t H = t + H := add64_eq _ _ (by omega) (by omega)
  have w9 : add64 p (W + 2 * t) = p + (W + 2 * t) := add64_eq _ _ (by omega) (by omega)
  have w10 : add64 p (H + 2 * t) = p + (H + 2 * t) := add64_eq _ _ (by omega) (by omega)
  obtain ⟨b, f⟩ := img
  simp only at hb
  subst hb
  unfold createSolidBorder
  simp only [Rectangle.Dx, Rectangle.Dy, sub_zero, w1, w2, w3, w4, w5, w6, w7, w8, w9, w10,
    e1, e2, e3, e4, Draw_At, Draw_bounds, NewRGBA, Uniform, Rectangle.Add, Point.In_iff]
  clear w1 w2 w3 w4 w5 w6 w7 w8 w9 w10 e1 e2 e3 e4
  by_cases h : p > 0
  · simp only [h, if_true, Draw_At, Draw_bounds, Point.In_iff, Rectangle.Add]
    split_ifs <;> first | rfl | (congr 1 <;> omega)
  · have hp0 : p = 0 := by omega
    subst hp0
    simp only [h, if_false, Draw_At, Draw_bounds, Point.In_iff, Rectangle.Add]
    split_ifs <;> first | rfl | (congr 1 <;> omega)

/-- C7, on the `4 × 3` test picture with thickness `2`, padding `1` and a grey border: a
content pixel, a border pixel and a padding pixel. -/
theorem createSolidBorder_pixels_witness :
    (createSolidBorder testImage 2 ⟨9, 9, 9, 255⟩ 1).At 4 5 = ⟨1, 2, 7, 255⟩ ∧
    (createSolidBorder testImage 2 ⟨9, 9, 9, 255⟩ 1).At 1 1 = ⟨9, 9, 9, 255⟩ ∧
    (createSolidBorder testImage 2 ⟨9, 9, 9, 255⟩ 1).At 0 8 = white :=
  ⟨createSolidBorder_pixels testImage 4 3 2 1 ⟨9, 9, 9, 255⟩ rfl (by decide) (by decide)
      (by decide) (by decide) (by decide) (by decide) 4 5 (by decide) (by decide),
   createSolidBorder_pixels testImage 4 3 2 1 ⟨9, 9, 9, 255⟩ rfl (by decide) (by decide)
      (by decide) (by decide) (by decide) (by decide) 1 1 (by decide) (by decide),
   createSolidBorder_pixels testImage 4 3 2 1 ⟨9, 9, 9, 255⟩ rfl (by decide) (by decide)
      (by decide) (by decide) (by decide) (by decide) 0 8 (by decide) (by decide)⟩

/-! ## Caption placement -/

theorem le_lower (c : Nat) : c ≤ lower c := by
  apply Nat.le_of_testBit
  intro i hi
  simp [lower, Nat.testBit_or, hi]

theorem lower_small : ∀ c < 128,
    ((97 ≤ lower c ∧ lower c ≤ 122) ↔ ((65 ≤ c ∧ c ≤ 90) ∨ (97 ≤ c ∧ c ≤ 122))) ∧
    (65 ≤ c ∧ c ≤ 90 → lower c = c + 32) ∧ (97 ≤ c ∧ c ≤ 122 → lower c = c) := by
  decide

theorem digitValue_eq (c : Nat) :
    digitValue c =
    if (48 ≤ c ∧ c ≤ 57) then some (c - 48)
    else if (65 ≤ c ∧ c ≤ 90) then some (c - 55)
    else if (97 ≤ c ∧ c ≤ 122) then some (c - 87) else none := by
  unfold digitValue
  by_cases hc : c < 128
  · obtain ⟨h1, h2, h3⟩ := lower_small c hc
    by_cases hd : 48 ≤ c ∧ c ≤ 57
    · simp [hd]
    · simp only [hd, if_false]
      by_cases hu : 65 ≤ c ∧ c ≤ 90
      · have := h2 hu
        have h4 : 97 ≤ lower c ∧ lower c ≤ 122 := h1.2 (Or.inl hu)
        rw [if_pos h4, if_pos hu, this]
        congr 1
        omega
      · by_cases hl : 97 ≤ c ∧ c ≤ 122
        · have := h3 hl
          have h4 : 97 ≤ lower c ∧ lower c ≤ 122 := h1.2 (Or.inr hl)
          rw [if_pos h4, if_neg hu, if_pos hl, this]
          congr 1
          omega
        · have h4 : ¬ (97 ≤ lower c ∧ lower c ≤ 122) := fun h => (h1.1 h).elim hu hl
          simp only [h4, hu, hl, if_false]
  · have := le_lower c
    have h1 : ¬ (48 ≤ c ∧ c ≤ 57) := by omega
    have h2 : ¬ (97 ≤ lower c ∧ lower c ≤ 122) := by omega
    have h3 : ¬ (65 ≤ c ∧ c ≤ 90) := by omega
    have h4 : ¬ (97 ≤ c ∧ c ≤ 122) := by omega
    simp only [h1, h2, h3, h4, if_false]

theorem digitValue_hex (c : Nat) (h : isHexDigit c = true) :
    digitValue c = some (hexDigitValue c) ∧ hexDigitValue c < 16 := by
  rw [digitValue_eq]
  unfold isHexDigit at h
  unfold hexDigitValue
  simp only [Bool.or_eq_true, Bool.and_eq_true, decide_eq_true_eq] at h
  rcases h with (h | h) | h
  · rw [if_pos h, if_pos h.2]; exact ⟨rfl, by omega⟩
  · rw [if_neg (by omega), if_pos (by omega), if_neg (by omega), if_pos h.2]; exact ⟨rfl, by omega⟩
  · rw [if_neg (by omega), if_neg (by omega), if_pos (by omega), if_neg (by omega),
      if_neg (by omega)]
    exact ⟨rfl, by omega⟩

theorem digitValue_not_hex (c : Nat) (h : isHexDigit c = false) :
    digitValue c = none ∨ ∃ d, digitValue c = some d ∧ 16 ≤ d := by
  rw [digitValue_eq]
  unfold isHexDigit at h
  simp only [Bool.or_eq_false_iff, Bool.and_eq_false_iff, decide_eq_false_iff_not] at h
  obtain ⟨⟨h1, h2⟩, h3⟩ := h
  by_cases hd : 48 ≤ c ∧ c ≤ 57
  · omega
  · rw [if_neg hd]
    by_cases hu : 65 ≤ c ∧ c ≤ 90
    · rw [if_pos hu]; exact Or.inr ⟨_, rfl, by omega⟩
    · rw [if_neg hu]
      by_cases hl : 97 ≤ c ∧ c ≤ 122
      · rw [if_pos hl]; exact Or.inr ⟨_, rfl, by omega⟩
      · rw [if_neg hl]; exact Or.inl rfl

theorem parseUintLoop_hex_cons (c : Nat) (cs : GoString) (n : Nat) (hn : n < 16) :
    parseUintLoop 16 ((2 ^ 64 - 1) / 16 + 1) (2 ^ 8 - 1) (c :: cs) n =
      if isHexDigit c then
        parseUintLoop 16 ((2 ^ 64 - 1) / 16 + 1) (2 ^ 8 - 1) cs (n * 16 + hexDigitValue c)
      else .error "invalid syntax" := by
  rw [parseUintLoop]
  by_cases h : isHexDigit c = true
  · obtain ⟨h1, h2⟩ := digitValue_hex c h
    rw [h1, if_pos h]
    simp only []
    rw [if_neg (by omega), if_neg (by norm_num; omega), if_neg (by norm_num; omega)]
  · rw [if_neg h]
    rcases digitValue_not_hex c (by simpa using h) with h1 | ⟨d, h1, h2⟩
    · rw [h1]
    · rw [h1]
      simp only []
      rw [if_pos h2]

theorem ParseUint_hex_pair (a b : Nat) :
    ParseUint [a, b] 16 8 =
      if isHexDigit a then
        if isHexDigit b then .ok (hexPairValue a b) else .error "invalid syntax"
      else .error "invalid syntax" := by
  unfold ParseUint
  rw [if_neg (by simp), parseUintLoop_hex_cons a [b] 0 (by omega)]
  by_cases h1 : isHexDigit a = true
  · rw [if_pos h1, if_pos h1,
      parseUintLoop_hex_cons b [] _ (by have := (digitValue_hex a h1).2; omega)]
    by_cases h2 : isHexDigit b = true
    · rw [if_pos h2, if_pos h2, parseUintLoop]
      simp [hexPairValue, Nat.mul_comm]
    · rw [if_neg h2, if_neg h2]
  · rw [if_neg h1, if_neg h1]

theorem hexPairValue_lt (a b : Nat) (ha : isHexDigit a = true) (hb : isHexDigit b = true) :
    hexPairValue a b < 256 := by
  have h1 := (digitValue_hex a ha).2
  have h2 := (digitValue_hex b hb).2
  unfold hexPairValue
  omega

theorem TrimPrefix_hash (s : GoString) :
    TrimPrefix s (str "#") = match s with
      | 35 :: rest => rest
      | _ => s := by
  have e : str "#" = [35] := by decide
  rw [e]
  unfold TrimPrefix
  cases s with
  | nil => rfl
  | cons c cs =>
    by_cases hc : c = 35
    · subst hc
      simp [List.isPrefixOf]
    · simp [List.isPrefixOf, hc]
      exact fun h => hc h.symm

/-- C4: `hexToRGB` succeeds exactly on the strings that, after one optional leading `#` is
removed, are six hexadecimal digits of either case; the colour it returns then has the
values of the three digit pairs as R, G, B and alpha 255; on every other string it returns
an error. -/
theorem hexToRGB_spec (s : GoString) : (hexToRGB s).toOption = hexColourSpec s := by
  unfold hexToRGB hexColourSpec
  simp only [TrimPrefix_hash]
  generalize (match s with | 35 :: rest => rest | _ => s) = h
  rcases h with _ | ⟨a, _ | ⟨b, _ | ⟨c, _ | ⟨d, _ | ⟨e, _ | ⟨f, _ | ⟨g, r⟩⟩⟩⟩⟩⟩⟩ <;>
    try (simp [Except.toOption]; done)
  simp only [List.length, List.take, List.drop, ParseUint_hex_pair]
  by_cases ha : isHexDigit a = true
  · by_cases hb : isHexDigit b = true
    · by_cases hc : isHexDigit c = true
      · by_cases hd : isHexDigit d = true
        · by_cases he : isHexDigit e = true
          · by_cases hf : isHexDigit f = true
            · simp [ha, hb, hc, hd, he, hf, Except.toOption,
                Nat.mod_eq_of_lt (hexPairValue_lt a b ha hb),
                Nat.mod_eq_of_lt (hexPairValue_lt c d hc hd),
                Nat.mod_eq_of_lt (hexPairValue_lt e f he hf)]
            · simp [ha, hb, hc, hd, he, hf, Except.toOption]
          · simp [ha, hb, hc, hd, he, Except.toOption]
        · simp [ha, hb, hc, hd, Except.toOption]
      · simp [ha, hb, hc, Except.toOption]
    · simp [ha, hb, Except.toOption]
  · simp [ha, Except.toOption]

/-! ## Caption text -/

theorem appendInt_two : ∀ u < 100, appendInt (u : Nat) 2 = [48 + u / 10, 48 + u % 10] := by
  decide

theorem Format06_eq (t : Time) : t.Format06 = lastTwoDigits t.year := by
  unfold Time.Format06 lastTwoDigits
  have key : (if t.year < 0 then -t.year else t.year) = (t.year.natAbs : Int) := by
    split_ifs <;> omega
  rw [key]
  show appendInt (Int.tmod (t.year.natAbs : Int) 100) 2 = _
  have h2 : Int.tmod (t.year.natAbs : Int) 100 = ((t.year.natAbs % 100 : Nat) : Int) := rfl
  rw [h2, appendInt_two _ (Nat.mod_lt _ (by norm_num))]
  congr 2
  omega
  omega

theorem FormatJan_upper (m : Month) : ToUpper (m.String.take 3) = monthAbbrevUpper m := by
  cases m <;> decide

/-! ### The date algorithm of package `time` -/

theorem absYearDay_spec (y yday : Int) (h0 : 0 ≤ yday)
    (h1 : yday < if leapYear y = true then 366 else 365) :
    absYearDay (daysBeforeYear y + yday) = (y, yday) := by
  obtain ⟨a, b, c, e, hy, hb0, hb, hc0, hc, he0, he⟩ :
      ∃ a b c e : Int, y - 1 = 400 * a + 100 * b + 4 * c + e ∧ 0 ≤ b ∧ b < 4 ∧ 0 ≤ c ∧ c < 25 ∧
        0 ≤ e ∧ e < 4 :=
    ⟨(y - 1) / 400, (y - 1) % 400 / 100, (y - 1) % 100 / 4, (y - 1) % 4,
      by omega, by omega, by omega, by omega, by omega, by omega, by omega⟩
  have hD : daysBeforeYear y = 146097 * a + 36524 * b + 1461 * c + 365 * e := by
    unfold daysBeforeYear
    omega
  have hleap : leapYear y = true ↔ (e = 3 ∧ (c ≠ 24 ∨ b = 3)) := by
    unfold leapYear
    rw [decide_eq_true_iff]
    omega
  have hyd : yday < 365 ∨ (yday = 365 ∧ e = 3 ∧ (c ≠ 24 ∨ b = 3)) := by
    by_cases hl : leapYear y = true
    · rw [if_pos hl] at h1
      have := hleap.mp hl
      omega
    · rw [if_neg hl] at h1
      omega
  rw [hD]
  unfold absYearDay
  simp only []
  have s1 : (146097 * a + 36524 * b + 1461 * c + 365 * e + yday) / 146097 = a := by omega
  rw [s1]
  have s2 : 146097 * a + 36524 * b + 1461 * c + 365 * e + yday - 146097 * a =
      36524 * b + 1461 * c + 365 * e + yday := by ring
  rw [s2]
  have s3 : (36524 * b + 1461 * c + 365 * e + yday) / 36524 -
      (36524 * b + 1461 * c + 365 * e + yday) / 36524 / 4 = b := by
    have hr : 1461 * c + 365 * e + yday ≤ 36523 ∨
        (1461 * c + 365 * e + yday = 36524 ∧ b = 3) := by omega
    rcases hr with hr | ⟨hr, hb3⟩
    · have : (36524 * b + 1461 * c + 365 * e + yday) / 36524 = b := by omega
      rw [this]
      omega
    · have : (36524 * b + 1461 * c + 365 * e + yday) / 36524 = 4 := by omega
      rw [this]
      omega
  rw [s3]
  have s4 : 36524 * b + 1461 * c + 365 * e + yday - 36524 * b = 1461 * c + 365 * e + yday := by
    ring
  rw [s4]
  have s5 : (1461 * c + 365 * e + yday) / 1461 = c := by omega
  rw [s5]
  have s6 : 1461 * c + 365 * e + yday - 1461 * c = 365 * e + yday := by ring
  rw [s6]
  have s7 : (365 * e + yday) / 365 - (365 * e + yday) / 365 / 4 = e := by
    rcases hyd with hr | ⟨hr, he3, _⟩
    · have : (365 * e + yday) / 365 = e := by omega
      rw [this]
      omega
    · have : (365 * e + yday) / 365 = 4 := by omega
      rw [this]
      omega
  rw [s7]
  have s8 : 365 * e + yday - 365 * e = yday := by ring
  rw [s8]
  have s9 : 400 * a + 100 * b + 4 * c + e + 1 = y := by omega
  rw [s9]

theorem isLeap_eq (y : Int) : isLeap y = leapYear y := by
  unfold isLeap leapYear
  by_cases h4 : y % 4 = 0 <;> by_cases h100 : y % 100 = 0 <;> by_cases h400 : y % 400 = 0 <;>
    simp [h4, h100, h400]

theorem absMonth_table (day k : Int) (hk0 : 0 ≤ k) (hk : k < 12) (h0 : daysBefore k ≤ day)
    (h1 : day < daysBefore (k + 1)) :
    (if day ≥ daysBefore (day / 31 + 1) then day / 31 + 2 else day / 31 + 1) = k + 1 := by
  have hk12 : k = 0 ∨ k = 1 ∨ k = 2 ∨ k = 3 ∨ k = 4 ∨ k = 5 ∨ k = 6 ∨ k = 7 ∨ k = 8 ∨ k = 9 ∨
      k = 10 ∨ k = 11 := by omega
  rcases hk12 with h | h | h | h | h | h | h | h | h | h | h | h
  · subst h
    have e0 : daysBefore 0 = 0 := by decide
    have e1 : daysBefore (0 + 1) = 31 := by decide
    rw [e0] at h0
    rw [e1] at h1
    have hq : day / 31 = 0 := by omega
    rcases hq with hq
    · rw [hq]
      have e : daysBefore (0 + 1) = 31 := by decide
      rw [e]
      split_ifs <;> omega
  · subst h
    have e0 : daysBefore 1 = 31 := by decide
    have e1 : daysBefore (1 + 1) = 59 := by decide
    rw [e0] at h0
    rw [e1] at h1
    have hq : day / 31 = 1 := by omega
    rcases hq with hq
    · rw [hq]
      have e : daysBefore (1 + 1) = 59 := by decide
      rw [e]
      split_ifs <;> omega
  · subst h
    have e0 : daysBefore 2 = 59 := by decide
    have e1 : daysBefore (2 + 1) = 90 := by decide
    rw [e0] at h0
    rw [e1] at h1
    have hq : day / 31 = 1 ∨ day / 31 = 2 := by omega
    rcases hq with hq | hq
    · rw [hq]
      have e : daysBefore (1 + 1) = 59 := by decide
      rw [e]
      split_ifs <;> omega
    · rw [hq]
      have e : daysBefore (2 + 1) = 90 := by decide
      rw [e]
      split_ifs <;> omega
  · subst h
    have e0 : daysBefore 3 = 90 := by decide
    have e1 : daysBefore (3 + 1) = 120 := by decide
    rw [e0] at h0
    rw [e1] at h1
    have hq : day / 31 = 2 ∨ day / 31 = 3 := by omega
    rcases hq with hq | hq
    · rw [hq]
      have e : daysBefore (2 + 1) = 90 := by decide
      rw [e]
      split_ifs <;> omega
    · rw [hq]
      have e : daysBefore (3 + 1) = 120 := by decide
      rw [e]
      split_ifs <;> omega
  · subst h
    have e0 : daysBefore 4 = 120 := by decide
    have e1 : daysBefore (4 + 1) = 151 := by decide
    rw [e0] at h0
    rw [e1] at h1
    have hq : day / 31 = 3 ∨ day / 31 = 4 := by omega
    rcases hq with hq | hq
    · rw [hq]
      have e : daysBefore (3 + 1) = 120 := by decide
      rw [e]
      split_ifs <;> omega
    · rw [hq]
      have e : daysBefore (4 + 1) = 151 := by decide
      rw [e]
      split_ifs <;> omega
  · subst h
    have e0 : daysBefore 5 = 151 := by decide
    have e1 : daysBefore (5 + 1) = 181 := by decide
    rw [e0] at h0
    rw [e1] at h1
    have hq : day / 31 = 4 ∨ day / 31 = 5 := by omega
    rcases hq with hq | hq
    · rw [hq]
      have e : daysBefore (4 + 1) = 151 := by decide
      rw [e]
      split_ifs <;> omega
    · rw [hq]
      have e : daysBefore (5 + 1) = 181 := by decide
      rw [e]
      split_ifs <;> omega
  · subst h
    have e0 : daysBefore 6 = 181 := by decide
    have e1 : daysBefore (6 + 1) = 212 := by decide
    rw [e0] at h0
    rw [e1] at h1
    have hq : day / 31 = 5 ∨ day / 31 = 6 := by omega
    rcases hq with hq | hq
    · rw [hq]
      have e : daysBefore (5 + 1) = 181 := by decide
      rw [e]
      split_ifs <;> omega
    · rw [hq]
      have e : daysBefore (6 + 1) = 212 := by decide
      rw [e]
      split_ifs <;> omega
  · subst h
    have e0 : daysBefore 7 = 212 := by decide
    have e1 : daysBefore (7 + 1) = 243 := by decide
    rw [e0] at h0
    rw [e1] at h1
    have hq : day / 31 = 6 ∨ day / 31 = 7 := by omega
    rcases hq with hq | hq
    · rw [hq]
      have e : daysBefore (6 + 1) = 212 := by decide
      rw [e]
      split_ifs <;> omega
    · rw [hq]
      have e : daysBefore (7 + 1) = 243 := by decide
      rw [e]
      split_ifs <;> omega
  · subst h
    have e0 : daysBefore 8 = 243 := by decide
    have e1 : daysBefore (8 + 1) = 273 := by decide
    rw [e0] at h0
    rw [e1] at h1
    have hq : day / 31 = 7 ∨ day / 31 = 8 := by omega
    rcases hq with hq | hq
    · rw [hq]
      have e : daysBefore (7 + 1) = 243 := by decide
      rw [e]
      split_ifs <;> omega
    · rw [hq]
      have e : daysBefore (8 + 1) = 273 := by decide
      rw [e]
      split_ifs <;> omega
  · subst h
    have e0 : daysBefore 9 = 273 := by decide
    have e1 : daysBefore (9 + 1) = 304 := by decide
    rw [e0] at h0
    rw [e1] at h1
    have hq : day / 31 = 8 ∨ day / 31 = 9 := by omega
    rcases hq with hq | hq
    · rw [hq]
      have e : daysBefore (8 + 1) = 273 := by decide
      rw [e]
      split_ifs <;> omega
    · rw [hq]
      have e : daysBefore (9 + 1) = 304 := by decide
      rw [e]
      split_ifs <;> omega
  · subst h
    have e0 : daysBefore 10 = 304 := by decide
    have e1 : daysBefore (10 + 1) = 334 := by decide
    rw [e0] at h0
    rw [e1] at h1
    have hq : day / 31 = 9 ∨ day / 31 = 10 := by omega
    rcases hq with hq | hq
    · rw [hq]
      have e : daysBefore (9 + 1) = 304 := by decide
      rw [e]
      split_ifs <;> omega
    · rw [hq]
      have e : daysBefore (10 + 1) = 334 := by decide
      rw [e]
      split_ifs <;> omega
  · subst h
    have e0 : daysBefore 11 = 334 := by decide
    have e1 : daysBefore (11 + 1) = 365 := by decide
    rw [e0] at h0
    rw [e1] at h1
    have hq : day / 31 = 10 ∨ day / 31 = 11 := by omega
    rcases hq with hq | hq
    · rw [hq]
      have e : daysBefore (10 + 1) = 334 := by decide
      rw [e]
      split_ifs <;> omega
    · rw [hq]
      have e : daysBefore (11 + 1) = 365 := by decide
      rw [e]
      split_ifs <;> omega

theorem Month.ofInt_index (m : Month) : Month.ofInt (m.index + 1) = m := by
  cases m <;> decide

theorem Month.index_range (m : Month) : 0 ≤ m.index ∧ m.index < 12 := by
  cases m <;> decide

theorem dayOfYearStart_leap (y : Int) (m : Month) (hl : leapYear y = true) :
    dayOfYearStart y m = daysBefore m.index + (if 2 ≤ m.index then 1 else 0) ∧
    dayOfYearStart y m + monthLength y m =
      daysBefore (m.index + 1) + (if 1 ≤ m.index then 1 else 0) := by
  cases m <;> simp only [dayOfYearStart, monthLength, hl, if_true] <;> decide

theorem dayOfYearStart_common (y : Int) (m : Month) (hl : ¬ leapYear y = true) :
    dayOfYearStart y m = daysBefore m.index ∧
    dayOfYearStart y m + monthLength y m = daysBefore (m.index + 1) := by
  cases m <;> simp only [dayOfYearStart, monthLength, hl, if_false] <;> decide

theorem daysBefore_mono (k : Int) (hk0 : 0 ≤ k) (hk : k < 12) :
    0 ≤ daysBefore k ∧ daysBefore k < daysBefore (k + 1) ∧ daysBefore (k + 1) ≤ 365 ∧
    (k ≤ 1 → daysBefore (k + 1) ≤ 59) ∧ (2 ≤ k → 59 ≤ daysBefore k) ∧
    (k = 1 → daysBefore k = 31) ∧ (k = 1 → daysBefore (k + 1) = 59) := by
  have hk12 : k = 0 ∨ k = 1 ∨ k = 2 ∨ k = 3 ∨ k = 4 ∨ k = 5 ∨ k = 6 ∨ k = 7 ∨ k = 8 ∨ k = 9 ∨
      k = 10 ∨ k = 11 := by omega
  rcases hk12 with h | h | h | h | h | h | h | h | h | h | h | h <;> subst h <;> decide

theorem absMonth_spec (y yday : Int) (m : Month) (h0 : dayOfYearStart y m ≤ yday)
    (h1 : yday < dayOfYearStart y m + monthLength y m) :
    Month.ofInt (absMonth y yday) = m := by
  obtain ⟨k0, k12⟩ := m.index_range
  obtain ⟨d0, d1, d2, d3, d4, d5, d6⟩ := daysBefore_mono m.index k0 k12
  unfold absMonth
  rw [isLeap_eq]
  by_cases hl : leapYear y = true
  · obtain ⟨e0, e1⟩ := dayOfYearStart_leap y m hl
    rw [e0] at h0
    rw [e1] at h1
    by_cases h59 : yday = 59
    · rw [if_pos ⟨hl, h59⟩]
      have : m.index = 1 := by
        split_ifs at h0 h1 <;> omega
      rw [← Month.ofInt_index m, this]
      rfl
    · rw [if_neg (fun h => h59 h.2)]
      simp only [hl, true_and]
      by_cases hgt : yday > 59
      · rw [if_pos hgt]
        rw [absMonth_table (yday - 1) m.index k0 k12 (by split_ifs at h0 h1 <;> omega)
          (by split_ifs at h0 h1 <;> omega)]
        exact Month.ofInt_index m
      · rw [if_neg hgt]
        rw [absMonth_table yday m.index k0 k12 (by split_ifs at h0 h1 <;> omega)
          (by split_ifs at h0 h1 <;> omega)]
        exact Month.ofInt_index m
  · obtain ⟨e0, e1⟩ := dayOfYearStart_common y m hl
    rw [e0] at h0
    rw [e1] at h1
    rw [if_neg (fun h => hl h.1)]
    simp only [Bool.not_eq_true] at hl
    simp only [hl, Bool.false_eq_true, false_and, if_false]
    rw [absMonth_table yday m.index k0 k12 h0 h1]
    exact Month.ofInt_index m

/-- The year and the month that Go shows for a time whose wall clock lies in the month
`m` of the year `y`. -/
theorem Time.year_month_of_inMonth (dt : Time) (y : Int) (m : Month) (h : dt.inMonth y m) :
    dt.year = y ∧ dt.month = m := by
  obtain ⟨h0, h1⟩ := h
  obtain ⟨k0, k12⟩ := m.index_range
  obtain ⟨d0, _, d2, _⟩ := daysBefore_mono m.index k0 k12
  have hd0 : daysBeforeYear y + dayOfYearStart y m ≤ dt.absDay := by
    unfold Time.absDay
    omega
  have hd1 : dt.absDay < daysBeforeYear y + dayOfYearStart y m + monthLength y m := by
    unfold Time.absDay
    omega
  have hs : 0 ≤ dayOfYearStart y m ∧
      dayOfYearStart y m + monthLength y m ≤ if leapYear y = true then 366 else 365 := by
    by_cases hl : leapYear y = true
    · obtain ⟨e0, e1⟩ := dayOfYearStart_leap y m hl
      rw [e1, e0, if_pos hl]
      split_ifs <;> omega
    · obtain ⟨e0, e1⟩ := dayOfYearStart_common y m hl
      rw [e1, e0, if_neg hl]
      omega
  have hy := absYearDay_spec y (dt.absDay - daysBeforeYear y) (by omega) (by omega)
  rw [add_sub_cancel] at hy
  have hm := absMonth_spec y (dt.absDay - daysBeforeYear y) m (by omega) (by omega)
  unfold Time.year Time.month
  rw [hy]
  exact ⟨rfl, hm⟩

/-- A time at 23:59:59 UTC on June 30, 2023 in a location one hour east of UTC shows the
month of its wall clock, July. -/
theorem generateCaptionFromDate_location :
    generateCaptionFromDate ⟨738701 * 86400 - 1, 0, 3600⟩ = str " - JUL '23 -" := by
  decide

/-- C8: the caption text of `processImage` is the explicit caption whenever that is not
empty; otherwise it is `" - --- -"` when the capture date cannot be read or is the zero
time (the zero instant, in any location), and otherwise `" - MON 'YY -"` with the upper-cased
three-letter abbreviation of the month `MON` and the last two digits of the year `YY` of
the date the time shows in its location; any such date in June 2023 gives
`" - JUN '23 -"`. -/
theorem caption_text :
    (∀ caption exifDate, caption ≠ [] → processImage_captionText caption exifDate = caption) ∧
    (∀ e, processImage_captionText [] (.error e) = str " - --- -") ∧
    (∀ offset, processImage_captionText [] (.ok ⟨0, 0, offset⟩) = str " - --- -") ∧
    (∀ dt y m, (dt.sec ≠ 0 ∨ dt.nsec ≠ 0) → dt.inMonth y m →
      processImage_captionText [] (.ok dt) =
        str " - " ++ monthAbbrevUpper m ++ str " '" ++ lastTwoDigits y ++ str " -") ∧
    (∀ dt, (dt.sec ≠ 0 ∨ dt.nsec ≠ 0) → dt.inMonth 2023 .June →
      processImage_captionText [] (.ok dt) = str " - JUN '23 -") := by
  have key : ∀ dt y m, (dt.sec ≠ 0 ∨ dt.nsec ≠ 0) → dt.inMonth y m →
      processImage_captionText [] (.ok dt) =
        str " - " ++ monthAbbrevUpper m ++ str " '" ++ lastTwoDigits y ++ str " -" := by
    intro dt y m hnz hin
    obtain ⟨hy, hm⟩ := Time.year_month_of_inMonth dt y m hin
    have hz : dt.IsZero = false := by
      unfold Time.IsZero
      rcases hnz with h | h <;> simp [h]
    unfold processImage_captionText generateCaptionFromDate
    rw [if_neg (by simp)]
    simp only [hz, Bool.false_eq_true, if_false]
    unfold Time.FormatJan
    rw [Format06_eq, FormatJan_upper, hy, hm]
  refine ⟨fun caption exifDate h => ?_, fun e => rfl, fun offset => ?_, key,
    fun dt hnz h => ?_⟩
  · unfold processImage_captionText
    rw [if_pos h]
  · unfold processImage_captionText generateCaptionFromDate Time.IsZero
    simp
  · rw [key dt 2023 .June hnz h]
    decide

/-- C8 at a time in the afternoon of June 15, 2023 in a location two hours east of UTC. -/
theorem caption_text_witness :
    processImage_captionText [] (.ok ⟨63822430800, 0, 7200⟩) = str " - JUN '23 -" :=
  caption_text.2.2.2.2 ⟨63822430800, 0, 7200⟩ (Or.inl (by decide)) ⟨by decide, by decide⟩

/-! ## Rounding -/

theorem bitLenAux_zero (fuel : Nat) : bitLenAux fuel 0 = 0 := by
  cases fuel <;> simp [bitLenAux]

theorem bitLenAux_spec (fuel : Nat) : ∀ n, n ≤ fuel →
    n < 2 ^ bitLenAux fuel n ∧ (0 < n → 2 ^ bitLenAux fuel n ≤ 2 * n) := by
  induction fuel with
  | zero =>
    intro n hn
    have : n = 0 := by omega
    subst this
    simp [bitLenAux]
  | succ fuel ih =>
    intro n hn
    by_cases h0 : n = 0
    · subst h0
      simp [bitLenAux]
    · have hstep : bitLenAux (fuel + 1) n = bitLenAux fuel (n / 2) + 1 := by
        simp [bitLenAux, h0]
      rw [hstep, pow_succ]
      obtain ⟨h1, h2⟩ := ih (n / 2) (by omega)
      refine ⟨by omega, fun _ => ?_⟩
      by_cases h3 : n / 2 = 0
      · rw [h3, bitLenAux_zero]
        simp
        omega
      · have := h2 (by omega)
        omega

theorem bitLen_spec (n : Nat) : n < 2 ^ bitLen n ∧ (0 < n → 2 ^ bitLen n ≤ 2 * n) :=
  bitLenAux_spec n n le_rfl

theorem roundHalfEven_near (n d : Nat) (hd : 0 < d) :
    2 * (d * roundHalfEven n d) ≤ 2 * n + d ∧ 2 * n ≤ 2 * (d * roundHalfEven n d) + d := by
  have h1 : d * (n / d) + n % d = n := Nat.div_add_mod n d
  have h2 : n % d < d := Nat.mod_lt n hd
  unfold roundHalfEven
  simp only []
  split_ifs <;> (try simp only [Nat.mul_add, Nat.mul_one]) <;> omega

/-- The scaled fraction that `roundFrac` rounds has an integer part of at least 53 bits. -/
theorem roundFrac_scale (n d : Nat) (hn : 0 < n) :
    let k := bitLen n
    let l := bitLen d
    let up := (53 + l) - k
    let down := k - (53 + l)
    let N := n * 2 ^ up
    let D := d * 2 ^ down
    let c := if 2 ^ 53 * D ≤ N then 2 else 1
    2 ^ 52 * (D * c) ≤ N := by
  intro k l up down N D c
  have hk := (bitLen_spec n).2 hn
  have hl := (bitLen_spec d).1
  by_cases hc : 2 ^ 53 * D ≤ N
  · have : c = 2 := if_pos hc
    rw [this]
    omega
  · have : c = 1 := if_neg hc
    rw [this, Nat.mul_one]
    by_cases hkl : k ≤ 53 + l
    · have hdown : down = 0 := by omega
      have hD : D = d := by simp [D, hdown]
      have hpow : 2 ^ k * 2 ^ up = 2 ^ 53 * 2 ^ l := by
        rw [← pow_add, ← pow_add]; congr 1; omega
      have h3 : 2 ^ k * 2 ^ up ≤ 2 * n * 2 ^ up := Nat.mul_le_mul_right _ hk
      have h4 : 2 ^ 53 * d ≤ 2 ^ 53 * 2 ^ l := Nat.mul_le_mul_left _ (le_of_lt hl)
      rw [hD]
      have h5 : 2 * n * 2 ^ up = 2 * N := by simp [N]; ring
      have h6 : (2:Nat) ^ 53 = 2 * 2 ^ 52 := by norm_num
      have h7 : 2 * 2 ^ 52 * d = 2 * (2 ^ 52 * d) := by ring
      omega
    · have hup : up = 0 := by omega
      have hN : N = n := by simp [N, hup]
      have hpow : 2 ^ 53 * (2 ^ l * 2 ^ down) = 2 ^ k := by
        rw [← pow_add, ← pow_add]; congr 1; omega
      have h4 : d * 2 ^ down ≤ 2 ^ l * 2 ^ down := Nat.mul_le_mul_right _ (le_of_lt hl)
      have h5 : 2 ^ 53 * (d * 2 ^ down) ≤ 2 ^ 53 * (2 ^ l * 2 ^ down) := Nat.mul_le_mul_left _ h4
      have h6 : (2:Nat) ^ 53 * D = 2 * (2 ^ 52 * D) := by norm_num; ring
      rw [hN]
      have : 2 ^ 53 * D ≤ 2 * n := by
        calc 2 ^ 53 * D = 2 ^ 53 * (d * 2 ^ down) := rfl
          _ ≤ 2 ^ 53 * (2 ^ l * 2 ^ down) := h5
          _ = 2 ^ k := hpow
          _ ≤ 2 * n := hk
      omega

/-- Rounding a positive fraction changes it by at most the factor `1 ± 2^-53`. -/
theorem roundFrac_bounds (n d : Nat) (hn : 0 < n) (hd : 0 < d) :
    0 < (roundFrac n d).2 ∧
    ((n : ℚ) / d) * (1 - 1 / 2 ^ 53) ≤ ((roundFrac n d).1 : ℚ) / ((roundFrac n d).2 : ℚ) ∧
    ((roundFrac n d).1 : ℚ) / ((roundFrac n d).2 : ℚ) ≤ ((n : ℚ) / d) * (1 + 1 / 2 ^ 53) := by
  have hscale := roundFrac_scale n d hn
  simp only [] at hscale
  unfold roundFrac
  rw [if_neg (by omega)]
  simp only []
  generalize hup : (53 + bitLen d) - bitLen n = up at *
  generalize hdown : bitLen n - (53 + bitLen d) = down at *
  generalize hc : (if 2 ^ 53 * (d * 2 ^ down) ≤ n * 2 ^ up then 2 else 1) = c at *
  have hcpos : 0 < c := by
    rw [← hc]; split_ifs <;> norm_num
  have hDpos : 0 < d * 2 ^ down * c := by positivity
  obtain ⟨h1, h2⟩ := roundHalfEven_near (n * 2 ^ up) (d * 2 ^ down * c) hDpos
  generalize roundHalfEven (n * 2 ^ up) (d * 2 ^ down * c) = m at *
  have hs : (2 ^ 52 : ℚ) * ((d : ℚ) * 2 ^ down * c) ≤ (n : ℚ) * 2 ^ up := by
    exact_mod_cast hscale
  have h1q : 2 * (((d : ℚ) * 2 ^ down * c) * m) ≤
      2 * ((n : ℚ) * 2 ^ up) + (d : ℚ) * 2 ^ down * c := by
    exact_mod_cast h1
  have h2q : 2 * ((n : ℚ) * 2 ^ up) ≤
      2 * (((d : ℚ) * 2 ^ down * c) * m) + (d : ℚ) * 2 ^ down * c := by
    exact_mod_cast h2
  have hdq : (0 : ℚ) < d := by exact_mod_cast hd
  have hupq : (0 : ℚ) < 2 ^ up := by positivity
  have e2 : (m : ℚ) * (2 ^ down * (c : ℚ)) * d = ((d : ℚ) * 2 ^ down * c) * m := by ring
  refine ⟨by positivity, ?_, ?_⟩
  · push_cast
    rw [div_mul_eq_mul_div, div_le_div_iff₀ hdq hupq]
    have e1 : (n : ℚ) * (1 - 1 / 2 ^ 53) * 2 ^ up = ((n : ℚ) * 2 ^ up) * (1 - 1 / 2 ^ 53) := by
      ring
    rw [e1, e2]
    generalize (n : ℚ) * 2 ^ up = P at *
    generalize ((d : ℚ) * 2 ^ down * c) * m = R at *
    generalize ((d : ℚ) * 2 ^ down * c) = Q at *
    norm_num at hs ⊢
    linarith
  · push_cast
    rw [div_mul_eq_mul_div, div_le_div_iff₀ hupq hdq]
    have e1 : (n : ℚ) * (1 + 1 / 2 ^ 53) * 2 ^ up = ((n : ℚ) * 2 ^ up) * (1 + 1 / 2 ^ 53) := by
      ring
    rw [e1, e2]
    generalize (n : ℚ) * 2 ^ up = P at *
    generalize ((d : ℚ) * 2 ^ down * c) * m = R at *
    generalize ((d : ℚ) * 2 ^ down * c) = Q at *
    norm_num at hs ⊢
    linarith

/-! ## Relative error -/

theorem theta_pos : 0 < theta := by unfold theta; norm_num

theorem theta_le_one : theta ≤ 1 := by unfold theta; norm_num

theorem theta_pow_pos (k : Nat) : 0 < theta ^ k := pow_pos theta_pos k

theorem RelErr.refl {x : ℚ} (hx : 0 < x) : RelErr 0 x x := by
  simp [RelErr, hx]

theorem RelErr.mono {j k : Nat} {x y : ℚ} (h : RelErr j x y) (hjk : j ≤ k) : RelErr k x y := by
  obtain ⟨hx, hy, h1, h2⟩ := h
  have hle : theta ^ k ≤ theta ^ j := pow_le_pow_of_le_one theta_pos.le theta_le_one hjk
  refine ⟨hx, hy, ?_, ?_⟩
  · exact le_trans (mul_le_mul_of_nonneg_left hle hy.le) h1
  · exact le_trans (mul_le_mul_of_nonneg_left hle hx.le) h2

theorem RelErr.trans {j k : Nat} {x y z : ℚ} (h1 : RelErr j x y) (h2 : RelErr k y z) :
    RelErr (j + k) x z := by
  obtain ⟨hx, hy, a1, a2⟩ := h1
  obtain ⟨_, hz, b1, b2⟩ := h2
  refine ⟨hx, hz, ?_, ?_⟩
  · calc z * theta ^ (j + k) = (z * theta ^ k) * theta ^ j := by rw [pow_add]; ring
      _ ≤ y * theta ^ j := mul_le_mul_of_nonneg_right b1 (theta_pow_pos j).le
      _ ≤ x := a1
  · calc x * theta ^ (j + k) = (x * theta ^ j) * theta ^ k := by rw [pow_add]; ring
      _ ≤ y * theta ^ k := mul_le_mul_of_nonneg_right a2 (theta_pow_pos k).le
      _ ≤ z := b2

theorem RelErr.mul {j k : Nat} {x y x' y' : ℚ} (h1 : RelErr j x x') (h2 : RelErr k y y') :
    RelErr (j + k) (x * y) (x' * y') := by
  obtain ⟨hx, hx', a1, a2⟩ := h1
  obtain ⟨hy, hy', b1, b2⟩ := h2
  refine ⟨mul_pos hx hy, mul_pos hx' hy', ?_, ?_⟩
  · calc x' * y' * theta ^ (j + k) = (x' * theta ^ j) * (y' * theta ^ k) := by
          rw [pow_add]; ring
      _ ≤ x * y := mul_le_mul a1 b1 (mul_pos hy' (theta_pow_pos k)).le hx.le
  · calc x * y * theta ^ (j + k) = (x * theta ^ j) * (y * theta ^ k) := by rw [pow_add]; ring
      _ ≤ x' * y' := mul_le_mul a2 b2 (mul_pos hy (theta_pow_pos k)).le hx'.le

theorem RelErr.div {j k : Nat} {x y x' y' : ℚ} (h1 : RelErr j x x') (h2 : RelErr k y y') :
    RelErr (j + k) (x / y) (x' / y') := by
  obtain ⟨hx, hx', a1, a2⟩ := h1
  obtain ⟨hy, hy', b1, b2⟩ := h2
  refine ⟨div_pos hx hy, div_pos hx' hy', ?_, ?_⟩
  · rw [div_mul_eq_mul_div, div_le_div_iff₀ hy' hy]
    calc x' * theta ^ (j + k) * y = (x' * theta ^ j) * (y * theta ^ k) := by rw [pow_add]; ring
      _ ≤ x * y' := mul_le_mul a1 b2 (mul_pos hy (theta_pow_pos k)).le hx.le
  · rw [div_mul_eq_mul_div, div_le_div_iff₀ hy hy']
    calc x * theta ^ (j + k) * y' = (x * theta ^ j) * (y' * theta ^ k) := by rw [pow_add]; ring
      _ ≤ x' * y := mul_le_mul a2 b1 (mul_pos hy' (theta_pow_pos k)).le hx'.le

theorem RelErr.min {k : Nat} {x y x' y' : ℚ} (h1 : RelErr k x x') (h2 : RelErr k y y') :
    RelErr k (min x y) (min x' y') := by
  obtain ⟨hx, hx', a1, a2⟩ := h1
  obtain ⟨hy, hy', b1, b2⟩ := h2
  have ht := (theta_pow_pos k).le
  refine ⟨lt_min hx hy, lt_min hx' hy', le_min ?_ ?_, le_min ?_ ?_⟩
  · exact le_trans (mul_le_mul_of_nonneg_right (min_le_left _ _) ht) a1
  · exact le_trans (mul_le_mul_of_nonneg_right (min_le_right _ _) ht) b1
  · exact le_trans (mul_le_mul_of_nonneg_right (min_le_left _ _) ht) a2
  · exact le_trans (mul_le_mul_of_nonneg_right (min_le_right _ _) ht) b2

/-! ## `float64` operations on positive values -/

theorem F64.round_pos (z : Int) (d : Nat) (hz : 0 < z) (hd : 0 < d) :
    (F64.round z d).Pos ∧ RelErr 1 (F64.round z d).toRat ((z : ℚ) / d) := by
  obtain ⟨n, rfl⟩ := Int.eq_ofNat_of_zero_le hz.le
  have hn : 0 < n := by exact_mod_cast hz
  obtain ⟨h0, h1, h2⟩ := roundFrac_bounds n d hn hd
  have hsign : Int.sign (n : Int) = 1 := Int.sign_eq_one_of_pos hz
  have hy : (0 : ℚ) < (n : ℚ) / d := by positivity
  have hx : (0 : ℚ) < ((roundFrac n d).1 : ℚ) / ((roundFrac n d).2 : ℚ) := by
    refine lt_of_lt_of_le ?_ h1
    exact mul_pos hy (by norm_num)
  have hden : (0 : ℚ) < ((roundFrac n d).2 : ℚ) := by exact_mod_cast h0
  have hnum : 0 < (roundFrac n d).1 := by
    by_contra hcon
    have : (roundFrac n d).1 = 0 := by omega
    rw [this] at hx
    simp at hx
  have e : (F64.round (n : Int) d).toRat = ((roundFrac n d).1 : ℚ) / ((roundFrac n d).2 : ℚ) := by
    simp [F64.round, F64.toRat, hsign]
  refine ⟨⟨?_, ?_⟩, ?_⟩
  · simp only [F64.round, Int.natAbs_ofNat, hsign, one_mul]
    exact_mod_cast hnum
  · simpa [F64.round] using h0
  · rw [e, Int.cast_natCast]
    refine ⟨hx, hy, ?_, ?_⟩
    · simpa [theta] using h1
    · rw [pow_one]
      have h3 := mul_le_mul_of_nonneg_right h2 theta_pos.le
      refine le_trans h3 ?_
      have : ((n : ℚ) / d) * (1 + 1 / 2 ^ 53) * theta = ((n : ℚ) / d) * (1 - (1 / 2 ^ 53) ^ 2) := by
        unfold theta; ring
      rw [this]
      have : (0:ℚ) ≤ (1 / 2 ^ 53) ^ 2 := by positivity
      have := mul_le_mul_of_nonneg_left (show (1:ℚ) - (1 / 2 ^ 53) ^ 2 ≤ 1 by linarith) hy.le
      simpa using this

theorem F64.toRat_pos {a : F64} (h : a.Pos) : 0 < a.toRat := by
  obtain ⟨h1, h2⟩ := h
  unfold F64.toRat
  have : (0 : ℚ) < a.num := by exact_mod_cast h1
  have : (0 : ℚ) < a.den := by exact_mod_cast h2
  positivity

theorem F64.ofInt_pos (z : Int) (hz : 0 < z) :
    (F64.ofInt z).Pos ∧ RelErr 1 (F64.ofInt z).toRat z := by
  have := F64.round_pos z 1 hz (by norm_num)
  simpa [F64.ofInt] using this

theorem F64.mul_pos {a b : F64} (ha : a.Pos) (hb : b.Pos) :
    (F64.mul a b).Pos ∧ RelErr 1 (F64.mul a b).toRat (a.toRat * b.toRat) := by
  have := F64.round_pos (a.num * b.num) (a.den * b.den) (Int.mul_pos ha.1 hb.1)
    (Nat.mul_pos ha.2 hb.2)
  have e : ((a.num * b.num : Int) : ℚ) / ((a.den * b.den : Nat) : ℚ) = a.toRat * b.toRat := by
    unfold F64.toRat
    push_cast
    rw [div_mul_div_comm]
  rw [e] at this
  exact this

theorem F64.div_pos {a b : F64} (ha : a.Pos) (hb : b.Pos) :
    (F64.div a b).Pos ∧ RelErr 1 (F64.div a b).toRat (a.toRat / b.toRat) := by
  have hsign : Int.sign b.num = 1 := Int.sign_eq_one_of_pos hb.1
  have hnat : ((b.num.natAbs : Nat) : Int) = b.num := Int.natAbs_of_nonneg hb.1.le
  have hnpos : 0 < b.num.natAbs := Int.natAbs_pos.mpr hb.1.ne'
  have := F64.round_pos (a.num * b.den * b.num.sign) (a.den * b.num.natAbs)
    (by rw [hsign, mul_one]; exact Int.mul_pos ha.1 (by exact_mod_cast hb.2))
    (Nat.mul_pos ha.2 hnpos)
  have hb1 : (0 : ℚ) < b.num := by exact_mod_cast hb.1
  have hb2 : (0 : ℚ) < b.den := by exact_mod_cast hb.2
  have ha2 : (0 : ℚ) < a.den := by exact_mod_cast ha.2
  have hq : ((b.num.natAbs : Nat) : ℚ) = (b.num : ℚ) := by
    rw [Nat.cast_natAbs, abs_of_pos hb.1]
  have e : ((a.num * b.den * b.num.sign : Int) : ℚ) / ((a.den * b.num.natAbs : Nat) : ℚ) =
      a.toRat / b.toRat := by
    unfold F64.toRat
    rw [hsign]
    push_cast
    rw [hq]
    field_simp
  rw [e] at this
  exact this

theorem F64.lt_iff {a b : F64} (ha : 0 < a.den) (hb : 0 < b.den) :
    F64.lt a b = true ↔ a.toRat < b.toRat := by
  have ha2 : (0 : ℚ) < a.den := by exact_mod_cast ha
  have hb2 : (0 : ℚ) < b.den := by exact_mod_cast hb
  unfold F64.lt F64.toRat
  rw [decide_eq_true_iff, div_lt_div_iff₀ ha2 hb2]
  constructor
  · intro h; exact_mod_cast h
  · intro h; exact_mod_cast h

/-- For a positive value the conversion `int(a)` is the floor of `a` when it fits in 64
bits, and the minimum integer otherwise. -/
theorem F64.toInt_cases {a : F64} (h : a.Pos) :
    (a.num / (a.den : Int) < 2 ^ 63 ∧ a.toInt = a.num / (a.den : Int)) ∨
    (2 ^ 63 ≤ a.num / (a.den : Int) ∧ a.toInt = -2 ^ 63) := by
  obtain ⟨h1, h2⟩ := h
  have hd : (0 : Int) < (a.den : Int) := by exact_mod_cast h2
  have e : Int.tdiv a.num a.den = a.num / (a.den : Int) := Int.tdiv_eq_ediv h1.le hd.le
  have h0 : 0 ≤ a.num / (a.den : Int) := Int.ediv_nonneg h1.le hd.le
  unfold F64.toInt
  simp only [e]
  by_cases hr : a.num / (a.den : Int) < 2 ^ 63
  · left
    exact ⟨hr, by rw [if_pos ⟨by omega, hr⟩]⟩
  · right
    exact ⟨by omega, by rw [if_neg (fun hh => hr hh.2)]⟩

theorem F64.floor_bounds {a : F64} (h : a.Pos) :
    0 ≤ a.num / (a.den : Int) ∧ ((a.num / (a.den : Int) : Int) : ℚ) ≤ a.toRat ∧
    a.toRat < ((a.num / (a.den : Int) : Int) : ℚ) + 1 := by
  obtain ⟨h1, h2⟩ := h
  have hd : (0 : Int) < (a.den : Int) := by exact_mod_cast h2
  have hdq : (0 : ℚ) < a.den := by exact_mod_cast h2
  have l1 : a.num / (a.den : Int) * a.den ≤ a.num := Int.ediv_mul_le _ hd.ne'
  have l2 : a.num < (a.num / (a.den : Int) + 1) * a.den := Int.lt_ediv_add_one_mul_self _ hd
  unfold F64.toRat
  refine ⟨Int.ediv_nonneg h1.le hd.le, ?_, ?_⟩
  · rw [le_div_iff₀ hdq]
    exact_mod_cast l1
  · rw [div_lt_iff₀ hdq]
    exact_mod_cast l2

/-- The conversion `int(a)` of a positive value below `2 ^ 63` is its floor. -/
theorem F64.toInt_bounds {a : F64} (h : a.Pos) (hr : a.toRat < 2 ^ 63) :
    0 ≤ a.toInt ∧ (a.toInt : ℚ) ≤ a.toRat ∧ a.toRat < (a.toInt : ℚ) + 1 := by
  obtain ⟨f0, f1, f2⟩ := F64.floor_bounds h
  rcases F64.toInt_cases h with ⟨_, e⟩ | ⟨hbig, _⟩
  · rw [e]
    exact ⟨f0, f1, f2⟩
  · exfalso
    have : ((2 ^ 63 : Int) : ℚ) ≤ ((a.num / (a.den : Int) : Int) : ℚ) := by exact_mod_cast hbig
    push_cast at this
    linarith

/-- The conversion `int(a)` of a positive value never exceeds the value. -/
theorem F64.toInt_le {a : F64} (h : a.Pos) : (a.toInt : ℚ) ≤ a.toRat := by
  obtain ⟨f0, f1, _⟩ := F64.floor_bounds h
  rcases F64.toInt_cases h with ⟨_, e⟩ | ⟨_, e⟩
  · rw [e]
    exact f1
  · rw [e]
    have := F64.toRat_pos h
    push_cast
    linarith

/-- A non-negative result of `int(a)` on a positive value is the floor of the value. -/
theorem F64.toInt_lt_of_nonneg {a : F64} (h : a.Pos) (h0 : 0 ≤ a.toInt) :
    a.toRat < (a.toInt : ℚ) + 1 := by
  obtain ⟨_, _, f2⟩ := F64.floor_bounds h
  rcases F64.toInt_cases h with ⟨_, e⟩ | ⟨_, e⟩
  · rw [e]
    exact f2
  · rw [e] at h0
    omega

/-! ## The Instagram frame -/

theorem instagramScale_pos (W H M : Int) (hW : 0 < W) (hH : 0 < H) (hM : 0 < M) :
    (instagramScale W H M).Pos ∧
      RelErr 3 (instagramScale W H M).toRat (exactScale W H M) := by
  obtain ⟨pM, eM⟩ := F64.ofInt_pos M hM
  obtain ⟨pW, eW⟩ := F64.ofInt_pos W hW
  obtain ⟨pH, eH⟩ := F64.ofInt_pos H hH
  obtain ⟨pSW, eSW⟩ := F64.div_pos pM pW
  obtain ⟨pSH, eSH⟩ := F64.div_pos pM pH
  have rW : RelErr 3 (F64.div (F64.ofInt M) (F64.ofInt W)).toRat ((M : ℚ) / W) :=
    eSW.trans (eM.div eW)
  have rH : RelErr 3 (F64.div (F64.ofInt M) (F64.ofInt H)).toRat ((M : ℚ) / H) :=
    eSH.trans (eM.div eH)
  have hlt := F64.lt_iff (a := F64.div (F64.ofInt M) (F64.ofInt H))
    (b := F64.div (F64.ofInt M) (F64.ofInt W)) pSH.2 pSW.2
  unfold instagramScale exactScale
  simp only []
  by_cases h : F64.lt (F64.div (F64.ofInt M) (F64.ofInt H)) (F64.div (F64.ofInt M) (F64.ofInt W))
      = true
  · rw [if_pos h]
    refine ⟨pSH, ?_⟩
    have := rW.min rH
    rwa [min_eq_right (hlt.mp h).le] at this
  · rw [if_neg h]
    refine ⟨pSW, ?_⟩
    have := rW.min rH
    rwa [min_eq_left (not_lt.mp (fun hh => h (hlt.mpr hh)))] at this

theorem instagramScaled_pos (W H M X : Int) (hW : 0 < W) (hH : 0 < H) (hM : 0 < M)
    (hX : 0 < X) :
    (F64.mul (F64.ofInt X) (instagramScale W H M)).Pos ∧
      RelErr 5 (F64.mul (F64.ofInt X) (instagramScale W H M)).toRat
        ((X : ℚ) * exactScale W H M) := by
  obtain ⟨pX, eX⟩ := F64.ofInt_pos X hX
  obtain ⟨pS, eS⟩ := instagramScale_pos W H M hW hH hM
  obtain ⟨pA, eA⟩ := F64.mul_pos pX pS
  exact ⟨pA, eA.trans (eX.mul eS)⟩

theorem theta_pow_five : 1 - 5 / 2 ^ 53 ≤ theta ^ 5 ∧ theta ^ 5 ≤ 1 ∧
    1 - 10 / 2 ^ 53 ≤ theta ^ 5 * theta ^ 5 := by
  unfold theta
  norm_num

theorem exactScale_pos (W H M : Int) (hW : 0 < W) (hH : 0 < H) (hM : 0 < M) :
    0 < exactScale W H M := by
  have hW' : (0 : ℚ) < W := by exact_mod_cast hW
  have hH' : (0 : ℚ) < H := by exact_mod_cast hH
  have hM' : (0 : ℚ) < M := by exact_mod_cast hM
  exact lt_min (div_pos hM' hW') (div_pos hM' hH')

theorem exactScale_mul_le (W H M : Int) (hW : 0 < W) (hH : 0 < H) :
    (W : ℚ) * exactScale W H M ≤ M ∧ (H : ℚ) * exactScale W H M ≤ M := by
  have hW' : (0 : ℚ) < W := by exact_mod_cast hW
  have hH' : (0 : ℚ) < H := by exact_mod_cast hH
  constructor
  · calc (W : ℚ) * exactScale W H M ≤ W * ((M : ℚ) / W) :=
        mul_le_mul_of_nonneg_left (min_le_left _ _) hW'.le
      _ = M := by field_simp
  · calc (H : ℚ) * exactScale W H M ≤ H * ((M : ℚ) / H) :=
        mul_le_mul_of_nonneg_left (min_le_right _ _) hH'.le
      _ = M := by field_simp

/-- A scaled side is a `float64` value below `2 ^ 63`, for `maxSize ≤ 2 ^ 50`: its
conversion to `int` is in range. -/
theorem instagramScaled_lt (W H M X : Int) (hW : 0 < W) (hH : 0 < H) (hM : 0 < M)
    (hMmax : M ≤ 2 ^ 50) (hX : 0 < X) (hXM : (X : ℚ) * exactScale W H M ≤ M) :
    (F64.mul (F64.ofInt X) (instagramScale W H M)).toRat < 2 ^ 63 := by
  obtain ⟨pA, _, _, _, hA⟩ := instagramScaled_pos W H M X hW hH hM hX
  obtain ⟨t1, _, _⟩ := theta_pow_five
  have hMq : (M : ℚ) ≤ 2 ^ 50 := by exact_mod_cast hMmax
  generalize (F64.mul (F64.ofInt X) (instagramScale W H M)).toRat = A at *
  generalize theta ^ 5 = T at *
  by_contra hcon
  push_neg at hcon
  have h3 : (2 ^ 63 : ℚ) * (1 - 5 / 2 ^ 53) ≤ A * T :=
    mul_le_mul hcon t1 (by norm_num) (by linarith)
  norm_num at h3 hMq
  linarith

/-- A scaled side never exceeds `maxSize`, for `maxSize ≤ 2 ^ 50`. -/
theorem instagramScaled_le (W H M X : Int) (hW : 0 < W) (hH : 0 < H) (hM : 0 < M)
    (hMmax : M ≤ 2 ^ 50) (hX : 0 < X) (hXM : (X : ℚ) * exactScale W H M ≤ M) :
    0 ≤ (F64.mul (F64.ofInt X) (instagramScale W H M)).toInt ∧
    (F64.mul (F64.ofInt X) (instagramScale W H M)).toInt ≤ M := by
  obtain ⟨pA, _, _, _, hA⟩ := instagramScaled_pos W H M X hW hH hM hX
  obtain ⟨i0, i1, _⟩ := F64.toInt_bounds pA
    (instagramScaled_lt W H M X hW hH hM hMmax hX hXM)
  obtain ⟨t1, t2, _⟩ := theta_pow_five
  refine ⟨i0, ?_⟩
  have hMq : (M : ℚ) ≤ 2 ^ 50 := by exact_mod_cast hMmax
  have hM0 : (0 : ℚ) < M := by exact_mod_cast hM
  generalize (F64.mul (F64.ofInt X) (instagramScale W H M)).toRat = A at *
  generalize (F64.mul (F64.ofInt X) (instagramScale W H M)).toInt = rw at *
  generalize theta ^ 5 = T at *
  -- A * T ≤ M and T ≥ 1 - 5/2^53, so rw ≤ A < M + 1
  have h1 : (rw : ℚ) * T ≤ M := le_trans (mul_le_mul_of_nonneg_right i1 (by linarith)) (le_trans hA hXM)
  have h2 : (rw : ℚ) < M + 1 := by
    by_contra hcon
    push_neg at hcon
    have h3 : ((M : ℚ) + 1) * T ≤ rw * T := mul_le_mul_of_nonneg_right hcon (by linarith)
    have h4 : ((M : ℚ) + 1) * (1 - 5 / 2 ^ 53) ≤ (M + 1) * T :=
      mul_le_mul_of_nonneg_left t1 (by linarith)
    norm_num at h4 hMq
    linarith
  have : rw < M + 1 := by exact_mod_cast h2
  omega

/-- The value of `createInstagramFrame` on a non-empty source, in terms of its layout. -/
theorem createInstagramFrame_eq (img : Image) (M t p : Int) (c : RGBA)
    (hW : img.bounds.Dx ≠ 0) (hH : img.bounds.Dy ≠ 0) :
    ∃ g, instagramLayout img.bounds.Dx img.bounds.Dy M t p = some g ∧
      createInstagramFrame img M t c p =
        some ⟨⟨⟨0, 0⟩, ⟨1080, 1350⟩⟩, ⟨g.newW, g.newH⟩,
          ⟨add64 (add64 g.x t) p, add64 (add64 g.y t) p⟩⟩ ∧
      g.scaledW = (F64.mul (F64.ofInt img.bounds.Dx)
        (instagramScale img.bounds.Dx img.bounds.Dy M)).toInt ∧
      g.scaledH = (F64.mul (F64.ofInt img.bounds.Dy)
        (instagramScale img.bounds.Dx img.bounds.Dy M)).toInt ∧
      g.newW = (if p > 0 then add64 g.scaledW (mul64 2 p) else g.scaledW) ∧
      g.newH = (if p > 0 then add64 g.scaledH (mul64 2 p) else g.scaledH) := by
  unfold createInstagramFrame instagramLayout
  rw [if_neg (by simp [hW, hH])]
  refine ⟨_, rfl, ?_, rfl, rfl, rfl, rfl⟩
  simp only [NewRGBA]
  rfl

/-- C5: for a source with positive width and height, `0 < maxSize ≤ 2 ^ 50` and padding
`p ≥ 0`, `createInstagramFrame` returns a `resizedSize` with
`max(resizedSize.w, resizedSize.h) ≤ maxSize + 2p`. -/
theorem createInstagramFrame_resizedSize_le (img : Image) (M t p : Int) (c : RGBA)
    (hW : 0 < img.bounds.Dx) (hH : 0 < img.bounds.Dy) (hM : 0 < M) (hMmax : M ≤ 2 ^ 50)
    (hp : 0 ≤ p) :
    ∃ r, createInstagramFrame img M t c p = some r ∧
      max r.resizedSize.X r.resizedSize.Y ≤ M + 2 * p := by
  obtain ⟨g, _, hr, hsw, hsh, hnw, hnh⟩ := createInstagramFrame_eq img M t p c hW.ne' hH.ne'
  obtain ⟨b1, b2⟩ := exactScale_mul_le img.bounds.Dx img.bounds.Dy M hW hH
  obtain ⟨v1, w1⟩ := instagramScaled_le _ _ M _ hW hH hM hMmax hW b1
  obtain ⟨v2, w2⟩ := instagramScaled_le _ _ M _ hW hH hM hMmax hH b2
  rw [← hsw] at w1 v1
  rw [← hsh] at w2 v2
  refine ⟨_, hr, ?_⟩
  have k1 := add64_padding_le g.scaledW p (by omega) hp
  have k2 := add64_padding_le g.scaledH p (by omega) hp
  simp only [hnw, hnh]
  split_ifs <;> simp only [max_le_iff] <;> omega

/-- C5 at a `2000 × 1500` source with `maxSize = 1000` and padding `20`. -/
theorem createInstagramFrame_resizedSize_le_witness :
    ∃ r, createInstagramFrame (blankImage 2000 1500) 1000 5 white 20 = some r ∧
      max r.resizedSize.X r.resizedSize.Y ≤ 1000 + 2 * 20 :=
  createInstagramFrame_resizedSize_le (blankImage 2000 1500) 1000 5 20 white
    (by decide) (by decide) (by decide) (by decide) (by decide)

theorem aspect_aux (A B x y Z H W : ℚ) (hAT : A * theta ^ 5 ≤ x) (hyB : y * theta ^ 5 ≤ B)
    (hxH : x * H = Z) (hyW : y * W = Z) (hZ0 : 0 ≤ Z) (hZ : Z ≤ 2 ^ 49) (hH : 0 < H)
    (hW : 0 < W) : A * H - B * W < 1 := by
  obtain ⟨t1, t2, t3⟩ := theta_pow_five
  generalize theta ^ 5 = T at *
  have hT : 0 < T := by norm_num at t1; linarith
  have f1 : A * T * H ≤ x * H := mul_le_mul_of_nonneg_right hAT hH.le
  have f2 : y * T * T * W ≤ B * T * W :=
    mul_le_mul_of_nonneg_right (mul_le_mul_of_nonneg_right hyB hT.le) hW.le
  have f3 : Z * (1 - T * T) ≤ Z * (10 / 2 ^ 53) :=
    mul_le_mul_of_nonneg_left (by linarith) hZ0
  have f4 : Z * (10 / 2 ^ 53) ≤ 2 ^ 49 * (10 / 2 ^ 53) :=
    mul_le_mul_of_nonneg_right hZ (by norm_num)
  by_contra hcon
  push_neg at hcon
  have f5 : 1 * T ≤ (A * H - B * W) * T := mul_le_mul_of_nonneg_right hcon hT.le
  have e1 : (A * H - B * W) * T = A * T * H - B * T * W := by ring
  have e2 : y * T * T * W = (y * W) * (T * T) := by ring
  rw [e1] at f5
  rw [e2, hyW] at f2
  rw [hxH] at f1
  norm_num at t1 f4
  nlinarith

/-- C6 as stated fails: a `261 × 145` source with `maxSize = 900` and padding `0` is scaled
to `900 × 499`, and `|900 * 145 - 499 * 261| = 261 = max(261, 145)`, which is not below
`max(W, H)`. -/
theorem createInstagramFrame_aspect_counterexample :
    createInstagramFrame (blankImage 261 145) 900 5 white 0 =
      some ⟨⟨⟨0, 0⟩, ⟨1080, 1350⟩⟩, ⟨900, 499⟩, ⟨90, 425⟩⟩ ∧
    ¬ (|(900 : Int) * 145 - 499 * 261| < max 261 145) := by
  constructor
  · decide!
  · decide

/-- C6, amended: for a source of size `W × H` (`W, H > 0`), `maxSize = M > 0` with
`M * min(W, H) ≤ 2 ^ 49` and padding `0`, the size `(rw, rh)` returned by
`createInstagramFrame` satisfies `|rw * H - rh * W| ≤ max(W, H)`. -/
theorem createInstagramFrame_aspect (img : Image) (M t : Int) (c : RGBA)
    (hW : 0 < img.bounds.Dx) (hH : 0 < img.bounds.Dy) (hM : 0 < M)
    (hsize : M * min img.bounds.Dx img.bounds.Dy ≤ 2 ^ 49) :
    ∃ r, createInstagramFrame img M t c 0 = some r ∧
      |r.resizedSize.X * img.bounds.Dy - r.resizedSize.Y * img.bounds.Dx| ≤
        max img.bounds.Dx img.bounds.Dy := by
  obtain ⟨g, _, hr, hsw, hsh, hnw, hnh⟩ := createInstagramFrame_eq img M t 0 c hW.ne' hH.ne'
  generalize img.bounds.Dx = W at *
  generalize img.bounds.Dy = H at *
  obtain ⟨pA, _, _, hxA, hAx⟩ := instagramScaled_pos W H M W hW hH hM hW
  obtain ⟨pB, _, _, hyB, hBy⟩ := instagramScaled_pos W H M H hW hH hM hH
  obtain ⟨m1, m2⟩ := exactScale_mul_le W H M hW hH
  have hMmax : M ≤ 2 ^ 50 := by
    have h1 : 1 ≤ min W H := le_min hW hH
    have h2 : M ≤ M * min W H := le_mul_of_one_le_right hM.le h1
    omega
  obtain ⟨_, a1, a2⟩ := F64.toInt_bounds pA (instagramScaled_lt W H M W hW hH hM hMmax hW m1)
  obtain ⟨_, b1, b2⟩ := F64.toInt_bounds pB (instagramScaled_lt W H M H hW hH hM hMmax hH m2)
  have hs := exactScale_pos W H M hW hH hM
  rw [← hsw] at a1 a2
  rw [← hsh] at b1 b2
  have hWq : (0 : ℚ) < W := by exact_mod_cast hW
  have hHq : (0 : ℚ) < H := by exact_mod_cast hH
  have hZ0 : (0 : ℚ) ≤ W * H * exactScale W H M := by positivity
  have hZ : (W : ℚ) * H * exactScale W H M ≤ 2 ^ 49 := by
    have h1 : (W : ℚ) * H * exactScale W H M ≤ M * H := by
      have := mul_le_mul_of_nonneg_right m1 hHq.le
      calc (W : ℚ) * H * exactScale W H M = W * exactScale W H M * H := by ring
        _ ≤ M * H := this
    have h2 : (W : ℚ) * H * exactScale W H M ≤ M * W := by
      have := mul_le_mul_of_nonneg_right m2 hWq.le
      calc (W : ℚ) * H * exactScale W H M = H * exactScale W H M * W := by ring
        _ ≤ M * W := this
    have h3 : ((M * min W H : Int) : ℚ) ≤ 2 ^ 49 := by exact_mod_cast hsize
    rcases le_total W H with h | h
    · rw [min_eq_left h] at h3
      push_cast at h3
      linarith
    · rw [min_eq_right h] at h3
      push_cast at h3
      linarith
  have k1 := aspect_aux _ _ _ _ _ (H : ℚ) (W : ℚ) hAx hyB (by ring) (by ring) hZ0 hZ hHq hWq
  have k2 := aspect_aux _ _ _ _ _ (W : ℚ) (H : ℚ) hBy hxA (by ring) (by ring) hZ0 hZ hWq hHq
  refine ⟨_, hr, ?_⟩
  simp only [hnw, hnh, lt_irrefl, if_false]
  generalize (F64.mul (F64.ofInt W) (instagramScale W H M)).toRat = A at *
  generalize (F64.mul (F64.ofInt H) (instagramScale W H M)).toRat = B at *
  have c1 : (g.scaledW : ℚ) * H ≤ A * H := mul_le_mul_of_nonneg_right a1 hHq.le
  have c2 : B * W < ((g.scaledH : ℚ) + 1) * W := mul_lt_mul_of_pos_right b2 hWq
  have c3 : (g.scaledH : ℚ) * W ≤ B * W := mul_le_mul_of_nonneg_right b1 hWq.le
  have c4 : A * H < ((g.scaledW : ℚ) + 1) * H := mul_lt_mul_of_pos_right a2 hHq
  have d1 : ((g.scaledW * H - g.scaledH * W : Int) : ℚ) < W + 1 := by
    push_cast; linarith
  have d2 : ((g.scaledH * W - g.scaledW * H : Int) : ℚ) < H + 1 := by
    push_cast; linarith
  have d1' : g.scaledW * H - g.scaledH * W < W + 1 := by exact_mod_cast d1
  have d2' : g.scaledH * W - g.scaledW * H < H + 1 := by exact_mod_cast d2
  rw [abs_le]
  have := le_max_left W H
  have := le_max_right W H
  constructor <;> omega

/-- C6, amended, at the source of the counterexample. -/
theorem createInstagramFrame_aspect_witness :
    ∃ r, createInstagramFrame (blankImage 261 145) 900 5 white 0 = some r ∧
      |r.resizedSize.X * (blankImage 261 145).bounds.Dy -
        r.resizedSize.Y * (blankImage 261 145).bounds.Dx| ≤
        max (blankImage 261 145).bounds.Dx (blankImage 261 145).bounds.Dy :=
  createInstagramFrame_aspect (blankImage 261 145) 900 5 white (by decide) (by decide)
    (by decide) (by decide)

/-- C1 as stated fails in two ways.  A `19 × 19` source with `maxSize = 1000` is scaled to
`999 × 999`, where the exact `floor(19 * (1000 / 19))` is `1000`: the product is computed
in `float64` and `19 * (1000 / 19)` rounds to `999.9999999999999`.  A `2000 × 1` source with
`maxSize = 1000`, `t = 0`, `p = 0` is reported with `resizedSize = (1000, 0)` and
`imagePosition = (40, 674)`, where the stated formula gives `(40, 675)`: the resized
picture is one pixel high, not zero. -/
theorem createInstagramFrame_formula_counterexample :
    (createInstagramFrame (blankImage 19 19) 1000 5 white 0 =
        some ⟨⟨⟨0, 0⟩, ⟨1080, 1350⟩⟩, ⟨999, 999⟩, ⟨40, 175⟩⟩ ∧
      (specInstagramFrame 19 19 1000 5 0).resizedSize = ⟨1000, 1000⟩) ∧
    (createInstagramFrame (blankImage 2000 1) 1000 0 white 0 =
        some ⟨⟨⟨0, 0⟩, ⟨1080, 1350⟩⟩, ⟨1000, 0⟩, ⟨40, 674⟩⟩ ∧
      (specInstagramFrame 2000 1 1000 0 0).resizedSize = ⟨1000, 0⟩ ∧
      (specInstagramFrame 2000 1 1000 0 0).imagePos = ⟨40, 675⟩) := by
  refine ⟨⟨by decide!, ?_⟩, by decide!, ?_, ?_⟩
  · simp only [specInstagramFrame, exactScale]
    norm_num
  · simp only [specInstagramFrame, exactScale]
    norm_num
  · simp only [specInstagramFrame, exactScale]
    norm_num
    decide

/-! ### The size of the resized picture -/

theorem F64.add_pos {a b : F64} (ha : a.Pos) (hb : b.Pos) :
    (F64.add a b).Pos ∧ RelErr 1 (F64.add a b).toRat (a.toRat + b.toRat) := by
  have ha1 : (0 : Int) < (a.den : Int) := by exact_mod_cast ha.2
  have hb1 : (0 : Int) < (b.den : Int) := by exact_mod_cast hb.2
  have := F64.round_pos (a.num * b.den + b.num * a.den) (a.den * b.den)
    (Int.add_pos (Int.mul_pos ha.1 hb1) (Int.mul_pos hb.1 ha1)) (Nat.mul_pos ha.2 hb.2)
  have ha2 : (0 : ℚ) < a.den := by exact_mod_cast ha.2
  have hb2 : (0 : ℚ) < b.den := by exact_mod_cast hb.2
  have e : ((a.num * b.den + b.num * a.den : Int) : ℚ) / ((a.den * b.den : Nat) : ℚ) =
      a.toRat + b.toRat := by
    unfold F64.toRat
    push_cast
    field_simp
  rw [e] at this
  exact this

/-- The side that `imaging.Resize` computes from the aspect ratio is one pixel when the
exact quotient is below `5/4`. -/
theorem imagingSide_one (a srcA srcB : Int) (ha : 0 < a) (hA : 0 < srcA) (hB : 0 < srcB)
    (h : (a : ℚ) * srcA / srcB < 5 / 4) :
    F64.toInt (F64.max ⟨1, 1⟩ (F64.floor (F64.add
      (F64.div (F64.mul (F64.ofInt a) (F64.ofInt srcA)) (F64.ofInt srcB)) ⟨1, 2⟩))) = 1 := by
  obtain ⟨p1, e1⟩ := F64.ofInt_pos a ha
  obtain ⟨p2, e2⟩ := F64.ofInt_pos srcA hA
  obtain ⟨p3, e3⟩ := F64.ofInt_pos srcB hB
  obtain ⟨p4, e4⟩ := F64.mul_pos p1 p2
  obtain ⟨p5, e5⟩ := F64.div_pos p4 p3
  have e6 := e5.trans ((e4.trans (e1.mul e2)).div e3)
  have hhalf : F64.Pos ⟨1, 2⟩ := ⟨by decide, by decide⟩
  obtain ⟨p7, _, _, _, e7⟩ := F64.add_pos p5 hhalf
  obtain ⟨_, _, _, e6b⟩ := e6
  have hr : (⟨1, 2⟩ : F64).toRat = 1 / 2 := by unfold F64.toRat; norm_num
  rw [hr] at e7
  obtain ⟨t1, _, _⟩ := theta_pow_five
  have th1 : (1 : ℚ) - 1 / 2 ^ 53 ≤ theta ^ 1 := by unfold theta; norm_num
  generalize F64.div (F64.mul (F64.ofInt a) (F64.ofInt srcA)) (F64.ofInt srcB) = tmp at *
  have hs : (F64.add tmp ⟨1, 2⟩).toRat < 2 := by
    generalize (F64.add tmp ⟨1, 2⟩).toRat = s at *
    generalize tmp.toRat = u at *
    have e6c : u * theta ^ (1 + (1 + (1 + 1) + 1)) ≤ (a : ℚ) * srcA / srcB := e6b
    have e6d : u * theta ^ 5 ≤ (a : ℚ) * srcA / srcB := e6c
    generalize theta ^ 5 = T5 at *
    generalize theta ^ 1 = T1 at *
    have hu : u < 3 / 2 - 1 / 2 ^ 50 := by
      by_contra hcon
      push_neg at hcon
      have : (3 / 2 - 1 / 2 ^ 50) * (1 - 5 / 2 ^ 53) ≤ u * T5 :=
        mul_le_mul hcon t1 (by norm_num) (by linarith)
      norm_num at this
      linarith
    by_contra hcon
    push_neg at hcon
    have : (2 : ℚ) * (1 - 1 / 2 ^ 53) ≤ s * T1 := mul_le_mul hcon th1 (by norm_num) (by linarith)
    norm_num at this hu
    linarith
  have hden : (0 : ℚ) < (F64.add tmp ⟨1, 2⟩).den := by exact_mod_cast p7.2
  have hden' : (0 : Int) < ((F64.add tmp ⟨1, 2⟩).den : Int) := by exact_mod_cast p7.2
  have hnum : (F64.add tmp ⟨1, 2⟩).num < 2 * (F64.add tmp ⟨1, 2⟩).den := by
    unfold F64.toRat at hs
    rw [div_lt_iff₀ hden] at hs
    exact_mod_cast hs
  have hfl : (F64.add tmp ⟨1, 2⟩).num / ((F64.add tmp ⟨1, 2⟩).den : Int) ≤ 1 := by
    have := Int.ediv_lt_of_lt_mul hden' hnum
    omega
  unfold F64.max F64.floor F64.lt
  simp only [one_mul, mul_one, Nat.cast_one]
  rw [if_neg (by simp only [decide_eq_true_eq]; omega)]
  rfl

/-- When one side is scaled to `0`, the other scaled side times the aspect ratio of the
source is below `5/4`. -/
theorem degenerate_ratio (W H M X Y : Int) (hW : 0 < W) (hH : 0 < H) (hM : 0 < M)
    (hX : 0 < X) (hY : 0 < Y)
    (h0 : (F64.mul (F64.ofInt X) (instagramScale W H M)).toInt = 0)
    (b0 : 0 ≤ (F64.mul (F64.ofInt Y) (instagramScale W H M)).toInt) :
    (((F64.mul (F64.ofInt Y) (instagramScale W H M)).toInt : Int) : ℚ) * X / Y < 5 / 4 := by
  obtain ⟨pA, _, _, hxA, _⟩ := instagramScaled_pos W H M X hW hH hM hX
  obtain ⟨pB, _, _, _, hBy⟩ := instagramScaled_pos W H M Y hW hH hM hY
  have a2 := F64.toInt_lt_of_nonneg pA (by rw [h0])
  have b1 := F64.toInt_le pB
  rw [h0] at a2
  obtain ⟨t1, _, t3⟩ := theta_pow_five
  have hs := exactScale_pos W H M hW hH hM
  have hXq : (0 : ℚ) < X := by exact_mod_cast hX
  have hYq : (0 : ℚ) < Y := by exact_mod_cast hY
  have hb0 : (0 : ℚ) ≤ ((F64.mul (F64.ofInt Y) (instagramScale W H M)).toInt : Int) := by
    exact_mod_cast b0
  generalize (F64.mul (F64.ofInt X) (instagramScale W H M)).toRat = A at *
  generalize (F64.mul (F64.ofInt Y) (instagramScale W H M)).toRat = B at *
  generalize (((F64.mul (F64.ofInt Y) (instagramScale W H M)).toInt : Int) : ℚ) = sy at *
  generalize exactScale W H M = s at *
  generalize theta ^ 5 = T at *
  have hT : (0 : ℚ) ≤ T := by norm_num at t1; linarith
  have h1 : sy * T ≤ (Y : ℚ) * s := le_trans (mul_le_mul_of_nonneg_right b1 hT) hBy
  have h2 : (X : ℚ) * s * T < 1 := by
    have : (X : ℚ) * s * T ≤ A := hxA
    norm_num at a2
    linarith
  rw [div_lt_iff₀ hYq]
  by_contra hcon
  push_neg at hcon
  have h3 : sy * T * ((X : ℚ) * T) ≤ (Y : ℚ) * s * ((X : ℚ) * T) :=
    mul_le_mul_of_nonneg_right h1 (mul_nonneg hXq.le hT)
  have h4 : (Y : ℚ) * ((X : ℚ) * s * T) < (Y : ℚ) * 1 := mul_lt_mul_of_pos_left h2 hYq
  have h5 : 5 / 4 * (Y : ℚ) * (T * T) ≤ sy * (X : ℚ) * (T * T) :=
    mul_le_mul_of_nonneg_right hcon (mul_nonneg hT hT)
  have h6 : 5 / 4 * (Y : ℚ) * (1 - 10 / 2 ^ 53) ≤ 5 / 4 * (Y : ℚ) * (T * T) :=
    mul_le_mul_of_nonneg_left t3 (by positivity)
  have e1 : sy * T * ((X : ℚ) * T) = sy * (X : ℚ) * (T * T) := by ring
  have e2 : (Y : ℚ) * s * ((X : ℚ) * T) = (Y : ℚ) * ((X : ℚ) * s * T) := by ring
  norm_num at h6
  linarith

/-- The bounds of the picture `imaging.Resize` returns for a request with non-negative
sides: each side is the requested one, or one pixel where the request was `0` and the
aspect ratio gives less than `5/4`. -/
theorem imagingResizeSize_cases (W H sw sh : Int) (hW : 0 < W) (hH : 0 < H) (h0w : 0 ≤ sw)
    (h0h : 0 ≤ sh) (hw : sw = 0 → 0 < sh → (sh : ℚ) * W / H < 5 / 4)
    (hh : sh = 0 → 0 < sw → (sw : ℚ) * H / W < 5 / 4) :
    ((imagingResizeSize W H sw sh).1 = sw ∨ (imagingResizeSize W H sw sh).1 = 1) ∧
    ((imagingResizeSize W H sw sh).2 = sh ∨ (imagingResizeSize W H sw sh).2 = 1) := by
  unfold imagingResizeSize
  rw [if_neg (by omega)]
  by_cases hz : sw = 0 ∧ sh = 0
  · rw [if_pos hz]
    exact ⟨Or.inl hz.1.symm, Or.inl hz.2.symm⟩
  · rw [if_neg hz, if_neg (by omega)]
    simp only []
    by_cases hsw : sw = 0
    · have hsh : 0 < sh := by omega
      rw [if_pos hsw, if_neg (by omega)]
      exact ⟨Or.inr (imagingSide_one sh W H hsh hW hH (hw hsw hsh)), Or.inl rfl⟩
    · rw [if_neg hsw]
      by_cases hsh : sh = 0
      · have hsw' : 0 < sw := by omega
        rw [if_pos hsh]
        exact ⟨Or.inl rfl, Or.inr (imagingSide_one sw H W hsw' hH hW (hh hsh hsw'))⟩
      · rw [if_neg hsh]
        exact ⟨Or.inl rfl, Or.inl rfl⟩

/-! ### The layout without overflow -/

theorem Rect_origin_size (a b : Int) (ha : 0 ≤ a) (hb : 0 ≤ b) :
    (Rect 0 0 a b).Dx = a ∧ (Rect 0 0 a b).Dy = b := by
  rw [Rect_of_le ha hb]
  simp only [Rectangle.Dx, Rectangle.Dy, sub_zero, and_self]

/-- The layout in exact arithmetic: when the scaled sides and the sides of the resized
picture lie between `0` and `B`, and `B + 2p + 2t ≤ 2 ^ 62`, no operation on `int` in
`createInstagramFrame` wraps. -/
theorem instagramLayout_exact (W H M t p B : Int) (g : InstagramLayout) (hW : 0 < W)
    (hH : 0 < H) (ht : 0 ≤ t) (hp : 0 ≤ p) (hB : B + 2 * p + 2 * t ≤ 2 ^ 62)
    (hg : instagramLayout W H M t p = some g)
    (hs : 0 ≤ g.scaledW ∧ g.scaledW ≤ B ∧ 0 ≤ g.scaledH ∧ g.scaledH ≤ B)
    (hc : 0 ≤ g.contentW ∧ g.contentW ≤ B ∧ 0 ≤ g.contentH ∧ g.contentH ≤ B) :
    g.newW = (if p > 0 then g.scaledW + 2 * p else g.scaledW) ∧
    g.newH = (if p > 0 then g.scaledH + 2 * p else g.scaledH) ∧
    g.resizedDx = (if p > 0 then g.scaledW + 2 * p else g.contentW) ∧
    g.resizedDy = (if p > 0 then g.scaledH + 2 * p else g.contentH) ∧
    g.borderedDx = g.resizedDx + 2 * t ∧ g.borderedDy = g.resizedDy + 2 * t ∧
    g.x = Int.tdiv (1080 - g.borderedDx) 2 ∧ g.y = Int.tdiv (1350 - g.borderedDy) 2 ∧
    add64 (add64 g.x t) p = g.x + t + p ∧ add64 (add64 g.y t) p = g.y + t + p := by
  unfold instagramLayout at hg
  rw [if_neg (by omega)] at hg
  simp only [Option.some.injEq] at hg
  subst hg
  simp only [] at hs hc ⊢
  generalize (F64.mul (F64.ofInt W) (instagramScale W H M)).toInt = sw at *
  generalize (F64.mul (F64.ofInt H) (instagramScale W H M)).toInt = sh at *
  generalize imagingResizeSize W H sw sh = content at *
  have w1 : mul64 2 t = 2 * t := mul64_two t (by omega) (by omega)
  have w2 : mul64 2 p = 2 * p := mul64_two p (by omega) (by omega)
  have w3 : add64 sw (2 * p) = sw + 2 * p := add64_eq _ _ (by omega) (by omega)
  have w4 : add64 sh (2 * p) = sh + 2 * p := add64_eq _ _ (by omega) (by omega)
  simp only [w1, w2, w3, w4]
  have key : ∀ rx ry : Int, 0 ≤ rx → rx ≤ B + 2 * p → 0 ≤ ry → ry ≤ B + 2 * p →
      (Rect 0 0 (add64 rx (2 * t)) (add64 ry (2 * t))).Dx = rx + 2 * t ∧
      (Rect 0 0 (add64 rx (2 * t)) (add64 ry (2 * t))).Dy = ry + 2 * t ∧
      sub64 1080 (rx + 2 * t) = 1080 - (rx + 2 * t) ∧
      sub64 1350 (ry + 2 * t) = 1350 - (ry + 2 * t) ∧
      add64 (add64 (Int.tdiv (1080 - (rx + 2 * t)) 2) t) p =
        Int.tdiv (1080 - (rx + 2 * t)) 2 + t + p ∧
      add64 (add64 (Int.tdiv (1350 - (ry + 2 * t)) 2) t) p =
        Int.tdiv (1350 - (ry + 2 * t)) 2 + t + p := by
    intro rx ry hx0 hx1 hy0 hy1
    have a1 : add64 rx (2 * t) = rx + 2 * t := add64_eq _ _ (by omega) (by omega)
    have a2 : add64 ry (2 * t) = ry + 2 * t := add64_eq _ _ (by omega) (by omega)
    rw [a1, a2]
    obtain ⟨r1, r2⟩ := Rect_origin_size (rx + 2 * t) (ry + 2 * t) (by omega) (by omega)
    have bx := tdiv_two_bounds (1080 - (rx + 2 * t))
    have by1 := tdiv_two_bounds (1350 - (ry + 2 * t))
    refine ⟨r1, r2, sub64_eq _ _ (by omega) (by omega), sub64_eq _ _ (by omega) (by omega),
      ?_, ?_⟩
    · generalize Int.tdiv (1080 - (rx + 2 * t)) 2 = q at *
      rw [add64_eq q t (by omega) (by omega), add64_eq (q + t) p (by omega) (by omega)]
    · generalize Int.tdiv (1350 - (ry + 2 * t)) 2 = q at *
      rw [add64_eq q t (by omega) (by omega), add64_eq (q + t) p (by omega) (by omega)]
  by_cases hp0 : p > 0
  · simp only [hp0, if_true]
    obtain ⟨r1, r2⟩ := Rect_origin_size (sw + 2 * p) (sh + 2 * p) (by omega) (by omega)
    rw [r1, r2]
    obtain ⟨k1, k2, k3, k4, k5, k6⟩ := key (sw + 2 * p) (sh + 2 * p) (by omega) (by omega)
      (by omega) (by omega)
    rw [k1, k2, k3, k4]
    refine ⟨?_, ?_, ?_, ?_, ?_, ?_, ?_, ?_, k5, k6⟩ <;> trivial
  · simp only [hp0, if_false]
    obtain ⟨k1, k2, k3, k4, k5, k6⟩ := key content.1 content.2 (by omega) (by omega)
      (by omega) (by omega)
    rw [k1, k2, k3, k4]
    refine ⟨?_, ?_, ?_, ?_, ?_, ?_, ?_, ?_, k5, k6⟩ <;> trivial

/-- The resized picture has the requested size when both requested sides are positive. -/
theorem imagingResizeSize_pos (W H sw sh : Int) (hW : 0 < W) (hH : 0 < H) (hw : 0 < sw)
    (hh : 0 < sh) : imagingResizeSize W H sw sh = (sw, sh) := by
  unfold imagingResizeSize
  rw [if_neg (by omega), if_neg (by omega), if_neg (by omega)]
  simp only []
  rw [if_neg (by omega), if_neg (by omega)]

/-- The scaled sides and the sides of the resized picture lie between `0` and `maxSize`,
for `maxSize ≤ 2 ^ 50`; the resized picture has the scaled sides when both are positive. -/
theorem instagramLayout_sides (W H M t p : Int) (g : InstagramLayout) (hW : 0 < W)
    (hH : 0 < H) (hM : 0 < M) (hMmax : M ≤ 2 ^ 50)
    (hg : instagramLayout W H M t p = some g) :
    (0 ≤ g.scaledW ∧ g.scaledW ≤ M ∧ 0 ≤ g.scaledH ∧ g.scaledH ≤ M) ∧
    (0 ≤ g.contentW ∧ g.contentW ≤ M ∧ 0 ≤ g.contentH ∧ g.contentH ≤ M) ∧
    g.scaledW = (F64.mul (F64.ofInt W) (instagramScale W H M)).toInt ∧
    g.scaledH = (F64.mul (F64.ofInt H) (instagramScale W H M)).toInt ∧
    ((0 < g.scaledW ∧ 0 < g.scaledH) → g.contentW = g.scaledW ∧ g.contentH = g.scaledH) := by
  obtain ⟨m1, m2⟩ := exactScale_mul_le W H M hW hH
  obtain ⟨w0, w1⟩ := instagramScaled_le W H M W hW hH hM hMmax hW m1
  obtain ⟨h0, h1⟩ := instagramScaled_le W H M H hW hH hM hMmax hH m2
  have hc := imagingResizeSize_cases W H _ _ hW hH w0 h0
    (fun e hpos => degenerate_ratio W H M W H hW hH hM hW hH e hpos.le)
    (fun e hpos => degenerate_ratio W H M H W hW hH hM hH hW e hpos.le)
  unfold instagramLayout at hg
  rw [if_neg (by omega)] at hg
  simp only [Option.some.injEq] at hg
  subst hg
  simp only []
  generalize (F64.mul (F64.ofInt W) (instagramScale W H M)).toInt = sw at *
  generalize (F64.mul (F64.ofInt H) (instagramScale W H M)).toInt = sh at *
  refine ⟨⟨w0, w1, h0, h1⟩, ?_, trivial, trivial, ?_⟩
  · obtain ⟨c1, c2⟩ := hc
    generalize imagingResizeSize W H sw sh = content at *
    omega
  · rintro ⟨hw, hh⟩
    rw [imagingResizeSize_pos W H sw sh hW hH hw hh]
    exact ⟨rfl, rfl⟩

/-- A scaled side is the exact `floor(X * M / Q)` or one less. -/
theorem floor_aux (X Q M sw : Int) (A : ℚ) (hX : 0 < X) (hQ : 0 < Q) (hM : 0 < M)
    (hle : ((X : ℚ) * M) / Q ≤ M) (hsize : M * Q ≤ 2 ^ 49)
    (hAx : A * theta ^ 5 ≤ ((X : ℚ) * M) / Q) (hxA : ((X : ℚ) * M) / Q * theta ^ 5 ≤ A)
    (h1 : (sw : ℚ) ≤ A) (h2 : A < (sw : ℚ) + 1) :
    sw = ⌊((X : ℚ) * M) / Q⌋ ∨ sw = ⌊((X : ℚ) * M) / Q⌋ - 1 := by
  obtain ⟨t1, t2, _⟩ := theta_pow_five
  generalize theta ^ 5 = T at *
  have hT : 0 < T := by norm_num at t1; linarith
  have hXq : (0 : ℚ) < X := by exact_mod_cast hX
  have hQq : (0 : ℚ) < Q := by exact_mod_cast hQ
  have hMq : (0 : ℚ) < M := by exact_mod_cast hM
  have hQ1 : (1 : ℚ) ≤ Q := by exact_mod_cast hQ
  have hMQ : (M : ℚ) * Q ≤ 2 ^ 49 := by exact_mod_cast hsize
  have hM49 : (M : ℚ) ≤ 2 ^ 49 := by nlinarith
  have hx0 : (0 : ℚ) < ((X : ℚ) * M) / Q := by positivity
  have hfl := Int.floor_le (((X : ℚ) * M) / Q)
  have hfl2 := Int.lt_floor_add_one (((X : ℚ) * M) / Q)
  -- the product of the floor's successor with `Q` exceeds `X * M` by at least one
  have hgap : ((X : ℚ) * M) / Q + 1 / Q ≤ (⌊((X : ℚ) * M) / Q⌋ : ℚ) + 1 := by
    have h3 : (X : ℚ) * M < ((⌊((X : ℚ) * M) / Q⌋ : ℚ) + 1) * Q := by
      rwa [div_lt_iff₀ hQq] at hfl2
    have h4 : X * M < (⌊((X : ℚ) * M) / Q⌋ + 1) * Q := by exact_mod_cast h3
    have h5 : X * M + 1 ≤ (⌊((X : ℚ) * M) / Q⌋ + 1) * Q := by omega
    have h6 : (X : ℚ) * M + 1 ≤ ((⌊((X : ℚ) * M) / Q⌋ : ℚ) + 1) * Q := by exact_mod_cast h5
    rw [← add_div, div_le_iff₀ hQq]
    exact h6
  generalize ((X : ℚ) * M) / Q = x at *
  generalize ⌊x⌋ = F at *
  -- lower bound: `A > x - 1`
  have hlow : x - 1 < A := by
    have : x * (1 - 5 / 2 ^ 53) ≤ x * T := mul_le_mul_of_nonneg_left t1 hx0.le
    norm_num at this hM49
    linarith
  -- upper bound: `A < F + 1`
  have hup : A < (F : ℚ) + 1 := by
    by_contra hcon
    push_neg at hcon
    have k1 : ((F : ℚ) + 1) * T ≤ x := le_trans (mul_le_mul_of_nonneg_right hcon hT.le) hAx
    have k2 : ((F : ℚ) + 1) ≤ M + 1 := by linarith
    have k3 : ((F : ℚ) + 1) * (1 - T) ≤ (M + 1) * (5 / 2 ^ 53) :=
      mul_le_mul k2 (by linarith) (by linarith) (by linarith)
    have k4 : (1 : ℚ) / Q ≤ ((F : ℚ) + 1) * (1 - T) := by linarith
    have k5 : (1 : ℚ) ≤ (M + 1) * (5 / 2 ^ 53) * Q := by
      have := mul_le_mul_of_nonneg_right (le_trans k4 k3) hQq.le
      rwa [one_div, inv_mul_cancel₀ hQq.ne'] at this
    have hM1 : (1 : ℚ) ≤ M := by exact_mod_cast hM
    have k7 : (Q : ℚ) ≤ M * Q := le_mul_of_one_le_left hQq.le hM1
    have k6 : ((M : ℚ) + 1) * Q ≤ 2 ^ 50 := by
      have : ((M : ℚ) + 1) * Q = M * Q + Q := by ring
      rw [this]
      norm_num at hMQ ⊢
      linarith
    norm_num at k5 k6
    linarith
  have u1 : (sw : ℚ) < F + 1 := lt_of_le_of_lt h1 hup
  have u2 : (F : ℚ) - 2 < sw := by linarith
  have u1' : sw < F + 1 := by exact_mod_cast u1
  have u2' : F - 2 < sw := by exact_mod_cast u2
  omega

theorem scaled_floor (W H M X sw : Int) (hW : 0 < W) (hH : 0 < H) (hM : 0 < M) (hX : 0 < X)
    (hXM : (X : ℚ) * exactScale W H M ≤ M) (hsize : M * max W H ≤ 2 ^ 49)
    (hsw : sw = (F64.mul (F64.ofInt X) (instagramScale W H M)).toInt) :
    sw = ⌊(X : ℚ) * exactScale W H M⌋ ∨ sw = ⌊(X : ℚ) * exactScale W H M⌋ - 1 := by
  obtain ⟨pA, _, _, hxA, hAx⟩ := instagramScaled_pos W H M X hW hH hM hX
  have hMmax : M ≤ 2 ^ 50 := by
    have h1 : 1 ≤ max W H := le_trans hW (le_max_left W H)
    have h2 : M ≤ M * max W H := le_mul_of_one_le_right hM.le h1
    omega
  obtain ⟨_, a1, a2⟩ := F64.toInt_bounds pA (instagramScaled_lt W H M X hW hH hM hMmax hX hXM)
  rw [← hsw] at a1 a2
  have hMW : M * W ≤ 2 ^ 49 :=
    le_trans (Int.mul_le_mul_of_nonneg_left (le_max_left W H) hM.le) hsize
  have hMH : M * H ≤ 2 ^ 49 :=
    le_trans (Int.mul_le_mul_of_nonneg_left (le_max_right W H) hM.le) hsize
  rcases min_choice ((M : ℚ) / W) ((M : ℚ) / H) with hmin | hmin
  · have e : (X : ℚ) * exactScale W H M = ((X : ℚ) * M) / W := by
      rw [exactScale, hmin, mul_div_assoc]
    rw [e] at hXM hxA hAx ⊢
    exact floor_aux X W M sw _ hX hW hM hXM hMW hAx hxA a1 a2
  · have e : (X : ℚ) * exactScale W H M = ((X : ℚ) * M) / H := by
      rw [exactScale, hmin, mul_div_assoc]
    rw [e] at hXM hxA hAx ⊢
    exact floor_aux X H M sw _ hX hH hM hXM hMH hAx hxA a1 a2

/-- C1, amended: for a source of size `W × H` (`W, H > 0`), `maxSize = M > 0`, thickness
`t ≥ 0` and padding `p ≥ 0` with `M + 2p + 2t ≤ 10^9`, `createInstagramFrame` returns a
canvas of exactly `1080 × 1350` and `resizedSize = (sw + 2p, sh + 2p)`, where
`sw = int(float64(W) * s)`, `sh = int(float64(H) * s)` with
`s = min(float64(M)/float64(W), float64(M)/float64(H))` computed in `float64`; when
`M * max(W, H) ≤ 2 ^ 49`, each of `sw`, `sh` is the exact `floor(W * min(M/W, M/H))`,
`floor(H * min(M/W, M/H))` or one less; and when `p > 0` or both `sw`, `sh` are positive,
`imagePosition = ((1080 - (rw + 2t))/2 + t + p, (1350 - (rh + 2t))/2 + t + p)` with
`(rw, rh) = resizedSize` and truncating division.  For a `2000 × 1500` source with
`M = 1000`, `t = 5`, `p = 0` the result is `resizedSize = (1000, 750)` and
`imagePosition = (40, 300)`. -/
theorem createInstagramFrame_geometry (img : Image) (M t p : Int) (c : RGBA)
    (hW : 0 < img.bounds.Dx) (hH : 0 < img.bounds.Dy) (hM : 0 < M) (ht : 0 ≤ t)
    (hp : 0 ≤ p) (hfit : M + 2 * p + 2 * t ≤ 1000000000) :
    (∃ r sw sh, createInstagramFrame img M t c p = some r ∧
      r.canvas = ⟨⟨0, 0⟩, ⟨1080, 1350⟩⟩ ∧
      r.resizedSize = ⟨sw + 2 * p, sh + 2 * p⟩ ∧
      sw = (F64.mul (F64.ofInt img.bounds.Dx)
        (instagramScale img.bounds.Dx img.bounds.Dy M)).toInt ∧
      sh = (F64.mul (F64.ofInt img.bounds.Dy)
        (instagramScale img.bounds.Dx img.bounds.Dy M)).toInt ∧
      (M * max img.bounds.Dx img.bounds.Dy ≤ 2 ^ 49 →
        (sw = ⌊(img.bounds.Dx : ℚ) * exactScale img.bounds.Dx img.bounds.Dy M⌋ ∨
          sw = ⌊(img.bounds.Dx : ℚ) * exactScale img.bounds.Dx img.bounds.Dy M⌋ - 1) ∧
        (sh = ⌊(img.bounds.Dy : ℚ) * exactScale img.bounds.Dx img.bounds.Dy M⌋ ∨
          sh = ⌊(img.bounds.Dy : ℚ) * exactScale img.bounds.Dx img.bounds.Dy M⌋ - 1)) ∧
      ((0 < p ∨ (0 < sw ∧ 0 < sh)) →
        r.imagePos = ⟨Int.tdiv (1080 - (r.resizedSize.X + 2 * t)) 2 + t + p,
          Int.tdiv (1350 - (r.resizedSize.Y + 2 * t)) 2 + t + p⟩)) ∧
    createInstagramFrame (blankImage 2000 1500) 1000 5 c 0 =
      some ⟨⟨⟨0, 0⟩, ⟨1080, 1350⟩⟩, ⟨1000, 750⟩, ⟨40, 300⟩⟩ := by
  constructor
  · obtain ⟨g, hg, hr, _⟩ := createInstagramFrame_eq img M t p c hW.ne' hH.ne'
    obtain ⟨m1, m2⟩ := exactScale_mul_le img.bounds.Dx img.bounds.Dy M hW hH
    obtain ⟨hs, hc, hsw, hsh, hcs⟩ := instagramLayout_sides _ _ M t p g hW hH hM (by omega) hg
    obtain ⟨e1, e2, e3, e4, e5, e6, e7, e8, e9, e10⟩ :=
      instagramLayout_exact _ _ M t p M g hW hH ht hp (by omega) hg hs hc
    rw [e9, e10] at hr
    refine ⟨_, g.scaledW, g.scaledH, hr, rfl, ?_, hsw, hsh, ?_, ?_⟩
    · rw [e1, e2]
      by_cases h : p > 0
      · simp only [h, if_true]
      · have : p = 0 := by omega
        subst this
        simp
    · intro hsize
      exact ⟨scaled_floor _ _ M _ _ hW hH hM hW m1 hsize hsw,
        scaled_floor _ _ M _ _ hW hH hM hH m2 hsize hsh⟩
    · intro hpos
      have hx : g.borderedDx = g.newW + 2 * t ∧ g.borderedDy = g.newH + 2 * t := by
        rw [e5, e6, e3, e4, e1, e2]
        by_cases h : p > 0
        · simp only [h, if_true, and_self]
        · obtain ⟨c1, c2⟩ := hcs (hpos.resolve_left h)
          simp only [h, if_false, c1, c2, and_self]
      simp only [e7, e8, hx.1, hx.2]
  · have h : createInstagramFrame (blankImage 2000 1500) 1000 5 white 0 =
        some ⟨⟨⟨0, 0⟩, ⟨1080, 1350⟩⟩, ⟨1000, 750⟩, ⟨40, 300⟩⟩ := by decide!
    exact h

/-- C1, amended, at the `19 × 19` source of the counterexample, where the scaled side `999`
is one less than the exact floor `1000`. -/
theorem createInstagramFrame_geometry_witness :
    (∃ r sw sh, createInstagramFrame (blankImage 19 19) 1000 5 white 0 = some r ∧
      r.canvas = ⟨⟨0, 0⟩, ⟨1080, 1350⟩⟩ ∧
      r.resizedSize = ⟨sw + 2 * 0, sh + 2 * 0⟩ ∧
      sw = (F64.mul (F64.ofInt (blankImage 19 19).bounds.Dx)
        (instagramScale (blankImage 19 19).bounds.Dx (blankImage 19 19).bounds.Dy 1000)).toInt ∧
      sh = (F64.mul (F64.ofInt (blankImage 19 19).bounds.Dy)
        (instagramScale (blankImage 19 19).bounds.Dx (blankImage 19 19).bounds.Dy 1000)).toInt ∧
      (1000 * max (blankImage 19 19).bounds.Dx (blankImage 19 19).bounds.Dy ≤ 2 ^ 49 →
        (sw = ⌊((blankImage 19 19).bounds.Dx : ℚ) *
              exactScale (blankImage 19 19).bounds.Dx (blankImage 19 19).bounds.Dy 1000⌋ ∨
          sw = ⌊((blankImage 19 19).bounds.Dx : ℚ) *
              exactScale (blankImage 19 19).bounds.Dx (blankImage 19 19).bounds.Dy 1000⌋ - 1) ∧
        (sh = ⌊((blankImage 19 19).bounds.Dy : ℚ) *
              exactScale (blankImage 19 19).bounds.Dx (blankImage 19 19).bounds.Dy 1000⌋ ∨
          sh = ⌊((blankImage 19 19).bounds.Dy : ℚ) *
              exactScale (blankImage 19 19).bounds.Dx (blankImage 19 19).bounds.Dy 1000⌋ - 1)) ∧
      ((0 < (0 : Int) ∨ (0 < sw ∧ 0 < sh)) →
        r.imagePos = ⟨Int.tdiv (1080 - (r.resizedSize.X + 2 * 5)) 2 + 5 + 0,
          Int.tdiv (1350 - (r.resizedSize.Y + 2 * 5)) 2 + 5 + 0⟩)) ∧
    createInstagramFrame (blankImage 2000 1500) 1000 5 white 0 =
      some ⟨⟨⟨0, 0⟩, ⟨1080, 1350⟩⟩, ⟨1000, 750⟩, ⟨40, 300⟩⟩ :=
  createInstagramFrame_geometry (blankImage 19 19) 1000 5 0 white (by decide) (by decide)
    (by decide) (by decide) (by decide) (by decide)

/-! ## Caption placement on the Instagram frame -/

/-- C9 fails on the code when the padding is positive.  For a `2000 × 1500` source with
`maxSize = 1000`, thickness `5` and padding `20` the content area is `[40, 1040)` on the
canvas, midpoint `540`; the fallback caption `" - JUN '23 -"` at font size `20` is `120`
wide and is anchored at `x = 500`, midpoint `560`: the padding, `20` pixels, to the right
of the midpoint of the content. -/
theorem instagram_caption_not_centred_with_padding :
    instagramLayout 2000 1500 1000 5 20 = some paddedLayout ∧
    createInstagramFrame (blankImage 2000 1500) 1000 5 white 20 = some paddedFrame ∧
    contentMidX2 paddedLayout 5 20 = 2 * 540 ∧
    fallbackAddCaptionAnchor (str " - JUN '23 -") 20 paddedFrame.resizedSize 5 20
      (some paddedFrame.imagePos) = ⟨500, 1115⟩ ∧
    textMidX2 (fallbackAddCaptionAnchor (str " - JUN '23 -") 20 paddedFrame.resizedSize 5 20
      (some paddedFrame.imagePos)) (((str " - JUN '23 -").length : Int) * Int.tdiv 20 2) =
      2 * 560 := by
  refine ⟨by decide!, by decide!, by decide, by decide, by decide⟩

/-- C10 fails on the code when the padding is positive.  For a `2000 × 1500` source with
`maxSize = 1000`, thickness `5` and padding `20` the bordered block is pasted at `y = 275`
and is `800` high, so its bottom edge is `1075`; the vertical anchor of `addCaption` is
`1095 + lineHeight` for every text measurement: the padding, `20` pixels, below one line
height under the border. -/
theorem instagram_caption_baseline_with_padding :
    instagramLayout 2000 1500 1000 5 20 = some paddedLayout ∧
    createInstagramFrame (blankImage 2000 1500) 1000 5 white 20 = some paddedFrame ∧
    blockBottom paddedLayout = 1075 ∧
    ∀ textWidth lineHeight : Int,
      (addCaptionAnchor textWidth lineHeight paddedFrame.resizedSize 5 20
        (some paddedFrame.imagePos)).Y = blockBottom paddedLayout + lineHeight + 20 := by
  refine ⟨by decide!, by decide!, by decide, ?_⟩
  intro textWidth lineHeight
  simp only [addCaptionAnchor, blockBottom, paddedFrame, paddedLayout]
  omega

/-! ## The reported size and the resized picture -/

/-- C11 fails on the code: for the `2000 × 1` source with `maxSize = 1000` and no padding
the scale is `0.5` and the height `1` is scaled to `int(0.5) = 0`; `imaging.Resize`, asked
for `1000 × 0`, keeps the aspect ratio and returns a picture of `1000 × 1`, but
`createInstagramFrame` reports `resizedSize = (1000, 0)`: the values of `newW`, `newH`,
not the size of the resized picture that its closing comment names. -/
theorem createInstagramFrame_reports_zero_height :
    createInstagramFrame (blankImage 2000 1) 1000 0 white 0 =
      some ⟨⟨⟨0, 0⟩, ⟨1080, 1350⟩⟩, ⟨1000, 0⟩, ⟨40, 674⟩⟩ ∧
    (instagramLayout 2000 1 1000 0 0).map
      (fun g => (g.newW, g.newH, g.contentW, g.contentH)) = some (1000, 0, 1000, 1) ∧
    imagingResizeSize 2000 1 1000 0 = (1000, 1) := by
  refine ⟨by decide!, by decide!, by decide!⟩

/-! ## The picture position on the Instagram canvas -/

theorem instagramLayout_pos_bounds (W H M t p : Int) (g : InstagramLayout) (hW : 0 < W)
    (hH : 0 < H) (hM : 0 < M) (hM1080 : M ≤ 1080) (ht : 0 ≤ t) (hp : 0 ≤ p)
    (hfit : M + 2 * p + 2 * t ≤ 1000000000)
    (hg : instagramLayout W H M t p = some g) :
    (0 ≤ g.x + t + p ∧ g.x + t + p ≤ 540) ∧ (0 ≤ g.y + t + p ∧ g.y + t + p ≤ 675) := by
  obtain ⟨hs, hc, _, _, _⟩ := instagramLayout_sides W H M t p g hW hH hM (by omega) hg
  obtain ⟨_, _, e3, e4, e5, e6, e7, e8, _, _⟩ :=
    instagramLayout_exact W H M t p M g hW hH ht hp (by omega) hg hs hc
  have bx := tdiv_two_bounds (1080 - g.borderedDx)
  have by1 := tdiv_two_bounds (1350 - g.borderedDy)
  rw [← e7] at bx
  rw [← e8] at by1
  rw [e5, e3] at bx
  rw [e6, e4] at by1
  split_ifs at bx by1 <;> omega

/-- C12 as stated fails.  For the `2000 × 1500` source with `maxSize = 2000`, thickness `5`
and no padding the scaled picture is `2000 × 1500`, wider than the canvas, and the reported
position is `(-460, -75)`, left of and above the canvas.  With `maxSize = 1000` and the
thickness `2 ^ 63 - 1`, which `strconv.Atoi` gives for the option `99999999999999999999`,
`2 * t` wraps to `-2`, the block is placed at `x = 41`, and `x + t` wraps to a negative
position. -/
theorem createInstagramFrame_imagePos_counterexample :
    createInstagramFrame (blankImage 2000 1500) 2000 5 white 0 =
      some ⟨⟨⟨0, 0⟩, ⟨1080, 1350⟩⟩, ⟨2000, 1500⟩, ⟨-460, -75⟩⟩ ∧ ¬ ((0 : Int) ≤ -460) ∧
    createInstagramFrame (blankImage 2000 1500) 1000 (2 ^ 63 - 1) white 0 =
      some ⟨⟨⟨0, 0⟩, ⟨1080, 1350⟩⟩, ⟨1000, 750⟩,
        ⟨-9223372036854775768, -9223372036854775508⟩⟩ := by
  refine ⟨by decide!, by decide, by decide!⟩

/-- C12, amended: for a source with positive width and height, `0 < maxSize ≤ 1080`,
thickness `t ≥ 0` and padding `p ≥ 0` with `maxSize + 2p + 2t ≤ 10^9`, the
`imagePosition (px, py)` returned by `createInstagramFrame` satisfies `0 ≤ px ≤ 540` and
`0 ≤ py ≤ 675`, so it lies within the `1080 × 1350` canvas. -/
theorem createInstagramFrame_imagePos_inside (img : Image) (M t p : Int) (c : RGBA)
    (hW : 0 < img.bounds.Dx) (hH : 0 < img.bounds.Dy) (hM : 0 < M) (hM1080 : M ≤ 1080)
    (ht : 0 ≤ t) (hp : 0 ≤ p) (hfit : M + 2 * p + 2 * t ≤ 1000000000) :
    ∃ r, createInstagramFrame img M t c p = some r ∧
      (0 ≤ r.imagePos.X ∧ r.imagePos.X ≤ 540 ∧ r.imagePos.X < 1080) ∧
      (0 ≤ r.imagePos.Y ∧ r.imagePos.Y ≤ 675 ∧ r.imagePos.Y < 1350) := by
  obtain ⟨g, hg, hr, _⟩ := createInstagramFrame_eq img M t p c hW.ne' hH.ne'
  obtain ⟨hs, hc, _, _, _⟩ := instagramLayout_sides _ _ M t p g hW hH hM (by omega) hg
  obtain ⟨_, _, _, _, _, _, _, _, e9, e10⟩ :=
    instagramLayout_exact _ _ M t p M g hW hH ht hp (by omega) hg hs hc
  obtain ⟨⟨x0, x1⟩, ⟨y0, y1⟩⟩ :=
    instagramLayout_pos_bounds _ _ M t p g hW hH hM hM1080 ht hp hfit hg
  rw [e9, e10] at hr
  refine ⟨_, hr, ⟨x0, x1, ?_⟩, ⟨y0, y1, ?_⟩⟩
  · show g.x + t + p < 1080
    omega
  · show g.y + t + p < 1350
    omega

/-- C12, amended, at a `2000 × 1500` source with `maxSize = 1000`, thickness `5` and
padding `20`. -/
theorem createInstagramFrame_imagePos_inside_witness :
    ∃ r, createInstagramFrame (blankImage 2000 1500) 1000 5 white 20 = some r ∧
      (0 ≤ r.imagePos.X ∧ r.imagePos.X ≤ 540 ∧ r.imagePos.X < 1080) ∧
      (0 ≤ r.imagePos.Y ∧ r.imagePos.Y ≤ 675 ∧ r.imagePos.Y < 1350) :=
  createInstagramFrame_imagePos_inside (blankImage 2000 1500) 1000 5 20 white
    (by decide) (by decide) (by decide) (by decide) (by decide) (by decide) (by decide)

/-! ## Strings and paths -/

theorem Base_shape (path : GoString) : Base path = [47] ∨ 47 ∉ Base path := by
  unfold Base
  by_cases h1 : path = []
  · rw [if_pos h1]; right; decide
  · rw [if_neg h1]
    simp only []
    split_ifs with h2
    · left; rfl
    · right
      intro hmem
      have h := List.mem_takeWhile_imp (List.mem_reverse.mp hmem)
      simp at h

theorem extScan_eq (l acc : GoString) (h : 47 ∉ l) :
    extScan l acc =
      if 46 ∈ l then 46 :: ((l.takeWhile (fun c => c != 46)).reverse ++ acc) else [] := by
  induction l generalizing acc with
  | nil => simp [extScan]
  | cons c rest ih =>
    have hc : c ≠ 47 := fun e => h (e ▸ List.mem_cons_self _ _)
    have hr : 47 ∉ rest := fun e => h (List.mem_cons_of_mem _ e)
    rw [extScan, if_neg hc]
    by_cases h46 : c = 46
    · subst h46
      simp
    · rw [if_neg h46, ih _ hr]
      have : (46 : Nat) ≠ c := fun e => h46 e.symm
      by_cases hm : 46 ∈ rest
      · simp [hm, h46, List.takeWhile_cons]
      · simp [hm, this]

theorem stem_append_ext (b : GoString) (h46 : 46 ∈ b) :
    b = stemOf b ++ 46 :: (b.reverse.takeWhile (fun c => c != 46)).reverse := by
  have hsplit := List.takeWhile_append_dropWhile (fun c => c != 46) b.reverse
  have hd : b.reverse.dropWhile (fun c => c != 46) =
      46 :: (b.reverse.dropWhile (fun c => c != 46)).tail := by
    cases hdw : b.reverse.dropWhile (fun c => c != 46) with
    | nil =>
      exfalso
      rw [hdw, List.append_nil] at hsplit
      have hm : 46 ∈ b.reverse.takeWhile (fun c => c != 46) := by
        rw [hsplit]; exact List.mem_reverse.mpr h46
      have := List.mem_takeWhile_imp hm
      simp at this
    | cons d ds =>
      have hh := List.head_dropWhile_not (fun c => c != 46) b.reverse
        (by rw [hdw]; exact List.cons_ne_nil _ _)
      simp only [hdw, List.head_cons] at hh
      have : d = 46 := by simpa using hh
      rw [this, List.tail_cons]
  unfold stemOf
  rw [if_pos h46]
  have : b = (b.reverse).reverse := (List.reverse_reverse b).symm
  conv_lhs => rw [this, ← hsplit, hd]
  simp

theorem TrimSuffix_append (s e : GoString) : TrimSuffix (s ++ e) e = s := by
  unfold TrimSuffix HasSuffix
  have : e.isSuffixOf (s ++ e) = true := by
    rw [List.isSuffixOf_iff_suffix]
    exact List.suffix_append s e
  rw [if_pos this]
  simp

theorem TrimSuffix_Ext (b : GoString) (h : b = [47] ∨ 47 ∉ b) :
    TrimSuffix b (Ext b) = stemOf b := by
  rcases h with h | h
  · subst h; decide
  · unfold Ext
    rw [extScan_eq _ _ (fun e => h (List.mem_reverse.mp e))]
    by_cases h46 : 46 ∈ b
    · rw [if_pos (List.mem_reverse.mpr h46), List.append_nil]
      exact (congrArg (fun z => TrimSuffix z
        (46 :: (b.reverse.takeWhile (fun c => c != 46)).reverse)) (stem_append_ext b h46)).trans
        (TrimSuffix_append _ _)
    · rw [if_neg (fun e => h46 (List.mem_reverse.mp e))]
      have := TrimSuffix_append b []
      rw [List.append_nil] at this
      rw [this]
      unfold stemOf
      rw [if_neg h46]

theorem HasSuffix_append (s e : GoString) : HasSuffix (s ++ e) e = true := by
  unfold HasSuffix
  rw [List.isSuffixOf_iff_suffix]
  exact List.suffix_append s e

theorem ToLower_ascii (lowerUnicode : GoString → GoString) (s : GoString)
    (h : s.all (fun c => decide (c < 128)) = true) :
    ToLower lowerUnicode s = s.map fun c => if 65 ≤ c ∧ c ≤ 90 then c + 32 else c := by
  unfold ToLower
  rw [if_pos h]

/-! ## Resolution of thickness and padding -/

theorem F64.round_num_nonneg (z : Int) (d : Nat) (h : 0 ≤ z) : 0 ≤ (F64.round z d).num := by
  unfold F64.round
  exact mul_nonneg (Int.sign_nonneg.mpr h) (Int.ofNat_nonneg _)

theorem F64.toInt_nonneg_or (a : F64) (h : 0 ≤ a.num) :
    0 ≤ F64.toInt a ∨ F64.toInt a = -2 ^ 63 := by
  unfold F64.toInt
  simp only []
  split_ifs
  · exact Or.inl (Int.tdiv_nonneg h (Int.ofNat_nonneg _))
  · exact Or.inr rfl

theorem atoiLoop_nonneg (body : GoString) (n m : Int) (hn : 0 ≤ n)
    (h : atoiLoop body n = some m) : 0 ≤ m := by
  induction body generalizing n with
  | nil =>
    simp only [atoiLoop, Option.some.injEq] at h
    omega
  | cons ch rest ih =>
    rw [atoiLoop] at h
    split_ifs at h with hd
    exact ih (n * 10 + ((ch - 48 : Nat) : Int)) (by positivity) h

theorem ParseIntValue_nonneg (s : GoString) (h : s.head? ≠ some 45) : 0 ≤ ParseIntValue s := by
  unfold ParseIntValue
  cases s with
  | nil => exact le_refl _
  | cons c rest =>
    have hc : c ≠ 45 := fun e => h (by rw [e]; rfl)
    simp only []
    cases ParseUint (if c = 43 ∨ c = 45 then rest else c :: rest) 10 64 with
    | error e =>
      simp only [hc, if_false]
      split_ifs <;> norm_num
    | ok un =>
      simp only [hc, if_false, false_and, ne_eq, not_false_eq_true, true_and]
      split_ifs
      · norm_num
      · exact Int.ofNat_nonneg _

theorem Atoi_nonneg (s : GoString) (h : s.head? ≠ some 45) : 0 ≤ Atoi s := by
  unfold Atoi
  split_ifs with hlen
  · cases s with
    | nil => exact le_refl _
    | cons c rest =>
      have hc : c ≠ 45 := fun e => h (by rw [e]; rfl)
      simp only []
      generalize (if c = 45 ∨ c = 43 then rest else c :: rest) = body
      by_cases hb : body = []
      · rw [if_pos hb]
      · rw [if_neg hb]
        cases hl : atoiLoop body 0 with
        | none => exact Int.le_refl 0
        | some n =>
          simp only [hc, if_false]
          exact atoiLoop_nonneg _ 0 n (Int.le_refl 0) hl
  · exact ParseIntValue_nonneg s h

theorem ParseFloat_digits (parseOther : GoString → Option F64) (ds : GoString)
    (hd : ds.all isDigit = true) (hr : decimalValue ds < 2 ^ 1024 - 2 ^ 970) :
    ParseFloat parseOther ds = some (F64.round (decimalValue ds : Int) 1) := by
  unfold ParseFloat
  cases ds with
  | nil => rfl
  | cons c rest =>
    have hc : isDigit c = true := by
      rw [List.all_cons, Bool.and_eq_true] at hd
      exact hd.1
    have h43 : ¬ (c = 43 ∨ c = 45) := by
      unfold isDigit at hc
      simp only [Bool.and_eq_true, decide_eq_true_eq] at hc
      omega
    have h45 : c ≠ 45 := fun e => h43 (Or.inr e)
    have hne : ∀ x ∈ c :: rest, (x != 46) = true := by
      intro x hx
      have hx2 := List.all_eq_true.mp hd x hx
      unfold isDigit at hx2
      simp only [Bool.and_eq_true, decide_eq_true_eq] at hx2
      simp only [bne_iff_ne, ne_eq]
      omega
    have e1 : (c :: rest).takeWhile (fun x => x != 46) = c :: rest :=
      List.takeWhile_eq_self_iff.mpr hne
    have e2 : (c :: rest).dropWhile (fun x => x != 46) = [] :=
      List.dropWhile_eq_nil_iff.mpr hne
    have hv : decimalValue (c :: rest) = 0 ∨ 1 ≤ decimalValue (c :: rest) * 2 ^ 1022 := by
      rcases Nat.eq_zero_or_pos (decimalValue (c :: rest)) with h0 | h0
      · exact Or.inl h0
      · exact Or.inr (Nat.mul_pos h0 (by positivity))
    simp only []
    rw [if_neg h43]
    simp only []
    rw [if_neg (by rw [not_not]; exact Or.inl hc), e1, e2]
    generalize (2 : Nat) ^ 1024 - 2 ^ 970 = K at hr ⊢
    generalize (2 : Nat) ^ 1022 = L at hv ⊢
    simp only [List.tail_nil, List.append_nil, List.length_nil, pow_zero, mul_one, one_mul]
    rw [if_pos ⟨hd, by rfl, List.cons_ne_nil _ _, hr, hv⟩, if_neg h45]

theorem percentProduct_num_nonneg (m : Int) (n : Nat) (hm : 0 ≤ m) :
    0 ≤ (F64.mul (F64.ofInt m) (F64.div (F64.round (n : Int) 1) (F64.round 100 1))).num := by
  apply F64.round_num_nonneg
  apply mul_nonneg
  · exact F64.round_num_nonneg _ _ hm
  · apply F64.round_num_nonneg
    apply mul_nonneg
    · apply mul_nonneg
      · exact F64.round_num_nonneg _ _ (Int.ofNat_nonneg _)
      · exact Int.ofNat_nonneg _
    · decide!

/-- On a string of the modelled language `strconv.ParseFloat` does not depend on the part
left open. -/
theorem ParseFloat_modelled (parseOther : GoString → Option F64) (s : GoString) :
    ParseFloat parseOther s = ParseFloat (fun _ => none) s ∨
      ParseFloat (fun _ => none) s = none := by
  unfold ParseFloat
  cases s with
  | nil => exact Or.inl rfl
  | cons c rest =>
    simp only []
    generalize (if c = 43 ∨ c = 45 then rest else c :: rest) = body
    cases body with
    | nil => exact Or.inl rfl
    | cons b r =>
      simp only []
      split_ifs <;> first | exact Or.inl rfl | exact Or.inr rfl

theorem processImage_thickness_modelled (parseOther : GoString → Option F64)
    (borderThickness : GoString) (origSize : Point)
    (h : HasSuffix borderThickness (str "%") = true →
      (ParseFloat (fun _ => none) (TrimSuffix borderThickness (str "%"))).isSome = true) :
    processImage_thickness parseOther borderThickness origSize =
      processImage_thickness (fun _ => none) borderThickness origSize := by
  unfold processImage_thickness
  by_cases hs : HasSuffix borderThickness (str "%") = true
  · rcases ParseFloat_modelled parseOther (TrimSuffix borderThickness (str "%")) with e | e
    · rw [e]
    · have h2 := h hs
      rw [e] at h2
      exact absurd h2 (by decide)
  · rw [if_neg hs, if_neg hs]

/-! ## Colours in `processImage` -/

/-- On a style written in ASCII the result of `processImage` does not depend on the Unicode
part of `strings.ToLower`. -/
theorem processImage_ascii_style (lowerUnicode : GoString → GoString)
    (parseOther : GoString → Option F64) (imagePath : GoString)
    (args : Args) (img : Image) (exifDate : Except String Time)
    (h : args.borderStyle.all (fun c => decide (c < 128)) = true) :
    processImage lowerUnicode parseOther imagePath args img exifDate =
      processImage id parseOther imagePath args img exifDate := by
  unfold processImage processImage_style processImage_outFile
  rw [ToLower_ascii lowerUnicode _ h, ToLower_ascii id _ h]

/-- The result of `processImage` does not depend on the part of `strconv.ParseFloat` left
open when the thickness does not end in `%` or its percentage is in the modelled
language. -/
theorem processImage_modelled (lowerUnicode : GoString → GoString)
    (parseOther : GoString → Option F64) (imagePath : GoString)
    (args : Args) (img : Image) (exifDate : Except String Time)
    (h : HasSuffix args.borderThickness (str "%") = true →
      (ParseFloat (fun _ => none) (TrimSuffix args.borderThickness (str "%"))).isSome = true) :
    processImage lowerUnicode parseOther imagePath args img exifDate =
      processImage lowerUnicode (fun _ => none) imagePath args img exifDate := by
  unfold processImage
  rw [processImage_thickness_modelled parseOther _ _ h]

/-- C15 as stated fails for an unrecognised style: with the style `vintage` and nothing else
supplied, `main` sets the padding to `"0"`, not to `"150"`; thickness `"20"`, font size
`"50"` and maximum size `900` are as stated. -/
theorem mainDefaults_padding_counterexample :
    mainDefaults ⟨[], [], [], str "vintage", [], [], [], [], 0⟩ =
      ⟨[], str "20", str "0", str "vintage", [], [], str "50", [], 900⟩ ∧
    str "0" ≠ str "150" := by
  constructor <;> decide

/-- C15, amended: the default resolution of `main` leaves every supplied value unchanged and
fills each unset value: for the style `instagram`, thickness `5`, maximum size `1000`,
font size `20`, padding `0`; for every other style, thickness `20`, font size `50`,
maximum size `900`, and padding `150` when the style is `solid` but `0` for any other
(unrecognised) style. -/
theorem mainDefaults_spec (args : Args) :
    (mainDefaults args).caption = args.caption ∧
    (mainDefaults args).borderStyle = args.borderStyle ∧
    (mainDefaults args).borderColor = args.borderColor ∧
    (mainDefaults args).fontName = args.fontName ∧
    (mainDefaults args).fontColor = args.fontColor ∧
    (mainDefaults args).borderThickness =
      (if args.borderThickness ≠ [] then args.borderThickness
       else if args.borderStyle = str "instagram" then str "5" else str "20") ∧
    (mainDefaults args).instagramMaxSize =
      (if args.instagramMaxSize ≠ 0 then args.instagramMaxSize
       else if args.borderStyle = str "instagram" then 1000 else 900) ∧
    (mainDefaults args).fontSize =
      (if args.fontSize ≠ [] then args.fontSize
       else if args.borderStyle = str "instagram" then str "20" else str "50") ∧
    (mainDefaults args).padding =
      (if args.padding ≠ [] then args.padding
       else if args.borderStyle = str "instagram" then str "0"
       else if args.borderStyle = str "solid" then str "150" else str "0") := by
  unfold mainDefaults
  by_cases hs : args.borderStyle = str "instagram"
  · simp only [hs, if_true]
    refine ⟨trivial, trivial, trivial, trivial, trivial, ?_, ?_, ?_, ?_⟩ <;> split_ifs <;> simp_all
  · simp only [hs, if_false]
    refine ⟨trivial, trivial, trivial, trivial, trivial, ?_, ?_, ?_, ?_⟩ <;> split_ifs <;> simp_all

/-! ## Percentage thickness -/

/-- A value within five roundings of the fraction `P / Q` truncates to the exact floor of
the fraction or to one less. -/
theorem floor_rel (P Q sw : Int) (A : ℚ) (hP : 0 < P) (hQ : 0 < Q) (hsize : P + Q ≤ 2 ^ 49)
    (hAx : A * theta ^ 5 ≤ (P : ℚ) / Q) (hxA : (P : ℚ) / Q * theta ^ 5 ≤ A)
    (h1 : (sw : ℚ) ≤ A) (h2 : A < (sw : ℚ) + 1) :
    sw = ⌊(P : ℚ) / Q⌋ ∨ sw = ⌊(P : ℚ) / Q⌋ - 1 := by
  obtain ⟨t1, t2, _⟩ := theta_pow_five
  generalize theta ^ 5 = T at *
  have hT : 0 < T := by norm_num at t1; linarith
  have hPq : (0 : ℚ) < P := by exact_mod_cast hP
  have hQq : (0 : ℚ) < Q := by exact_mod_cast hQ
  have hQ1 : (1 : ℚ) ≤ Q := by exact_mod_cast hQ
  have hPQ : (P : ℚ) + Q ≤ 2 ^ 49 := by exact_mod_cast hsize
  have hx0 : (0 : ℚ) < (P : ℚ) / Q := by positivity
  have hxP : (P : ℚ) / Q ≤ P := div_le_self hPq.le hQ1
  have hfl := Int.floor_le ((P : ℚ) / Q)
  have hfl2 := Int.lt_floor_add_one ((P : ℚ) / Q)
  have hgap : (P : ℚ) / Q + 1 / Q ≤ (⌊(P : ℚ) / Q⌋ : ℚ) + 1 := by
    have h3 : (P : ℚ) < ((⌊(P : ℚ) / Q⌋ : ℚ) + 1) * Q := by
      rwa [div_lt_iff₀ hQq] at hfl2
    have h4 : P < (⌊(P : ℚ) / Q⌋ + 1) * Q := by exact_mod_cast h3
    have h5 : P + 1 ≤ (⌊(P : ℚ) / Q⌋ + 1) * Q := by omega
    have h6 : (P : ℚ) + 1 ≤ ((⌊(P : ℚ) / Q⌋ : ℚ) + 1) * Q := by exact_mod_cast h5
    rw [← add_div, div_le_iff₀ hQq]
    exact h6
  have hFQ : ((⌊(P : ℚ) / Q⌋ : ℚ) + 1) * Q ≤ P + Q := by
    have := mul_le_mul_of_nonneg_right hfl hQq.le
    rw [div_mul_cancel₀ _ hQq.ne'] at this
    linarith
  generalize (P : ℚ) / Q = x at *
  generalize ⌊x⌋ = F at *
  have hlow : x - 1 < A := by
    have : x * (1 - 5 / 2 ^ 53) ≤ x * T := mul_le_mul_of_nonneg_left t1 hx0.le
    norm_num at this hPQ
    linarith
  have hup : A < (F : ℚ) + 1 := by
    by_contra hcon
    push_neg at hcon
    have k1 : ((F : ℚ) + 1) * T ≤ x := le_trans (mul_le_mul_of_nonneg_right hcon hT.le) hAx
    have hF1 : (0 : ℚ) ≤ (F : ℚ) + 1 := by linarith
    have k3 : ((F : ℚ) + 1) * (1 - T) ≤ ((F : ℚ) + 1) * (5 / 2 ^ 53) :=
      mul_le_mul_of_nonneg_left (by linarith) hF1
    have k4 : (1 : ℚ) / Q ≤ ((F : ℚ) + 1) * (1 - T) := by linarith
    have k5 : (1 : ℚ) ≤ ((F : ℚ) + 1) * (5 / 2 ^ 53) * Q := by
      have := mul_le_mul_of_nonneg_right (le_trans k4 k3) hQq.le
      rwa [one_div, inv_mul_cancel₀ hQq.ne'] at this
    have k6 : ((F : ℚ) + 1) * (5 / 2 ^ 53) * Q = ((F : ℚ) + 1) * Q * (5 / 2 ^ 53) := by ring
    rw [k6] at k5
    have k7 : ((F : ℚ) + 1) * Q * (5 / 2 ^ 53) ≤ ((P : ℚ) + Q) * (5 / 2 ^ 53) :=
      mul_le_mul_of_nonneg_right hFQ (by norm_num)
    norm_num at k5 k7 hPQ
    linarith
  have u1 : (sw : ℚ) < F + 1 := lt_of_le_of_lt h1 hup
  have u2 : (F : ℚ) - 2 < sw := by linarith
  have u1' : sw < F + 1 := by exact_mod_cast u1
  have u2' : F - 2 < sw := by exact_mod_cast u2
  omega

theorem F64.round_zero (d : Nat) : (F64.round 0 d).num = 0 := by
  unfold F64.round
  simp

theorem F64.mul_zero_left (a b : F64) (h : a.num = 0) : (F64.mul a b).toInt = 0 := by
  unfold F64.mul F64.toInt
  rw [h, zero_mul, F64.round_zero]
  simp

theorem F64.mul_zero_right (a b : F64) (h : b.num = 0) : (F64.mul a b).toInt = 0 := by
  unfold F64.mul F64.toInt
  rw [h, mul_zero, F64.round_zero]
  simp

theorem F64.div_zero_left (a b : F64) (h : a.num = 0) : (F64.div a b).num = 0 := by
  unfold F64.div
  rw [h, zero_mul, zero_mul, F64.round_zero]

/-- The percentage computation of `processImage` on a side `m` and a percentage `N`. -/
theorem percent_floor (m N : Int) (hm : 0 ≤ m) (hN : 0 ≤ N) (hsize : m * N + 100 ≤ 2 ^ 49) :
    F64.toInt (F64.mul (F64.ofInt m) (F64.div (F64.round N 1) (F64.round 100 1))) =
        ⌊(m : ℚ) * N / 100⌋ ∨
    F64.toInt (F64.mul (F64.ofInt m) (F64.div (F64.round N 1) (F64.round 100 1))) =
        ⌊(m : ℚ) * N / 100⌋ - 1 := by
  by_cases hm0 : m = 0
  · left
    rw [F64.mul_zero_left _ _ (by rw [hm0]; exact F64.round_zero 1)]
    rw [hm0]
    norm_num
  by_cases hN0 : N = 0
  · left
    rw [F64.mul_zero_right _ _ (F64.div_zero_left _ _ (by rw [hN0]; exact F64.round_zero 1))]
    rw [hN0]
    norm_num
  have hm' : 0 < m := by omega
  have hN' : 0 < N := by omega
  obtain ⟨p1, e1⟩ := F64.ofInt_pos m hm'
  obtain ⟨p2, e2⟩ := F64.round_pos N 1 hN' (by decide)
  obtain ⟨p3, e3⟩ := F64.round_pos 100 1 (by decide) (by decide)
  obtain ⟨p4, e4⟩ := F64.div_pos p2 p3
  obtain ⟨p5, e5⟩ := F64.mul_pos p1 p4
  obtain ⟨_, _, hxA, hAx⟩ := e5.trans (e1.mul (e4.trans (e2.div e3)))
  have hA0 := F64.toRat_pos p5
  have e : (m : ℚ) * (((N : Int) : ℚ) / ((1 : Nat) : ℚ) / (((100 : Int) : ℚ) / ((1 : Nat) : ℚ))) =
      ((m * N : Int) : ℚ) / ((100 : Int) : ℚ) := by
    push_cast
    field_simp
  rw [e] at hxA hAx
  have hr : (F64.mul (F64.ofInt m) (F64.div (F64.round N 1) (F64.round 100 1))).toRat <
      2 ^ 63 := by
    obtain ⟨t1, _, _⟩ := theta_pow_five
    have hle : ((m * N : Int) : ℚ) / ((100 : Int) : ℚ) ≤ 2 ^ 49 := by
      have h1 : ((m * N : Int) : ℚ) + 100 ≤ 2 ^ 49 := by exact_mod_cast hsize
      have h2 : (0 : ℚ) ≤ ((m * N : Int) : ℚ) := by
        exact_mod_cast (Int.mul_pos hm' hN').le
      have h3 : ((m * N : Int) : ℚ) / ((100 : Int) : ℚ) ≤ ((m * N : Int) : ℚ) :=
        div_le_self h2 (by norm_num)
      linarith
    generalize (F64.mul (F64.ofInt m) (F64.div (F64.round N 1) (F64.round 100 1))).toRat = A
      at hA0 hAx
    generalize theta ^ 5 = T at t1 hAx
    have h4 : A * (1 / 2) ≤ A * T := mul_le_mul_of_nonneg_left (by norm_num at t1 ⊢; linarith) hA0.le
    norm_num at hle ⊢
    linarith
  obtain ⟨_, a1, a2⟩ := F64.toInt_bounds p5 hr
  have e' : (m : ℚ) * N / 100 = ((m * N : Int) : ℚ) / ((100 : Int) : ℚ) := by
    push_cast
    rfl
  rw [e']
  exact floor_rel (m * N) 100 _ _ (Int.mul_pos hm' hN') (by decide) hsize hAx hxA a1 a2

/-- The percentage thickness on a string of digits. -/
theorem processImage_thickness_digits (parseOther : GoString → Option F64) (W H : Int)
    (ds : GoString) (hd : ds.all isDigit = true) (hN : decimalValue ds ≤ 2 ^ 49) :
    processImage_thickness parseOther (ds ++ str "%") ⟨W, H⟩ =
      F64.toInt (F64.mul (F64.ofInt (min W H))
        (F64.div (F64.round (decimalValue ds) 1) (F64.round 100 1))) := by
  have hmin : (if H < W then H else W) = min W H := by
    rw [min_def]
    split_ifs <;> omega
  have hr : decimalValue ds < 2 ^ 1024 - 2 ^ 970 := lt_of_le_of_lt hN (by decide!)
  unfold processImage_thickness
  rw [HasSuffix_append, if_pos rfl, TrimSuffix_append, ParseFloat_digits parseOther ds hd hr]
  simp only []
  rw [hmin]

/-- The percentage thickness on a fraction and on a string that is not a number: `12.5%`
of a `200 × 200` picture is `25`, and `abc%` is `0`, the error of `strconv.ParseFloat`
being discarded. -/
theorem processImage_thickness_examples (parseOther : GoString → Option F64) :
    processImage_thickness parseOther (str "12.5%") ⟨200, 200⟩ = 25 ∧
    processImage_thickness parseOther (str "abc%") ⟨200, 200⟩ = 0 := by
  rw [processImage_thickness_modelled parseOther (str "12.5%") _ (by decide!),
    processImage_thickness_modelled parseOther (str "abc%") _ (by decide!)]
  exact ⟨by decide!, by decide!⟩

/-- C16 as stated fails: for a `100 × 100` picture and the thickness `29%` the quotient
`29 / 100.0` is rounded below `0.29` in `float64`, the product is just below `29`, and
`processImage` resolves the thickness `28`, while `floor(100 * 29 / 100) = 29`. -/
theorem processImage_thickness_percent_counterexample :
    (∀ parseOther, processImage_thickness parseOther (str "29%") ⟨100, 100⟩ = 28) ∧
    ⌊((min 100 100 : Int) : ℚ) * (29 : Int) / 100⌋ = 29 ∧ (28 : Int) ≠ 29 := by
  refine ⟨fun g => ?_, ?_, by decide⟩
  · rw [processImage_thickness_modelled g _ _ (by decide!)]
    decide!
  · norm_num

/-- C16, amended: for a picture of size `W × H` with `W, H ≥ 0` and a thickness string of
decimal digits of value `N ≤ 2 ^ 49` followed by `%`, with
`min(W, H) * N + 100 ≤ 2 ^ 49`, the thickness that `processImage` resolves is
`floor(min(W, H) * N / 100)` or one less, never more.  For a `1000 × 1000` picture with
thickness `10%` and padding `50` the thickness is `100` and the solid canvas is
`1300 × 1300`. -/
theorem processImage_thickness_percent (parseOther : GoString → Option F64) (W H : Int)
    (ds : GoString) (hW : 0 ≤ W) (hH : 0 ≤ H)
    (hd : ds.all isDigit = true) (hN : decimalValue ds ≤ 2 ^ 49)
    (hsize : min W H * decimalValue ds + 100 ≤ 2 ^ 49) :
    (processImage_thickness parseOther (ds ++ str "%") ⟨W, H⟩ =
        ⌊((min W H : Int) : ℚ) * (decimalValue ds : Int) / 100⌋ ∨
      processImage_thickness parseOther (ds ++ str "%") ⟨W, H⟩ =
        ⌊((min W H : Int) : ℚ) * (decimalValue ds : Int) / 100⌋ - 1) ∧
    (∀ lowerUnicode, processImage lowerUnicode parseOther (str "a.jpg")
        ⟨[], str "10%", str "50", str "solid", str "#ffffff", [], [], str "#000000", 0⟩
        (blankImage 1000 1000) (.error "no exif") =
      some ⟨100, 50, ⟨255, 255, 255, 255⟩, .solid, ⟨⟨0, 0⟩, ⟨1300, 1300⟩⟩, ⟨1000, 1000⟩, none,
        some ⟨str " - --- -", 90, ⟨0, 0, 0, 255⟩, ⟨1000, 1000⟩, 100, 50, none, []⟩,
        str "a_framed.jpg"⟩) := by
  constructor
  · rw [processImage_thickness_digits parseOther W H ds hd hN]
    exact percent_floor (min W H) (decimalValue ds) (le_min hW hH) (Int.ofNat_nonneg _) hsize
  · intro f
    rw [processImage_ascii_style f _ _ _ _ _ (by decide),
      processImage_modelled id parseOther _ _ _ _ (by decide!)]
    decide!

/-- C16, amended, at the `100 × 100` picture and the thickness `29%` of the
counterexample, where the result `28` is one less than the exact floor `29`. -/
theorem processImage_thickness_percent_witness :
    processImage_thickness (fun _ => none) (str "29" ++ str "%") ⟨100, 100⟩ =
        ⌊((min 100 100 : Int) : ℚ) * (decimalValue (str "29") : Int) / 100⌋ ∨
      processImage_thickness (fun _ => none) (str "29" ++ str "%") ⟨100, 100⟩ =
        ⌊((min 100 100 : Int) : ℚ) * (decimalValue (str "29") : Int) / 100⌋ - 1 :=
  (processImage_thickness_percent (fun _ => none) 100 100 (str "29") (by decide) (by decide)
    (by decide) (by decide!) (by decide!)).1

/-! ## Sign of the resolved thickness and padding -/

/-- C13 as stated fails: the thickness string `-5` resolves to `t = -5`, the thickness
string `-10%` on a `1000 × 1000` picture to `t = -100`, the thickness string
`99999999999999999999999%` on the same picture to `t = -2 ^ 63`, and the padding string
`-3` to `p = -3`; `processImage` passes `t = -5` and `p = -3` on to the solid compositor,
whose canvas is then `990 × 990`, smaller than the picture. -/
theorem processImage_negative_counterexample :
    processImage_padding (str "-3") = -3 ∧
    (∀ parseOther : GoString → Option F64,
      processImage_thickness parseOther (str "-5") ⟨1000, 1000⟩ = -5 ∧
      processImage_thickness parseOther (str "-10%") ⟨1000, 1000⟩ = -100 ∧
      processImage_thickness parseOther (str "99999999999999999999999%") ⟨1000, 1000⟩ =
        -9223372036854775808 ∧
      processImage id parseOther (str "a.jpg")
          ⟨[], str "-5", str "-3", str "solid", str "#ffffff", [], str "50", str "#000000", 0⟩
          (blankImage 1000 1000) (.error "no exif") =
        some ⟨-5, -3, ⟨255, 255, 255, 255⟩, .solid, ⟨⟨0, 0⟩, ⟨990, 990⟩⟩, ⟨1000, 1000⟩, none,
          some ⟨str " - --- -", 50, ⟨0, 0, 0, 255⟩, ⟨1000, 1000⟩, -5, -3, none, []⟩,
          str "a_framed.jpg"⟩) := by
  refine ⟨by decide, fun g => ?_⟩
  rw [processImage_thickness_modelled g (str "-5") _ (by decide),
    processImage_thickness_modelled g (str "-10%") _ (by decide!),
    processImage_thickness_modelled g (str "99999999999999999999999%") _ (by decide!),
    processImage_modelled id g _ _ _ _ (by decide)]
  refine ⟨by decide, by decide!, by decide!, by decide!⟩

/-- C13, amended: the resolved thickness and padding are non-negative when the option
strings do not begin with a minus sign and a percentage stays in range.  For a picture with
sides `W, H ≥ 0`, a thickness string that does not end in `%` and does not begin with `-`,
or that is a string of decimal digits of value `N ≤ 2 ^ 49` followed by `%` with
`min(W, H) * N + 100 ≤ 2 ^ 49`, resolves to `t ≥ 0`; a padding string that does not begin
with `-` resolves to `p ≥ 0`. -/
theorem processImage_resolved_nonneg (parseOther : GoString → Option F64)
    (borderThickness padding : GoString) (origSize : Point)
    (hW : 0 ≤ origSize.X) (hH : 0 ≤ origSize.Y)
    (hform : (HasSuffix borderThickness (str "%") = false ∧ borderThickness.head? ≠ some 45) ∨
      (∃ ds, borderThickness = ds ++ str "%" ∧ ds.all isDigit = true ∧
        decimalValue ds ≤ 2 ^ 49 ∧
        min origSize.X origSize.Y * decimalValue ds + 100 ≤ 2 ^ 49))
    (hp : padding.head? ≠ some 45) :
    0 ≤ processImage_thickness parseOther borderThickness origSize ∧
    0 ≤ processImage_padding padding := by
  refine ⟨?_, Atoi_nonneg padding hp⟩
  rcases hform with ⟨h1, h2⟩ | ⟨ds, rfl, hd, hN, hsize⟩
  · unfold processImage_thickness
    rw [h1]
    exact Atoi_nonneg _ h2
  · obtain ⟨W, H⟩ := origSize
    rw [processImage_thickness_digits parseOther W H ds hd hN]
    have hm : 0 ≤ min W H := le_min hW hH
    have hfl : 0 ≤ ⌊((min W H : Int) : ℚ) * (decimalValue ds : Int) / 100⌋ := by
      apply Int.floor_nonneg.mpr
      have : (0 : ℚ) ≤ ((min W H : Int) : ℚ) := by exact_mod_cast hm
      positivity
    have h3 := percent_floor (min W H) (decimalValue ds) hm (Int.ofNat_nonneg _) hsize
    have h4 := F64.toInt_nonneg_or _ (percentProduct_num_nonneg (min W H) (decimalValue ds) hm)
    omega

/-- C13, amended, at the thickness `10%` and the padding `50` on a `1000 × 1000` picture. -/
theorem processImage_resolved_nonneg_witness :
    0 ≤ processImage_thickness (fun _ => none) (str "10%") ⟨1000, 1000⟩ ∧
    0 ≤ processImage_padding (str "50") :=
  processImage_resolved_nonneg (fun _ => none) (str "10%") (str "50") ⟨1000, 1000⟩
    (by decide) (by decide)
    (Or.inr ⟨str "10", by decide, by decide, by decide!, by decide!⟩) (by decide)

/-! ## Output file name -/

/-- The output name of `photos/IMG_1.v2.JPG` in the style `Instagram`. -/
theorem processImage_outFile_example :
    processImage_outFile id (str "photos/IMG_1.v2.JPG") (str "Instagram") =
      str "IMG_1.v2_instagram.jpg" := by
  decide

/-- C17: for every input path and style string, the output file name of `processImage` is
the stem of the base name of the path, followed by `_instagram` when the style selects the
Instagram compositor and by `_framed` when it selects any other, followed by `.jpg`; the stem
is the base name up to its last dot (the whole base name if it has none), and the suffix
follows the same classification `processImage_style` that selects the compositor. -/
theorem processImage_outFile_spec (lowerUnicode : GoString → GoString)
    (imagePath borderStyle : GoString) :
    processImage_outFile lowerUnicode imagePath borderStyle =
      stemOf (Base imagePath) ++
        (match processImage_style lowerUnicode borderStyle with
          | .instagram => str "_instagram"
          | _ => str "_framed") ++ str ".jpg" := by
  unfold processImage_outFile processImage_style
  simp only []
  rw [TrimSuffix_Ext _ (Base_shape imagePath)]
  by_cases h : ToLower lowerUnicode borderStyle = str "instagram"
  · simp [h]
  · rw [if_neg h, if_pos h]
    split_ifs <;> rfl

/-! ## Fallback caption renderer -/

theorem decodeRune_ascii (c : Nat) (rest : GoString) (h : c < 128) :
    decodeRune c rest = (c, 1) := by
  unfold decodeRune
  simp only [h, if_true]

theorem rangeFrom_spaces (n i : Nat) :
    ∀ ic ∈ rangeFrom 0 i (List.replicate n 32), ic.2 = 32 := by
  induction n generalizing i with
  | zero => intro ic h; simp [rangeFrom] at h
  | succ n ih =>
    intro ic h
    rw [List.replicate_succ, rangeFrom, decodeRune_ascii 32 _ (by decide)] at h
    rcases List.mem_cons.mp h with h | h
    · rw [h]
    · exact ih (i + 1) ic h

theorem foldl_fixed {α β : Type} (f : α → β → α) (l : List β) (a : α)
    (h : ∀ b ∈ l, ∀ x, f x b = x) : l.foldl f a = a := by
  induction l generalizing a with
  | nil => rfl
  | cons b l ih =>
    rw [List.foldl_cons, h b (List.mem_cons_self _ _)]
    exact ih a fun c hc => h c (List.mem_cons_of_mem _ hc)

/-- C18: for every canvas, every caption made of `n` space characters, every font size and
colour and either anchor case, `fallbackAddCaption` returns the canvas itself: the same bounds
and the same colour at every pixel. -/
theorem fallbackAddCaption_spaces (newImage : Image) (n : Nat) (fontSize : Int)
    (fontColor : RGBA) (imageSize : Point) (borderThickness padding : Int)
    (imagePos : Option Point) :
    fallbackAddCaption newImage (List.replicate n 32) fontSize fontColor imageSize
        borderThickness padding imagePos = newImage ∧
    (fallbackAddCaption newImage (List.replicate n 32) fontSize fontColor imageSize
        borderThickness padding imagePos).bounds = newImage.bounds ∧
    ∀ x y, (fallbackAddCaption newImage (List.replicate n 32) fontSize fontColor imageSize
        borderThickness padding imagePos).At x y = newImage.At x y := by
  have h : fallbackAddCaption newImage (List.replicate n 32) fontSize fontColor imageSize
      borderThickness padding imagePos = newImage := by
    unfold fallbackAddCaption rangeString
    apply foldl_fixed
    intro ic hic img
    unfold fallbackDrawChar
    simp only [rangeFrom_spaces n 0 ic hic, if_true]
  rw [h]
  exact ⟨rfl, rfl, fun _ _ => rfl⟩

/-- A caption with a letter does change the canvas: the renderer paints the block of the
letter `A` of the caption ` A` in the font colour, and leaves the place of the space
alone. -/
theorem fallbackAddCaption_letter :
    (fallbackAddCaption (blankImage 200 200) (str " A") 20 ⟨0, 0, 0, 255⟩ ⟨100, 100⟩ 10 0
      none).At 60 115 = ⟨0, 0, 0, 255⟩ ∧
    (fallbackAddCaption (blankImage 200 200) (str " A") 20 ⟨0, 0, 0, 255⟩ ⟨100, 100⟩ 10 0
      none).At 50 115 = white := by
  constructor <;> decide!

/-! ## Rounding does not cross an integer from above -/

/-- Rounding is monotone at integers: a fraction that is at least the integer `K < 2 ^ 53`
is rounded to a value that is at least `K`. -/
theorem le_roundFrac (K n d : Nat) (hK : K < 2 ^ 53) (hd : 0 < d) (hn : 0 < n)
    (h : K * d ≤ n) : K * (roundFrac n d).2 ≤ (roundFrac n d).1 := by
  have hscale := roundFrac_scale n d hn
  simp only [] at hscale
  unfold roundFrac
  rw [if_neg (by omega)]
  simp only []
  have hud : (53 + bitLen d) - bitLen n = 0 ∨ bitLen n - (53 + bitLen d) = 0 := by omega
  generalize (53 + bitLen d) - bitLen n = up at *
  generalize bitLen n - (53 + bitLen d) = down at *
  have hc12 : (if 2 ^ 53 * (d * 2 ^ down) ≤ n * 2 ^ up then 2 else 1) = 1 ∨
      (if 2 ^ 53 * (d * 2 ^ down) ≤ n * 2 ^ up then 2 else 1) = 2 := by
    split_ifs
    · right; rfl
    · left; rfl
  generalize (if 2 ^ 53 * (d * 2 ^ down) ≤ n * 2 ^ up then 2 else 1) = c at *
  have hc0 : 0 < c := by omega
  have hE : 0 < d * 2 ^ down * c := by positivity
  obtain ⟨_, h2⟩ := roundHalfEven_near (n * 2 ^ up) (d * 2 ^ down * c) hE
  generalize roundHalfEven (n * 2 ^ up) (d * 2 ^ down * c) = m at *
  have hP : K * 2 ^ up * d ≤ n * 2 ^ up := by
    calc K * 2 ^ up * d = K * d * 2 ^ up := by ring
      _ ≤ n * 2 ^ up := Nat.mul_le_mul_right _ h
  rcases hud with hu | hdn
  · subst hu
    simp only [pow_zero, mul_one] at hscale h2 hP ⊢
    have hm : 2 ^ 52 ≤ m := by
      have h3 : 2 ^ 53 * (d * 2 ^ down * c) ≤ (2 * m + 1) * (d * 2 ^ down * c) := by
        generalize d * 2 ^ down * c = E at *
        have e1 : (2 * m + 1) * E = 2 * (E * m) + E := by ring
        rw [e1]
        omega
      have := Nat.le_of_mul_le_mul_right h3 hE
      omega
    by_cases hG : down = 0 ∧ c = 1
    · obtain ⟨rfl, rfl⟩ := hG
      simp only [pow_zero, mul_one] at h2 ⊢
      have h3 : (2 * K) * d ≤ (2 * m + 1) * d := by
        have e1 : (2 * m + 1) * d = 2 * (d * m) + d := by ring
        have e2 : (2 * K) * d = 2 * (K * d) := by ring
        rw [e1, e2]
        omega
      have := Nat.le_of_mul_le_mul_right h3 hd
      omega
    · have hG2 : 2 ≤ 2 ^ down * c := by
        by_cases hd0 : down = 0
        · subst hd0
          simp only [pow_zero, one_mul]
          omega
        · have : 2 ^ 1 ≤ 2 ^ down := Nat.pow_le_pow_right (by decide) (by omega)
          calc 2 = 2 ^ 1 * 1 := by norm_num
            _ ≤ 2 ^ down * c := Nat.mul_le_mul this hc0
      calc K ≤ 2 ^ 52 * 2 := by omega
        _ ≤ m * (2 ^ down * c) := Nat.mul_le_mul hm hG2
  · subst hdn
    simp only [pow_zero, mul_one, one_mul] at hscale h2 hP ⊢
    rcases hc12 with rfl | rfl
    · simp only [mul_one] at h2 ⊢
      have h3 : (2 * (K * 2 ^ up)) * d ≤ (2 * m + 1) * d := by
        have e1 : (2 * m + 1) * d = 2 * (d * m) + d := by ring
        have e2 : (2 * (K * 2 ^ up)) * d = 2 * (K * 2 ^ up * d) := by ring
        rw [e1, e2]
        omega
      have := Nat.le_of_mul_le_mul_right h3 hd
      omega
    · by_cases hu0 : up = 0
      · subst hu0
        simp only [pow_zero, mul_one] at hscale h2 hP ⊢
        have h3 : 2 ^ 53 * (d * 2) ≤ (2 * m + 1) * (d * 2) := by
          have e1 : (2 * m + 1) * (d * 2) = 2 * (d * 2 * m) + d * 2 := by ring
          rw [e1]
          omega
        have := Nat.le_of_mul_le_mul_right h3 (by omega : 0 < d * 2)
        omega
      · obtain ⟨u, rfl⟩ : ∃ u, up = u + 1 := ⟨up - 1, by omega⟩
        rw [pow_succ] at h2 hP ⊢
        have h3 : (K * (2 ^ u * 2)) * d ≤ (2 * m + 1) * d := by
          have e1 : (2 * m + 1) * d = 2 * (d * m) + d := by ring
          have e2 : d * 2 * m = 2 * (d * m) := by ring
          rw [e1]
          rw [e2] at h2
          generalize K * (2 ^ u * 2) * d = a at *
          generalize n * (2 ^ u * 2) = b at *
          omega
        have h4 := Nat.le_of_mul_le_mul_right h3 hd
        have e3 : K * (2 ^ u * 2) = 2 * (K * 2 ^ u) := by ring
        rw [e3] at h4 ⊢
        generalize K * 2 ^ u = a at *
        omega

theorem F64.le_round (K z : Int) (d : Nat) (hK0 : 0 < K) (hK : K < 2 ^ 53) (hd : 0 < d)
    (h : K * d ≤ z) : (F64.round z d).Pos ∧ (K : ℚ) ≤ (F64.round z d).toRat := by
  have hz : 0 < z := lt_of_lt_of_le (Int.mul_pos hK0 (by exact_mod_cast hd)) h
  obtain ⟨pz, _⟩ := F64.round_pos z d hz hd
  refine ⟨pz, ?_⟩
  obtain ⟨n, rfl⟩ := Int.eq_ofNat_of_zero_le hz.le
  obtain ⟨k, rfl⟩ := Int.eq_ofNat_of_zero_le hK0.le
  have hn : 0 < n := by exact_mod_cast hz
  have hle := le_roundFrac k n d (by exact_mod_cast hK) hd hn (by exact_mod_cast h)
  have hden : (0 : ℚ) < ((F64.round (n : Int) d).den : ℚ) := by exact_mod_cast pz.2
  unfold F64.toRat
  rw [le_div_iff₀ hden]
  unfold F64.round
  simp only [Int.natAbs_ofNat, Int.sign_eq_one_of_pos hz, one_mul]
  exact_mod_cast hle

/-- The product of an integer `0 < t ≤ 2 ^ 46` with a `float64` constant that lies between
the fraction `a / b` and `a / b * (1 + 2 ^ -52)` truncates to the exact `floor(t * a / b)`. -/
theorem scaled_const_floor (t : Int) (c : F64) (a b : Int) (ht : 0 < t) (ht46 : t ≤ 2 ^ 46)
    (hc : c.Pos) (ha : 0 < a) (hab : a ≤ b) (hb : b ≤ 10) (hlo : (a : ℚ) / b ≤ c.toRat)
    (hhi : c.toRat ≤ (a : ℚ) / b * (1 + 1 / 2 ^ 52)) :
    F64.toInt (F64.mul (F64.ofInt t) c) = t * a / b := by
  have hb0 : 0 < b := lt_of_lt_of_le ha hab
  have hK1 : t * a / b * b ≤ t * a := Int.ediv_mul_le _ hb0.ne'
  have hK2 : t * a < (t * a / b + 1) * b := Int.lt_ediv_add_one_mul_self _ hb0
  have hK0 : 0 ≤ t * a / b := Int.ediv_nonneg (Int.mul_pos ht ha).le hb0.le
  have hta : t * a ≤ t * b := Int.mul_le_mul_of_nonneg_left hab ht.le
  have hKt : t * a / b ≤ t := by
    have : t * a / b * b ≤ t * b := le_trans hK1 hta
    exact le_of_mul_le_mul_right this hb0
  have hta' : (t : ℚ) ≤ (F64.ofInt t).toRat :=
    (F64.le_round t t 1 ht (by omega) (by decide) (by simp)).2
  obtain ⟨pa, _, _, _, e1⟩ := F64.ofInt_pos t ht
  obtain ⟨pA, _, _, _, e2⟩ := F64.mul_pos pa hc
  have hcq := F64.toRat_pos hc
  have haq := F64.toRat_pos pa
  have hr : (F64.mul (F64.ofInt t) c).toRat < 2 ^ 63 := by
    have hA0 := F64.toRat_pos pA
    have tl : (1 : ℚ) / 2 ≤ theta ^ 1 := by unfold theta; norm_num
    have tp : (0 : ℚ) < theta ^ 1 := theta_pow_pos 1
    have hbq : (0 : ℚ) < b := by exact_mod_cast hb0
    have habq : (a : ℚ) ≤ b := by exact_mod_cast hab
    have htq : (0 : ℚ) < t := by exact_mod_cast ht
    have ht46q : (t : ℚ) ≤ 2 ^ 46 := by exact_mod_cast ht46
    have hab1 : (a : ℚ) / b ≤ 1 := (div_le_one hbq).mpr habq
    have hab0 : (0 : ℚ) ≤ (a : ℚ) / b := by
      have : (0 : ℚ) < a := by exact_mod_cast ha
      positivity
    have hv2 : c.toRat ≤ 2 := by
      have : (a : ℚ) / b * (1 + 1 / 2 ^ 52) ≤ 1 * (1 + 1 / 2 ^ 52) :=
        mul_le_mul_of_nonneg_right hab1 (by norm_num)
      norm_num at this
      linarith
    generalize (F64.mul (F64.ofInt t) c).toRat = A at hA0 e2
    generalize (F64.ofInt t).toRat = u at e1 e2 haq
    generalize c.toRat = v at e2 hcq hv2
    generalize theta ^ 1 = T at tl tp e1 e2
    have k1 : A * T * T ≤ (t : ℚ) * v :=
      calc A * T * T ≤ u * v * T := mul_le_mul_of_nonneg_right e2 tp.le
        _ = u * T * v := by ring
        _ ≤ (t : ℚ) * v := mul_le_mul_of_nonneg_right e1 hcq.le
    have k2 : (t : ℚ) * v ≤ 2 ^ 46 * 2 := mul_le_mul ht46q hv2 hcq.le (by norm_num)
    have k3 : A * (1 / 2) * (1 / 2) ≤ A * T * T :=
      mul_le_mul (mul_le_mul_of_nonneg_left tl hA0.le) tl (by norm_num)
        (mul_nonneg hA0.le tp.le)
    norm_num at k2 ⊢
    linarith
  obtain ⟨n0, n1, n2⟩ := F64.toInt_bounds pA hr
  have hbq : (0 : ℚ) < b := by exact_mod_cast hb0
  have haq' : (0 : ℚ) < a := by exact_mod_cast ha
  have htq : (0 : ℚ) < t := by exact_mod_cast ht
  have hK1q : ((t * a / b : Int) : ℚ) * b ≤ (t : ℚ) * a := by exact_mod_cast hK1
  have hK2q : (t : ℚ) * a + 1 ≤ (((t * a / b : Int) : ℚ) + 1) * b := by
    have : t * a + 1 ≤ (t * a / b + 1) * b := hK2
    exact_mod_cast this
  have ht46q : (t : ℚ) ≤ 2 ^ 46 := by exact_mod_cast ht46
  have hb10 : (b : ℚ) ≤ 10 := by exact_mod_cast hb
  have habq : (a : ℚ) ≤ b := by exact_mod_cast hab
  have hK0q : (0 : ℚ) ≤ ((t * a / b : Int) : ℚ) := by exact_mod_cast hK0
  have th1 : (1 : ℚ) - 1 / 2 ^ 53 ≤ theta ^ 1 := by unfold theta; norm_num
  have th0 : (0 : ℚ) < theta ^ 1 := theta_pow_pos 1
  -- lower bound: the floor is not above the rounded product
  have hlow : ((t * a / b : Int) : ℚ) ≤ (F64.mul (F64.ofInt t) c).toRat := by
    rcases hK0.eq_or_lt with h0 | hpos
    · rw [← h0]
      exact_mod_cast (F64.toRat_pos pA).le
    · have hprod : ((t * a / b : Int) : ℚ) ≤ (F64.ofInt t).toRat * c.toRat := by
        calc ((t * a / b : Int) : ℚ) ≤ (t : ℚ) * a / b := by
              rw [le_div_iff₀ hbq]; exact hK1q
          _ = (t : ℚ) * ((a : ℚ) / b) := by rw [mul_div_assoc]
          _ ≤ (F64.ofInt t).toRat * c.toRat :=
              mul_le_mul hta' hlo (by positivity) haq.le
      have hd1 : (0 : ℚ) < ((F64.ofInt t).den : ℚ) := by exact_mod_cast pa.2
      have hd2 : (0 : ℚ) < (c.den : ℚ) := by exact_mod_cast hc.2
      have hint : (t * a / b) * (((F64.ofInt t).den * c.den : Nat) : Int) ≤
          (F64.ofInt t).num * c.num := by
        unfold F64.toRat at hprod
        rw [div_mul_div_comm, le_div_iff₀ (by positivity)] at hprod
        exact_mod_cast hprod
      exact (F64.le_round (t * a / b) _ _ hpos (by omega)
        (Nat.mul_pos pa.2 hc.2) hint).2
  -- upper bound: the rounded product is below the successor of the floor
  have hup : (F64.mul (F64.ofInt t) c).toRat < ((t * a / b : Int) : ℚ) + 1 := by
    generalize (F64.mul (F64.ofInt t) c).toRat = A at *
    generalize (F64.ofInt t).toRat = u at *
    generalize c.toRat = v at *
    generalize ((t * a / b : Int) : ℚ) = K at *
    generalize theta ^ 1 = T at *
    by_contra hcon
    push_neg at hcon
    have k1 : (K + 1) * T ≤ u * v := le_trans (mul_le_mul_of_nonneg_right hcon th0.le) e2
    have k2 : (K + 1) * T * T ≤ (t : ℚ) * v :=
      calc (K + 1) * T * T ≤ u * v * T := mul_le_mul_of_nonneg_right k1 th0.le
        _ = u * T * v := by ring
        _ ≤ (t : ℚ) * v := mul_le_mul_of_nonneg_right e1 hcq.le
    have k3 : (t : ℚ) * v ≤ (t : ℚ) * ((a : ℚ) / b * (1 + 1 / 2 ^ 52)) :=
      mul_le_mul_of_nonneg_left hhi htq.le
    have k4 : (K + 1) * ((1 - 1 / 2 ^ 53) * (1 - 1 / 2 ^ 53)) ≤ (K + 1) * T * T := by
      rw [mul_assoc]
      exact mul_le_mul_of_nonneg_left (mul_le_mul th1 th1 (by norm_num) th0.le) (by linarith)
    have k5 : ((t : ℚ) * a + 1) / b ≤ K + 1 := by
      rw [div_le_iff₀ hbq]; exact hK2q
    have k6 : (t : ℚ) * ((a : ℚ) / b * (1 + 1 / 2 ^ 52)) =
        (t : ℚ) * a / b * (1 + 1 / 2 ^ 52) := by ring
    have k7 : ((t : ℚ) * a + 1) / b = (t : ℚ) * a / b + 1 / b := by rw [add_div]
    have k8 : (1 : ℚ) / 10 ≤ 1 / b := one_div_le_one_div_of_le hbq hb10
    have k9 : (t : ℚ) * a / b ≤ 2 ^ 46 := by
      rw [div_le_iff₀ hbq]
      calc (t : ℚ) * a ≤ (t : ℚ) * b := mul_le_mul_of_nonneg_left habq htq.le
        _ ≤ 2 ^ 46 * b := mul_le_mul_of_nonneg_right ht46q hbq.le
    have k10 : (0 : ℚ) ≤ (t : ℚ) * a / b := by positivity
    rw [k6] at k3
    rw [k7] at k5
    generalize (t : ℚ) * a / b = x at *
    generalize (1 : ℚ) / b = y at *
    have k11 : (x + y) * ((1 - 1 / 2 ^ 53) * (1 - 1 / 2 ^ 53)) ≤
        (K + 1) * ((1 - 1 / 2 ^ 53) * (1 - 1 / 2 ^ 53)) :=
      mul_le_mul_of_nonneg_right k5 (by norm_num)
    norm_num at k11 k3 k9 k8 k4
    linarith
  have r1 : ((t * a / b : Int) : ℚ) < ((F64.mul (F64.ofInt t) c).toInt : ℚ) + 1 :=
    lt_of_le_of_lt hlow n2
  have r2 : ((F64.mul (F64.ofInt t) c).toInt : ℚ) < ((t * a / b : Int) : ℚ) + 1 :=
    lt_of_le_of_lt n1 hup
  have r1' : t * a / b < (F64.mul (F64.ofInt t) c).toInt + 1 := by exact_mod_cast r1
  have r2' : (F64.mul (F64.ofInt t) c).toInt < t * a / b + 1 := by exact_mod_cast r2
  omega

/-! ## Font size tiers -/

theorem half_const : (F64.round 5 10).Pos ∧ (F64.round 5 10).toRat = 1 / 2 := by
  have h1 : (F64.round 5 10).num = 9007199254740992 := by decide!
  have h2 : (F64.round 5 10).den = 18014398509481984 := by decide!
  refine ⟨⟨by rw [h1]; decide, by rw [h2]; decide⟩, ?_⟩
  unfold F64.toRat
  rw [h1, h2]
  norm_num

theorem nine_tenths_const : (F64.round 9 10).Pos ∧ (9 : ℚ) / 10 ≤ (F64.round 9 10).toRat ∧
    (F64.round 9 10).toRat ≤ (9 : ℚ) / 10 * (1 + 1 / 2 ^ 52) := by
  have h1 : (F64.round 9 10).num = 8106479329266893 := by decide!
  have h2 : (F64.round 9 10).den = 9007199254740992 := by decide!
  refine ⟨⟨by rw [h1]; decide, by rw [h2]; decide⟩, ?_, ?_⟩
  · unfold F64.toRat
    rw [h1, h2]
    norm_num
  · unfold F64.toRat
    rw [h1, h2]
    norm_num

theorem floor_mul_frac (t : Int) (a b : Nat) :
    ⌊(t : ℚ) * ((a : ℚ) / (b : ℚ))⌋ = t * a / b := by
  have e : (t : ℚ) * ((a : ℚ) / (b : ℚ)) = ((t * a : Int) : ℚ) / ((b : Nat) : ℚ) := by
    push_cast
    rw [mul_div_assoc]
  rw [e, Rat.floor_intCast_div_natCast]

theorem fontSize_middle_tier : ∀ n : Fin 40,
    F64.toInt (F64.mul (F64.ofInt ((n.val : Int) + 40)) (F64.round 7 10)) =
      ((n.val : Int) + 40) * 7 / 10 := by
  decide!

/-- The default resolution of `main` always supplies a font size. -/
theorem mainDefaults_fontSize_ne_nil (args : Args) : (mainDefaults args).fontSize ≠ [] := by
  unfold mainDefaults
  split_ifs <;> simp_all [str]

/-- The font size that `processImage` hands to `addCaption` is the one computed from the
font size option and the resolved thickness. -/
theorem processImage_caption_fontSize (lowerUnicode : GoString → GoString)
    (parseOther : GoString → Option F64) (imagePath : GoString) (args : Args) (img : Image)
    (exifDate : Except String Time) (r : Processed) (c : CaptionCall)
    (hr : processImage lowerUnicode parseOther imagePath args img exifDate = some r)
    (hc : r.caption = some c) :
    c.fontSize = processImage_fontSize args.fontSize r.t ∧
    c.captionText = processImage_captionText args.caption exifDate ∧ c.captionText ≠ [] := by
  unfold processImage at hr
  simp only [] at hr
  split at hr
  · exact absurd hr (by simp)
  · simp only [Option.some.injEq] at hr
    subst hr
    simp only at hc
    split_ifs at hc with h1
    simp only [Option.some.injEq] at hc
    subst hc
    exact ⟨rfl, rfl, h1⟩
/-- C19: a supplied font size is used, as `strconv.Atoi` reads it.  With no font size
supplied and a resolved thickness `0 ≤ t ≤ 2 ^ 46` the font size is `floor(t * 0.5)` if
`t < 40`, `floor(t * 0.7)` if `40 ≤ t < 80`, and `floor(t * 0.9)` if `t ≥ 80`. -/
theorem processImage_fontSize_spec (fontSize : GoString) (t : Int) (hlo : 0 ≤ t)
    (hhi : t ≤ 2 ^ 46) :
    (fontSize ≠ [] → processImage_fontSize fontSize t = Atoi fontSize) ∧
    (fontSize = [] → processImage_fontSize fontSize t =
      if t < 40 then ⌊(t : ℚ) * (1 / 2)⌋
      else if t < 80 then ⌊(t : ℚ) * (7 / 10)⌋
      else ⌊(t : ℚ) * (9 / 10)⌋) := by
  have f2 : ∀ x : Int, ⌊(x : ℚ) * (1 / 2)⌋ = x * 1 / 2 := fun x => by
    have := floor_mul_frac x 1 2
    simpa using this
  have f7 : ∀ x : Int, ⌊(x : ℚ) * (7 / 10)⌋ = x * 7 / 10 := fun x => by
    have := floor_mul_frac x 7 10
    simpa using this
  have f9 : ∀ x : Int, ⌊(x : ℚ) * (9 / 10)⌋ = x * 9 / 10 := fun x => by
    have := floor_mul_frac x 9 10
    simpa using this
  obtain ⟨p5, v5⟩ := half_const
  obtain ⟨p9, l9, u9⟩ := nine_tenths_const
  have half : ∀ x : Int, 0 < x → x ≤ 2 ^ 46 →
      F64.toInt (F64.mul (F64.ofInt x) (F64.round 5 10)) = x * 1 / 2 := fun x hx hx46 =>
    scaled_const_floor x _ 1 2 hx hx46 p5 (by decide) (by decide) (by decide)
      (by rw [v5]; norm_num) (by rw [v5]; norm_num)
  refine ⟨fun h => ?_, fun h => ?_⟩
  · unfold processImage_fontSize
    rw [if_pos h]
  · unfold processImage_fontSize
    rw [if_neg (not_not.mpr h)]
    by_cases h40 : t < 40
    · rw [if_pos h40, if_pos h40, f2]
      rcases hlo.eq_or_lt with hz | hpos
      · rw [← hz]
        rw [F64.mul_zero_left _ _ (show (F64.ofInt 0).num = 0 from F64.round_zero 1)]
        rfl
      · exact half t hpos hhi
    · rw [if_neg h40, if_neg h40]
      by_cases h80 : t < 80
      · rw [if_pos h80, if_pos h80, f7]
        have hn : ((t - 40).toNat : Int) = t - 40 := Int.toNat_of_nonneg (by omega)
        have := fontSize_middle_tier ⟨(t - 40).toNat, by omega⟩
        simp only [hn, sub_add_cancel] at this
        exact this
      · rw [if_neg h80, if_neg h80, f9]
        exact scaled_const_floor t _ 9 10 (by omega) hhi p9 (by decide) (by decide)
          (by decide) (by push_cast; exact l9) (by push_cast; exact u9)

/-- C19 at the thickness `100` with no font size supplied. -/
theorem processImage_fontSize_spec_witness :
    processImage_fontSize [] 100 = 90 := by
  have h := (processImage_fontSize_spec [] 100 (by decide) (by decide)).2 rfl
  rw [h]
  norm_num

/-! ## Style classification in `main` and `processImage` -/

/-- C20 fails on the code for a style written with a capital letter.  For `Instagram`,
`main` compares the string itself with `"instagram"` and fills the defaults of the other
styles (thickness `20`, font size `50`, maximum size `900`), while `processImage` lowers
the case first and runs the Instagram compositor and suffix.  For `Solid`, `main` sets the
padding `"0"` instead of the solid default `"150"`, while `processImage` dispatches to the
`solid` case. -/
theorem style_classification_disagrees :
    (∀ lowerUnicode, processImage_style lowerUnicode (str "Instagram") = .instagram) ∧
    mainDefaults ⟨[], [], [], str "Instagram", [], [], [], [], 0⟩ =
      ⟨[], str "20", str "0", str "Instagram", [], [], str "50", [], 900⟩ ∧
    mainDefaults ⟨[], [], [], str "instagram", [], [], [], [], 0⟩ =
      ⟨[], str "5", str "0", str "instagram", [], [], str "20", [], 1000⟩ ∧
    (∀ lowerUnicode, processImage_style lowerUnicode (str "Solid") = .solid) ∧
    (mainDefaults ⟨[], [], [], str "Solid", [], [], [], [], 0⟩).padding = str "0" ∧
    (mainDefaults ⟨[], [], [], str "solid", [], [], [], [], 0⟩).padding = str "150" := by
  refine ⟨fun f => ?_, by decide, by decide, fun f => ?_, by decide, by decide⟩
  · unfold processImage_style
    rw [ToLower_ascii f _ (by decide)]
    decide
  · unfold processImage_style
    rw [ToLower_ascii f _ (by decide)]
    decide

/-! ## The bordered block on the Instagram canvas -/

/-- C21: for a source with positive width and height, `maxSize = M > 0`, thickness `t ≥ 0`
and padding `p ≥ 0` with `M + 2p + 2t ≤ 1080`, the bordered block that
`createInstagramFrame` pastes at the centring offset `(x, y)` lies inside the
`1080 × 1350` canvas: `0 ≤ x`, `x + blockWidth ≤ 1080`, `0 ≤ y` and
`y + blockHeight ≤ 1350`; the reported picture position is that offset moved by `t + p`. -/
theorem createInstagramFrame_block_inside (img : Image) (M t p : Int) (c : RGBA)
    (hW : 0 < img.bounds.Dx) (hH : 0 < img.bounds.Dy) (hM : 0 < M) (ht : 0 ≤ t)
    (hp : 0 ≤ p) (hfit : M + 2 * p + 2 * t ≤ 1080) :
    ∃ g r, instagramLayout img.bounds.Dx img.bounds.Dy M t p = some g ∧
      createInstagramFrame img M t c p = some r ∧
      r.imagePos = ⟨g.x + t + p, g.y + t + p⟩ ∧
      0 ≤ g.x ∧ g.x + g.borderedDx ≤ 1080 ∧ 0 ≤ g.y ∧ g.y + g.borderedDy ≤ 1350 := by
  obtain ⟨g, hg, hr, _⟩ := createInstagramFrame_eq img M t p c hW.ne' hH.ne'
  obtain ⟨hs, hc, _⟩ := instagramLayout_sides _ _ M t p g hW hH hM (by omega) hg
  obtain ⟨_, _, e3, e4, e5, e6, e7, e8, e9, e10⟩ :=
    instagramLayout_exact _ _ M t p M g hW hH ht hp (by omega) hg hs hc
  refine ⟨g, _, hg, hr, ?_, ?_⟩
  · show (⟨add64 (add64 g.x t) p, add64 (add64 g.y t) p⟩ : Point) = _
    rw [e9, e10]
  · have bx := tdiv_two_bounds (1080 - g.borderedDx)
    have by1 := tdiv_two_bounds (1350 - g.borderedDy)
    rw [← e7] at bx
    rw [← e8] at by1
    obtain ⟨s1, s2, s3, s4⟩ := hs
    obtain ⟨c1, c2, c3, c4⟩ := hc
    by_cases hp0 : p > 0
    · rw [if_pos hp0] at e3 e4
      omega
    · rw [if_neg hp0] at e3 e4
      omega

/-- C21 at a `2000 × 1500` source with `maxSize = 1000`, thickness `5` and padding `20`. -/
theorem createInstagramFrame_block_inside_witness :
    ∃ g r, instagramLayout (blankImage 2000 1500).bounds.Dx (blankImage 2000 1500).bounds.Dy
        1000 5 20 = some g ∧
      createInstagramFrame (blankImage 2000 1500) 1000 5 white 20 = some r ∧
      r.imagePos = ⟨g.x + 5 + 20, g.y + 5 + 20⟩ ∧
      0 ≤ g.x ∧ g.x + g.borderedDx ≤ 1080 ∧ 0 ≤ g.y ∧ g.y + g.borderedDy ≤ 1350 :=
  createInstagramFrame_block_inside (blankImage 2000 1500) 1000 5 20 white
    (by decide) (by decide) (by decide) (by decide) (by decide) (by decide)

end Framer
